import Mathlib

/-!
# mtrace: memory access tracing/logging (src/mtrace.c)

A shallow embedding of the tracing engine of `mtrace.c` and theorems about it.

Conventions of the embedding.

* The C file keeps its state in file-scope statics (and in two function-local
  statics, `flush_buffer`/`n` of `mtrace_log_entry` and `sampler` of
  `mtrace_access_dump`).  Here all of them are fields of one record, `State`,
  which every operation takes and returns.
* A call either returns normally (`Except.ok`) or does not: `Fault.abort` is a
  reached `abort()`, `Fault.undefined` is behaviour C leaves undefined
  (indexing outside an array, a NULL dereference, an oversized shift, a
  division by zero, signed overflow).
* `int` is 32 bits, `unsigned long`, `uint64_t` and `target_ulong` are 64 bits
  (an LP64 host with an x86-64 guest); unsigned arithmetic is reduced
  explicitly modulo `2 ^ 32` or `2 ^ 64`.
* What the emulator supplies (`cpu_single_env`, the clock, guest memory,
  address translation) is an argument of the operation that consumes it.
* `State.written` and `State.emitted` are history variables: the payloads
  handed to `write_all` and the entries handed to `mtrace_log_entry`, in call
  order.  No operation reads them.
-/

namespace Mtrace

/-! ## Faults -/

/-- How a call can fail to return normally. -/
inductive Fault where
  | abort
  | undefined
  deriving DecidableEq, Repr

/-! ## Constants -/

/-- The macro `MTRACE_CLINE_SHIFT`: 64-byte cache lines. -/
def MTRACE_CLINE_SHIFT : Nat := 6

/-- The macro `FLUSH_BUFFER_BYTES`: bytes of log data to buffer. -/
def FLUSH_BUFFER_BYTES : Nat := 8192

/-- Length of the per-core arrays `mtrace_call_stack_active`, `mtrace_lock_active`
and `mtrace_tsc`. -/
def MAX_CPUS : Nat := 255

/-- Width of C `int` and of `uint8_t` cells of the sharing bitmap. -/
def INT_BITS : Nat := 32

/-- Number of values of a `uint8_t`. -/
def UINT8_SIZE : Nat := 256

/-- Number of values of a 32-bit unsigned integer. -/
def UINT32_SIZE : Nat := 2 ^ 32

/-- Number of values of a `uint64_t`. -/
def UINT64_SIZE : Nat := 2 ^ 64

/-! ## Record layout

`mtrace-magic.h`, which declares the entry structures and the enumerations,
is not part of the source tree; what the code needs of it is modelled here. -/

/-- Modelled from the spec: the entry kinds of `mtrace_entry_t` declared in the
missing `mtrace-magic.h`; only their being distinct matters. -/
def mtrace_entry_label : Nat := 1

/-- Modelled from the spec: see `mtrace_entry_label`. -/
def mtrace_entry_access : Nat := 2

/-- Modelled from the spec: see `mtrace_entry_label`. -/
def mtrace_entry_host : Nat := 3

/-- Modelled from the spec: see `mtrace_entry_label`. -/
def mtrace_entry_call : Nat := 4

/-- Modelled from the spec: see `mtrace_entry_label`. -/
def mtrace_entry_machine : Nat := 5

/-- Modelled from the spec: access kinds of `mtrace_access_t` (load, store,
io-write) declared in the missing `mtrace-magic.h`. -/
def mtrace_access_ld : Nat := 1

/-- Modelled from the spec: see `mtrace_access_ld`. -/
def mtrace_access_st : Nat := 2

/-- Modelled from the spec: see `mtrace_access_ld`. -/
def mtrace_access_iw : Nat := 3

/-- Modelled from the spec: host-control subtypes (set-global-enable,
clear-core-call-tracing, set-core-call-tracing) of the missing `mtrace-magic.h`. -/
def mtrace_access_all_cpu : Nat := 1

/-- Modelled from the spec: see `mtrace_access_all_cpu`. -/
def mtrace_call_clear_cpu : Nat := 2

/-- Modelled from the spec: see `mtrace_access_all_cpu`. -/
def mtrace_call_set_cpu : Nat := 3

/-- Little-endian encoding of `v` in `k` bytes (the value is truncated to `k` bytes,
as a C store into a field of that width does). -/
def le_bytes : Nat → Nat → List Nat
  | 0, _ => []
  | k + 1, v => (v % 256) :: le_bytes k (v / 256)

/-- Value of a little-endian byte string. -/
def le_value : List Nat → Nat
  | [] => 0
  | b :: bs => b % 256 + 256 * le_value bs

/-- Modelled from the spec: the common header of every record,
`{kind: u32, byteSize: u32, coreId: u32, globalAccessSeq: u64, timestamp: u64}`
(`struct mtrace_entry_header` of the missing `mtrace-magic.h`), with the C field names. -/
structure mtrace_entry_header where
  type : Nat
  size : Nat
  cpu : Nat
  access_count : Nat
  ts : Nat

/-- Modelled from the spec: encoded size of the header, fields packed in the
order the spec lists them. -/
def HEADER_BYTES : Nat := 28

/-- Modelled from the spec: byte offset of `byteSize` in the header. -/
def SIZE_OFFSET : Nat := 4

/-- Bytes of a header in memory. -/
def mtrace_entry_header.mem (h : mtrace_entry_header) : List Nat :=
  le_bytes 4 h.type ++ le_bytes 4 h.size ++ le_bytes 4 h.cpu ++
    le_bytes 8 h.access_count ++ le_bytes 8 h.ts

/-- A record as the tracer builds it: one of the member structures of
`union mtrace_entry`.  `access`, `call` and `machine` are the structures the
tracer fills field by field; `guest` is a whole `union mtrace_entry` whose bytes
after the header came from guest memory (`rest` always has
`sizeof(union mtrace_entry) - HEADER_BYTES` bytes). -/
inductive mtrace_entry where
  | access (h : mtrace_entry_header)
      (access_type pc host_addr guest_addr : Nat) (traffic lock : Int)
  | call (h : mtrace_entry_header) (target_pc return_pc : Nat) (ret : Int)
  | machine (h : mtrace_entry_header) (num_cpus num_ram : Nat)
  | guest (h : mtrace_entry_header) (rest : List Nat)

/-- The member `h` of the union. -/
def mtrace_entry.h : mtrace_entry → mtrace_entry_header
  | .access h _ _ _ _ _ _ => h
  | .call h _ _ _ => h
  | .machine h _ _ => h
  | .guest h _ => h

/-- Two-complement image of an `int` stored into a one-byte field. -/
def int_byte (v : Int) : Nat := (v % 256).toNat

/-- Modelled from the spec: the bytes of the object an entry pointer points to.
The payload fields follow the header in the order the spec lists them
(addresses and program counters 8 bytes, enumerations and counts 4 bytes, flags
1 byte); the widths come from no source file and no theorem below depends on them. -/
def mtrace_entry.mem : mtrace_entry → List Nat
  | .access h access_type pc host_addr guest_addr traffic lock =>
      h.mem ++ le_bytes 4 access_type ++ le_bytes 8 pc ++ le_bytes 8 host_addr ++
        le_bytes 8 guest_addr ++ [int_byte traffic] ++ [int_byte lock]
  | .call h target_pc return_pc ret =>
      h.mem ++ le_bytes 8 target_pc ++ le_bytes 8 return_pc ++ [int_byte ret]
  | .machine h num_cpus num_ram =>
      h.mem ++ le_bytes 4 num_cpus ++ le_bytes 8 num_ram
  | .guest h rest => h.mem ++ rest

/-- Modelled from the spec: `sizeof(struct mtrace_access_entry)`. -/
def sizeof_access_entry : Nat := 58

/-- Modelled from the spec: `sizeof(struct mtrace_call_entry)`. -/
def sizeof_call_entry : Nat := 45

/-- Modelled from the spec: `sizeof(struct mtrace_machine_entry)`. -/
def sizeof_machine_entry : Nat := 40

/-- Modelled from the spec: `sizeof(union mtrace_entry)`, the maximum entry size.
The label record (guest address 8, byte count 8, host address 8, label text 32)
is taken to be the largest member. -/
def sizeof_mtrace_entry : Nat := 84

/-- Modelled from the spec: offsets, from the end of the header, of the label
record's `guest_addr` and `host_addr`. -/
def LABEL_GUEST_ADDR : Nat := 0

/-- Modelled from the spec: see `LABEL_GUEST_ADDR`. -/
def LABEL_HOST_ADDR : Nat := 16

/-- Modelled from the spec: offsets, from the end of the header, of the
host-control record's subtype `host_type`, of its payload (`access.value` and
`call.cpu` share it) and of `global_ts`. -/
def HOST_TYPE : Nat := 0

/-- Modelled from the spec: see `HOST_TYPE`. -/
def HOST_VALUE : Nat := 4

/-- Modelled from the spec: see `HOST_TYPE`. -/
def HOST_GLOBAL_TS : Nat := 12

/-- The bytes `mtrace_log_entry` ships for an entry: the first `h.size` bytes of
the object. -/
def mtrace_entry.image (e : mtrace_entry) : List Nat :=
  e.mem.take e.h.size

/-! ## State -/

/-- A RAM block of the emulator, with the field the tracer adds to it:
`cline_track`, one `uint8_t` per cache line, or `none` for a NULL pointer. -/
structure RAMBlock where
  host : Nat
  length : Nat
  cline_track : Option (List Nat)

/-- One cell of `mtrace_tsc`. -/
structure Tsc where
  offset : Nat
  start : Nat

/-- The statics of `mtrace.c`, the emulator's RAM block list, and the two
history variables `written` and `emitted`. -/
structure State where
  mtrace_system_enable : Int
  mtrace_enable : Int
  mtrace_lock_trace : Int
  mtrace_cline_track : Int
  mtrace_sample : Int
  mtrace_quantum : Int
  mtrace_access_count : Nat
  mtrace_call_stack_active : Nat → Int
  mtrace_call_trace : Int
  mtrace_lock_active : Nat → Int
  mtrace_tsc : Nat → Tsc
  flush_buffer : List Nat
  n : Nat
  sampler : Int
  ram : List RAMBlock
  written : List (List Nat)
  emitted : List mtrace_entry

/-- The state at program start: statics zero-initialised except
`mtrace_cline_track = 1` and `mtrace_sample = 1`, and the given RAM blocks. -/
def State.init (ram : List RAMBlock) : State :=
  { mtrace_system_enable := 0
    mtrace_enable := 0
    mtrace_lock_trace := 0
    mtrace_cline_track := 1
    mtrace_sample := 1
    mtrace_quantum := 0
    mtrace_access_count := 0
    mtrace_call_stack_active := fun _ => 0
    mtrace_call_trace := 0
    mtrace_lock_active := fun _ => 0
    mtrace_tsc := fun _ => ⟨0, 0⟩
    flush_buffer := List.replicate FLUSH_BUFFER_BYTES 0
    n := 0
    sampler := 0
    ram := ram
    written := []
    emitted := [] }

/-- The CPU the emulator is stepping (`cpu_single_env`, or the `env` argument):
its index, its recorded instruction pointer, and what successive calls of
`cpu_get_tsc` return during the current operation (`tsc 0` first). -/
structure CPUX86State where
  cpu_index : Nat
  eip : Nat
  tsc : Nat → Nat

/-- Services of the emulator the tracer calls.  `guest_pc a` is the guest PC
that `tb_find_pc` and `cpu_restore_state` recover for the host return address
`a` (`none`: no translation block); `guest_byte` reads a byte of guest memory
(`none`: the access fails); the rest are the functions of the same names. -/
structure Emu where
  guest_pc : Nat → Option Nat
  guest_byte : Nat → Option Nat
  cpu_get_phys_page_debug : Nat → Option Nat
  phys_page_find : Nat → Option Nat
  qemu_get_ram_ptr : Nat → Nat
  TARGET_PAGE_BITS : Nat
  IO_MEM_ROM : Nat
  IO_MEM_ROMD : Nat

/-! ## Configuration setters -/

/-- The function `mtrace_cline_trace_set`. -/
def mtrace_cline_trace_set (s : State) (b : Int) : State :=
  { s with mtrace_cline_track := b }

/-- The function `mtrace_lock_trace_set`. -/
def mtrace_lock_trace_set (s : State) (b : Int) : State :=
  { s with mtrace_lock_trace := b }

/-- The function `mtrace_system_enable_set`. -/
def mtrace_system_enable_set (s : State) (b : Int) : State :=
  { s with mtrace_system_enable := b }

/-- The function `mtrace_call_trace_set`. -/
def mtrace_call_trace_set (s : State) (b : Int) : State :=
  { s with mtrace_call_trace := b }

/-- The function `mtrace_sample_set`. -/
def mtrace_sample_set (s : State) (n : Int) : State :=
  { s with mtrace_sample := n }

/-! ## Log sink -/

/-- One result of the system call `write`: `r` bytes accepted, or failure with
`errno == EINTR`, or failure with another `errno`. -/
inductive WriteResult where
  | wrote (r : Nat)
  | eintr
  | failed

/-- The loop of `write_all` run against a script of `write` results.  Returns the
bytes the descriptor accepted, `Fault.abort` on a failure other than `EINTR`, and
`none` when the script ends before `len` reaches zero. -/
def write_all : List WriteResult → List Nat → Option (Except Fault (List Nat))
  | _, [] => some (.ok [])
  | [], _ :: _ => none
  | .eintr :: script, d :: data => write_all script (d :: data)
  | .failed :: _, _ :: _ => some (.error .abort)
  | .wrote r :: script, d :: data =>
      match write_all script ((d :: data).drop r) with
      | some (.ok out) => some (.ok ((d :: data).take r ++ out))
      | other => other

/-- The call `memcpy(&dst[n], src, len)` with `len` the length of `src`. -/
def memcpy_at (dst : List Nat) (n : Nat) (src : List Nat) : List Nat :=
  dst.take n ++ src ++ dst.drop (n + src.length)

/-- The statement pair `write_all(mtrace_file, flush_buffer, n); n = 0;`. -/
def flush (s : State) : State :=
  { s with written := s.written ++ [s.flush_buffer.take s.n], n := 0 }

/-- The function `mtrace_log_entry`; `none` is the NULL entry.  `h.size` is a
32-bit unsigned field, so `n + entry->h.size` is computed modulo `2 ^ 32`. -/
def mtrace_log_entry (s : State) : Option mtrace_entry → State
  | none => flush s
  | some entry =>
      let s1 := if (s.n + entry.h.size) % UINT32_SIZE > FLUSH_BUFFER_BYTES then flush s else s
      let s2 :=
        if entry.h.size > FLUSH_BUFFER_BYTES then
          { s1 with written := s1.written ++ [entry.image] }
        else
          { s1 with flush_buffer := memcpy_at s1.flush_buffer s1.n entry.image
                    n := s1.n + entry.h.size }
      { s2 with emitted := s2.emitted ++ [entry] }

/-- Hand a sequence of entries to `mtrace_log_entry`, in order. -/
def log_entries (s : State) (es : List mtrace_entry) : State :=
  es.foldl (fun t e => mtrace_log_entry t (some e)) s

/-- The bytes of a sequence of records laid end to end. -/
def images (es : List mtrace_entry) : List Nat :=
  (es.map mtrace_entry.image).flatten

/-- An entry the tracer can hand to `mtrace_log_entry`: its `h.size` bytes lie
inside the object pointed to, and the object is small enough for
`n + entry->h.size` not to wrap (every entry is at most a `union mtrace_entry`). -/
def entry_ok (e : mtrace_entry) : Prop :=
  e.h.size ≤ e.mem.length ∧ e.h.size + FLUSH_BUFFER_BYTES < UINT32_SIZE

/-- A record a reader can take back: an entry the tracer can hand to
`mtrace_log_entry` whose `h.size` covers at least the header. -/
def record_ok (e : mtrace_entry) : Prop :=
  entry_ok e ∧ HEADER_BYTES ≤ e.h.size

instance entry_ok_decidable (e : mtrace_entry) : Decidable (entry_ok e) := by
  unfold entry_ok
  exact inferInstance

instance record_ok_decidable (e : mtrace_entry) : Decidable (record_ok e) := by
  unfold record_ok
  exact inferInstance

/-! ## Access records -/

/-- The function `mtrace_get_pc`.  `mtrace_enable` is saved, cleared and restored
around `cpu_restore_state`, so the tracer state is the same on return. -/
def mtrace_get_pc (emu : Emu) (env : CPUX86State) (searched_pc : Nat) : Nat :=
  if searched_pc = 0 then env.eip
  else
    match emu.guest_pc searched_pc with
    | none => env.eip
    | some pc => pc

/-- The function `mtrace_access_dump`.  `sampler++ % mtrace_sample` is undefined
for a zero divisor, for `INT_MIN % -1`, and when the increment overflows `int`. -/
def mtrace_access_dump (emu : Emu) (env : CPUX86State) (s : State)
    (type host_addr guest_addr access_count retaddr : Nat) (traffic lock : Int) :
    Except Fault State :=
  if s.mtrace_enable = 0 then .ok s
  else if s.mtrace_sample = 0 then .error .undefined
  else if s.sampler = 2 ^ 31 - 1 then .error .undefined
  else if s.sampler = -(2 ^ 31) ∧ s.mtrace_sample = -1 then .error .undefined
  else
    let s1 := { s with sampler := s.sampler + 1 }
    if Int.tmod s.sampler s.mtrace_sample ≠ 0 then .ok s1
    else
      let h : mtrace_entry_header :=
        { type := mtrace_entry_access
          size := sizeof_access_entry
          cpu := env.cpu_index % UINT32_SIZE
          access_count := access_count % UINT64_SIZE
          ts := 0 }
      .ok (mtrace_log_entry s1
        (some (.access h type (mtrace_get_pc emu env retaddr) host_addr guest_addr traffic lock)))

/-! ## Cache-line sharing detector -/

/-- The emulator's `qemu_ramblock_from_host`: the position in the RAM list of the
first block with `host_addr - block->host < block->length`; `none` when there is
none (the emulator aborts). -/
def qemu_ramblock_from_host : List RAMBlock → Nat → Option Nat
  | [], _ => none
  | b :: bs, host_addr =>
      if b.host ≤ host_addr ∧ host_addr - b.host < b.length then some 0
      else (qemu_ramblock_from_host bs host_addr).map (· + 1)

/-- The expression `1 << cpu`, of type `int`: undefined unless the result fits. -/
def shl_one (cpu : Nat) : Except Fault Nat :=
  if cpu < INT_BITS - 1 then .ok (1 <<< cpu) else .error .undefined

/-- A resolved cache line: the block's position, the line index
`offset >> MTRACE_CLINE_SHIFT`, the block's bitmap and the line's cell. -/
structure Line where
  blk : Nat
  cline : Nat
  track : List Nat
  val : Nat

/-- The common prefix of the two detector functions: find the block of
`host_addr`, compute `offset` and `cline`, read `block->cline_track[cline]`. -/
def cline_lookup (ram : List RAMBlock) (host_addr : Nat) : Except Fault Line :=
  match qemu_ramblock_from_host ram host_addr with
  | none => .error .abort
  | some i =>
      match ram[i]? with
      | none => .error .undefined
      | some block =>
          let offset := host_addr - block.host
          let cline := offset >>> MTRACE_CLINE_SHIFT
          match block.cline_track with
          | none => .error .undefined
          | some track =>
              match track[cline]? with
              | none => .error .undefined
              | some v => .ok ⟨i, cline, track, v⟩

/-- The store `block->cline_track[cline] = v` into a `uint8_t` cell. -/
def cline_store (ram : List RAMBlock) (ln : Line) (v : Nat) : List RAMBlock :=
  match ram[ln.blk]? with
  | none => ram
  | some block =>
      ram.set ln.blk { block with cline_track := some (ln.track.set ln.cline (v % UINT8_SIZE)) }

/-- The cell of line `cline` of the block at position `blk`, if there is one. -/
def bitmap (s : State) (blk cline : Nat) : Option Nat :=
  match s.ram[blk]? with
  | none => none
  | some block =>
      match block.cline_track with
      | none => none
      | some track => track[cline]?

/-- The function `mtrace_cline_update_ld`. -/
def mtrace_cline_update_ld (s : State) (host_addr cpu : Nat) : Except Fault (State × Int) :=
  if s.mtrace_cline_track = 0 then .ok (s, 1)
  else
    match cline_lookup s.ram host_addr with
    | .error f => .error f
    | .ok ln =>
        match shl_one cpu with
        | .error f => .error f
        | .ok m =>
            if ln.val &&& m ≠ 0 then .ok (s, 0)
            else .ok ({ s with ram := cline_store s.ram ln (ln.val ||| m) }, 1)

/-- The function `mtrace_cline_update_st`. -/
def mtrace_cline_update_st (s : State) (host_addr cpu : Nat) : Except Fault (State × Int) :=
  if s.mtrace_cline_track = 0 then .ok (s, 1)
  else
    match cline_lookup s.ram host_addr with
    | .error f => .error f
    | .ok ln =>
        match shl_one cpu with
        | .error f => .error f
        | .ok m =>
            if ln.val = m then .ok (s, 0)
            else .ok ({ s with ram := cline_store s.ram ln m }, 1)

/-- The read `mtrace_lock_active[cpu_single_env->cpu_index]`. -/
def lock_active_get (s : State) (env : CPUX86State) : Except Fault Int :=
  if env.cpu_index < MAX_CPUS then .ok (s.mtrace_lock_active env.cpu_index)
  else .error .undefined

/-- The part of `mtrace_st`, `mtrace_ld` and `mtrace_io_write` after the detector
call: read the lock flag and dump the access when `r || lock`. -/
def access_tail (emu : Emu) (env : CPUX86State) (type host_addr guest_addr a retaddr : Nat)
    (sr : State × Int) : Except Fault State :=
  match lock_active_get sr.1 env with
  | .error f => .error f
  | .ok lock =>
      if sr.2 ≠ 0 ∨ lock ≠ 0 then
        mtrace_access_dump emu env sr.1 type host_addr guest_addr a retaddr sr.2 lock
      else .ok sr.1

/-- The function `mtrace_st`. -/
def mtrace_st (emu : Emu) (env : CPUX86State) (s : State)
    (host_addr guest_addr retaddr : Nat) : Except Fault State :=
  if s.mtrace_system_enable = 0 then .ok s
  else
    let a := s.mtrace_access_count
    let s1 := { s with mtrace_access_count := (s.mtrace_access_count + 1) % UINT64_SIZE }
    match mtrace_cline_update_st s1 host_addr env.cpu_index with
    | .error f => .error f
    | .ok sr => access_tail emu env mtrace_access_st host_addr guest_addr a retaddr sr

/-- The function `mtrace_ld`. -/
def mtrace_ld (emu : Emu) (env : CPUX86State) (s : State)
    (host_addr guest_addr retaddr : Nat) : Except Fault State :=
  if s.mtrace_system_enable = 0 then .ok s
  else
    let a := s.mtrace_access_count
    let s1 := { s with mtrace_access_count := (s.mtrace_access_count + 1) % UINT64_SIZE }
    match mtrace_cline_update_ld s1 host_addr env.cpu_index with
    | .error f => .error f
    | .ok sr => access_tail emu env mtrace_access_ld host_addr guest_addr a retaddr sr

/-! ## Virtual timestamps -/

/-- The emulator's `cpu_get_tsc`, a `uint64_t`: the `k`-th reading of the
current operation. -/
def cpu_get_tsc (env : CPUX86State) (k : Nat) : Nat :=
  env.tsc k % UINT64_SIZE

/-- Subtraction of `uint64_t` values. -/
def sub64 (a b : Nat) : Nat :=
  (a % UINT64_SIZE + UINT64_SIZE - b % UINT64_SIZE) % UINT64_SIZE

/-- Addition of `uint64_t` values. -/
def add64 (a b : Nat) : Nat :=
  (a + b) % UINT64_SIZE

/-- The function `mtrace_get_percore_tsc`, reading the clock as its `k`-th reading. -/
def mtrace_get_percore_tsc (s : State) (env : CPUX86State) (k : Nat) : Except Fault Nat :=
  if env.cpu_index < MAX_CPUS then
    .ok (add64 (sub64 (cpu_get_tsc env k) (s.mtrace_tsc env.cpu_index).start)
      (s.mtrace_tsc env.cpu_index).offset)
  else .error .undefined

/-- The function `mtrace_get_global_tsc`. -/
def mtrace_get_global_tsc (env : CPUX86State) (k : Nat) : Nat :=
  cpu_get_tsc env k

/-- The function `mtrace_exec_start`. -/
def mtrace_exec_start (s : State) (env : CPUX86State) : Except Fault State :=
  if env.cpu_index < MAX_CPUS then
    let cell : Tsc := ⟨(s.mtrace_tsc env.cpu_index).offset, cpu_get_tsc env 0⟩
    .ok { s with mtrace_tsc := Function.update s.mtrace_tsc env.cpu_index cell }
  else .error .undefined

/-- The function `mtrace_exec_stop`. -/
def mtrace_exec_stop (s : State) (env : CPUX86State) : Except Fault State :=
  if env.cpu_index < MAX_CPUS then
    let cell : Tsc :=
      ⟨add64 (s.mtrace_tsc env.cpu_index).offset
          (sub64 (cpu_get_tsc env 0) (s.mtrace_tsc env.cpu_index).start),
        (s.mtrace_tsc env.cpu_index).start⟩
    .ok { s with mtrace_tsc := Function.update s.mtrace_tsc env.cpu_index cell }
  else .error .undefined

/-! ## Lock regions -/

/-- The function `mtrace_lock_start`. -/
def mtrace_lock_start (s : State) (env : CPUX86State) : Except Fault State :=
  if s.mtrace_lock_trace = 0 then .ok s
  else if env.cpu_index < MAX_CPUS then
    .ok { s with mtrace_lock_active := Function.update s.mtrace_lock_active env.cpu_index 1 }
  else .error .undefined

/-- The function `mtrace_lock_stop`. -/
def mtrace_lock_stop (s : State) (env : CPUX86State) : Except Fault State :=
  if s.mtrace_lock_trace = 0 then .ok s
  else if env.cpu_index < MAX_CPUS then
    if s.mtrace_lock_active env.cpu_index = 0 then .error .abort
    else .ok { s with mtrace_lock_active := Function.update s.mtrace_lock_active env.cpu_index 0 }
  else .error .undefined

/-! ## Call records and the machine record -/

/-- The function `mtrace_inst_call`.  `call.h.ts` is never assigned, so the record
carries whatever the stack held there (`stale_ts`). -/
def mtrace_inst_call (env : CPUX86State) (stale_ts : Nat) (s : State)
    (target_pc return_pc : Nat) (ret : Int) : Except Fault State :=
  if s.mtrace_system_enable = 0 ∨ s.mtrace_call_trace = 0 then .ok s
  else if env.cpu_index < MAX_CPUS then
    if s.mtrace_call_stack_active env.cpu_index = 0 then .ok s
    else
      let h : mtrace_entry_header :=
        { type := mtrace_entry_call
          size := sizeof_call_entry
          cpu := env.cpu_index % UINT32_SIZE
          access_count := s.mtrace_access_count
          ts := stale_ts % UINT64_SIZE }
      .ok (mtrace_log_entry s (some (.call h target_pc return_pc ret)))
  else .error .undefined

/-- The function `mtrace_init`, from the machine record on (opening the log
destination and registering `mtrace_cleanup` are outside the embedding);
`smp_cpus` and `ram_size` are the emulator's globals. -/
def mtrace_init (s : State) (smp_cpus ram_size : Nat) : State :=
  if s.mtrace_system_enable = 0 then s
  else
    let h : mtrace_entry_header :=
      { type := mtrace_entry_machine
        size := sizeof_machine_entry
        cpu := 0
        access_count := s.mtrace_access_count
        ts := 0 }
    mtrace_log_entry s (some (.machine h smp_cpus ram_size))

/-- The part of `mtrace_cleanup` that concerns the log: flush the buffer. -/
def mtrace_cleanup (s : State) : State :=
  mtrace_log_entry s none

/-! ## Control dispatch -/

/-- The emulator's `cpu_memory_rw_debug` for a read of `len` bytes of guest memory
at `addr`; `none` when a byte cannot be read (the call returns nonzero). -/
def cpu_memory_rw_debug (emu : Emu) : Nat → Nat → Option (List Nat)
  | _, 0 => some []
  | addr, len + 1 =>
      match emu.guest_byte addr, cpu_memory_rw_debug emu ((addr + 1) % UINT64_SIZE) len with
      | some b, some bs => some (b % UINT8_SIZE :: bs)
      | _, _ => none

/-- The function `mtrace_host_addr`; `none` is the return value -1, `some p` is
return value 0 with `*host_addr = p`.  `x & ~TARGET_PAGE_MASK` is the offset of
`x` in its page and `x & TARGET_PAGE_MASK` the start of the page. -/
def mtrace_host_addr (emu : Emu) (guest_addr : Nat) : Option Nat :=
  let page_size := 2 ^ emu.TARGET_PAGE_BITS
  match emu.cpu_get_phys_page_debug guest_addr with
  | none => none
  | some phys0 =>
      let phys := (phys0 + guest_addr % page_size) % UINT64_SIZE
      let page := phys - phys % page_size
      match emu.phys_page_find (page >>> emu.TARGET_PAGE_BITS) with
      | none => none
      | some pd =>
          if pd % page_size > emu.IO_MEM_ROM ∧ pd &&& emu.IO_MEM_ROMD = 0 then none
          else some ((emu.qemu_get_ram_ptr (pd - pd % page_size) + phys % page_size) % UINT64_SIZE)

/-- Conversion of a 64-bit unsigned value to `int` (two-complement truncation). -/
def to_int (v : Nat) : Int :=
  if v % UINT32_SIZE < 2 ^ 31 then (v % UINT32_SIZE : Nat) else (v % UINT32_SIZE : Nat) - 2 ^ 32

/-- The bytes of the local `union mtrace_entry entry` of `mtrace_entry_register`
after the copy from guest memory: the `len` copied bytes, then what the stack
held (`stale i` at offset `i`). -/
def entry_after_copy (copied : List Nat) (stale : Nat → Nat) : List Nat :=
  copied ++ (List.range' copied.length (sizeof_mtrace_entry - copied.length)).map
    (fun i => stale i % UINT8_SIZE)

/-- The label branch of `mtrace_entry_register`: translate `entry.label.guest_addr`
and store the result in `entry.label.host_addr`; `none` when translation fails. -/
def register_label (emu : Emu) (rest : List Nat) : Option (List Nat) :=
  match mtrace_host_addr emu (le_value ((rest.drop LABEL_GUEST_ADDR).take 8)) with
  | none => none
  | some host_addr => some (memcpy_at rest LABEL_HOST_ADDR (le_bytes 8 host_addr))

/-- The host-control branch of `mtrace_entry_register`: stamp `global_ts`, then act
on `entry.host.host_type`. -/
def register_host (env : CPUX86State) (s : State) (rest : List Nat) :
    Except Fault (State × List Nat) :=
  let rest1 := memcpy_at rest HOST_GLOBAL_TS (le_bytes 8 (mtrace_get_global_tsc env 1))
  let host_type := le_value ((rest1.drop HOST_TYPE).take 4)
  let value := le_value ((rest1.drop HOST_VALUE).take 8)
  if host_type = mtrace_access_all_cpu then
    .ok ({ s with mtrace_enable := to_int value }, rest1)
  else if host_type = mtrace_call_clear_cpu then
    if value < MAX_CPUS then
      .ok ({ s with mtrace_call_stack_active :=
        Function.update s.mtrace_call_stack_active value 0 }, rest1)
    else .error .undefined
  else if host_type = mtrace_call_set_cpu then
    if value < MAX_CPUS then
      .ok ({ s with mtrace_call_stack_active :=
        Function.update s.mtrace_call_stack_active value s.mtrace_enable }, rest1)
    else .error .undefined
  else .error .abort

/-- The function `mtrace_entry_register`, the handler of the guest's "register
entry" operation.  `stale` is the content of the stack where the local `entry`
lives; the all-ones `cpu` argument is the sentinel `~0`. -/
def mtrace_entry_register (emu : Emu) (env : CPUX86State) (stale : Nat → Nat) (s : State)
    (entry_addr type len cpu _n5 : Nat) : Except Fault State :=
  if len > sizeof_mtrace_entry then .ok s
  else
    match cpu_memory_rw_debug emu entry_addr len with
    | none => .ok s
    | some copied =>
        match mtrace_get_percore_tsc s env 0 with
        | .error f => .error f
        | .ok ts =>
            let h : mtrace_entry_header :=
              { type := type % UINT32_SIZE
                size := len % UINT32_SIZE
                cpu := (if cpu = UINT64_SIZE - 1 then env.cpu_index else cpu) % UINT32_SIZE
                access_count := s.mtrace_access_count
                ts := ts }
            let rest := (entry_after_copy copied stale).drop HEADER_BYTES
            match (if type = mtrace_entry_label then register_label emu rest else some rest) with
            | none => .ok s
            | some rest1 =>
                if type = mtrace_entry_host then
                  match register_host env s rest1 with
                  | .error f => .error f
                  | .ok sr => .ok (mtrace_log_entry sr.1 (some (.guest h sr.2)))
                else .ok (mtrace_log_entry s (some (.guest h rest1)))

/-! ## Reading the log back -/

/-- Modelled from the spec: one step of the reader of the log file format, which is
not part of the source tree.  It decodes a header, takes `byteSize` from it and
consumes exactly that many bytes; `none` when the stream ends inside the header
or inside the record, or when `byteSize` is less than the header it came from. -/
def read_record (stream : List Nat) : Option (List Nat × List Nat) :=
  if stream.length < HEADER_BYTES then none
  else
    let size := le_value ((stream.drop SIZE_OFFSET).take 4)
    if size < HEADER_BYTES then none
    else if stream.length < size then none
    else some (stream.take size, stream.drop size)

/-- Modelled from the spec: the reader run for at most `fuel` records; it stops,
successfully, exactly when the stream is empty. -/
def read_records : Nat → List Nat → Option (List (List Nat))
  | _, [] => some []
  | 0, _ :: _ => none
  | fuel + 1, b :: bs =>
      match read_record (b :: bs) with
      | none => none
      | some (r, rest) =>
          match read_records fuel rest with
          | none => none
          | some rs => some (r :: rs)

/-- Modelled from the spec: the reader on a whole stream.  Every record takes at
least one byte, so as many steps as there are bytes suffice. -/
def read_log (stream : List Nat) : Option (List (List Nat)) :=
  read_records stream.length stream

/-! ## Sequences of detector calls -/

/-- Which of the two detector functions a call is. -/
inductive Access where
  | load
  | store
  deriving DecidableEq, Repr

/-- One detector call: `mtrace_cline_update_ld` or `mtrace_cline_update_st`. -/
def detector_call (s : State) (c : Access × Nat × Nat) : Except Fault (State × Int) :=
  match c.1 with
  | .load => mtrace_cline_update_ld s c.2.1 c.2.2
  | .store => mtrace_cline_update_st s c.2.1 c.2.2

/-- Detector calls `(kind, host_addr, cpu)` made one after the other; the result
is the final state and the values returned, in call order. -/
def detector_calls : State → List (Access × Nat × Nat) → Except Fault (State × List Int)
  | s, [] => .ok (s, [])
  | s, c :: cs =>
      match detector_call s c with
      | .error f => .error f
      | .ok sr =>
          match detector_calls sr.1 cs with
          | .error f => .error f
          | .ok tr => .ok (tr.1, sr.2 :: tr.2)

/-- The line an address belongs to: block position and line index, when the
detector can resolve it. -/
def line_of (ram : List RAMBlock) (host_addr : Nat) : Option (Nat × Nat) :=
  match cline_lookup ram host_addr with
  | .ok ln => some (ln.blk, ln.cline)
  | .error _ => none

/-- The bitmap `b`, read as a set of core ids, is the singleton `{cpu}`. -/
def is_singleton (b cpu : Nat) : Prop :=
  ∀ c, b.testBit c = decide (c = cpu)

/-- A state with tracking on and one RAM block at host address 4096 holding two
zeroed lines. -/
def demo_state : State :=
  State.init [⟨4096, 128, some [0, 0]⟩]

/-- One traced memory access: which of `mtrace_ld` and `mtrace_st` is called, the
CPU being stepped (`cpu_single_env`), and the three arguments. -/
structure MemOp where
  kind : Access
  env : CPUX86State
  host_addr : Nat
  guest_addr : Nat
  retaddr : Nat

/-- One call of `mtrace_ld` or `mtrace_st`. -/
def mem_access (emu : Emu) (s : State) (op : MemOp) : Except Fault State :=
  match op.kind with
  | .load => mtrace_ld emu op.env s op.host_addr op.guest_addr op.retaddr
  | .store => mtrace_st emu op.env s op.host_addr op.guest_addr op.retaddr

/-- An interleaving of `mtrace_ld` and `mtrace_st` calls, made one after the other. -/
def mem_accesses (emu : Emu) : State → List MemOp → Except Fault State
  | s, [] => .ok s
  | s, op :: ops =>
      match mem_access emu s op with
      | .error f => .error f
      | .ok s1 => mem_accesses emu s1 ops

/-- An emulator with no translation blocks, zero-filled guest memory and no
guest page mapped. -/
def demo_emu : Emu :=
  { guest_pc := fun _ => none
    guest_byte := fun _ => some 0
    cpu_get_phys_page_debug := fun _ => none
    phys_page_find := fun _ => none
    qemu_get_ram_ptr := fun a => a
    TARGET_PAGE_BITS := 12
    IO_MEM_ROM := 8
    IO_MEM_ROMD := 1 }

/-- The state `demo_state` with the system and the enable switch on. -/
def demo_on : State :=
  { demo_state with mtrace_system_enable := 1, mtrace_enable := 1 }

/-- The state `demo_on` after core 0 has loaded from host address 4096: the access
is new and is logged with sequence number 0. -/
def demo_mid : State :=
  mtrace_log_entry
    { demo_on with
      mtrace_access_count := 1, sampler := 1, ram := [⟨4096, 128, some [1, 0]⟩] }
    (some (.access ⟨mtrace_entry_access, sizeof_access_entry, 0, 0, 0⟩
      mtrace_access_ld 0 4096 0 1 0))

/-- The state `demo_mid` after core 1 has stored to host address 4100: the access
is new and is logged with sequence number 1. -/
def demo_end : State :=
  mtrace_log_entry
    { demo_mid with
      mtrace_access_count := 2, sampler := 2, ram := [⟨4096, 128, some [2, 0]⟩] }
    (some (.access ⟨mtrace_entry_access, sizeof_access_entry, 1, 1, 0⟩
      mtrace_access_st 0 4100 0 1 0))

/-- An access record as `mtrace_access_dump` builds it: a new load by core 1,
sequence number `k`. -/
def demo_entry (k : Nat) : mtrace_entry :=
  .access ⟨mtrace_entry_access, sizeof_access_entry, 1, k, 0⟩ mtrace_access_ld 0 4096 0 1 0

/-- The CPU with index `cpu` at an instant when the clock reads `t`. -/
def cpu_at (cpu t : Nat) : CPUX86State :=
  { cpu_index := cpu, eip := 0, tsc := fun _ => t }

/-- The initial state with lock tracing switched on (`mtrace_lock_trace_set(1)`). -/
def lock_state : State :=
  mtrace_lock_trace_set (State.init []) 1

/-! ## I/O-mapped writes -/

/-- The callback argument `cb` of `mtrace_io_write`: one of the emulator's three
`notdirty_mem_write*` functions, or any other function. -/
inductive IoCallback where
  | notdirty_mem_writel
  | notdirty_mem_writew
  | notdirty_mem_writeb
  | other (fn : Nat)
  deriving DecidableEq

/-- The function `mtrace_io_write`. -/
def mtrace_io_write (emu : Emu) (env : CPUX86State) (s : State) (cb : IoCallback)
    (ram_addr guest_addr retaddr : Nat) : Except Fault State :=
  if s.mtrace_system_enable = 0 then .ok s
  else if cb = .notdirty_mem_writel ∨ cb = .notdirty_mem_writew ∨ cb = .notdirty_mem_writeb then
    let a := s.mtrace_access_count
    let s1 := { s with mtrace_access_count := (s.mtrace_access_count + 1) % UINT64_SIZE }
    match mtrace_cline_update_st s1 (emu.qemu_get_ram_ptr ram_addr) env.cpu_index with
    | .error f => .error f
    | .ok sr =>
        access_tail emu env mtrace_access_iw (emu.qemu_get_ram_ptr ram_addr) guest_addr a retaddr sr
  else .ok s

/-! ## Guest operation dispatch -/

/-- Modelled from the spec: the operation code `MTRACE_ENTRY_REGISTER` of the missing
`mtrace-magic.h`, the one operation the guest can issue ("register entry"). -/
def MTRACE_ENTRY_REGISTER : Nat := 1

/-- What a slot of the dispatch table holds. -/
inductive Handler where
  | entry_register
  deriving DecidableEq

/-- The table `mtrace_call`: the designated slot holds `mtrace_entry_register`,
every other slot is NULL (`none`). -/
def mtrace_call (a0 : Nat) : Option Handler :=
  if a0 = MTRACE_ENTRY_REGISTER then some .entry_register else none

/-- The number of slots `sizeof(mtrace_call) / sizeof(mtrace_call[0])`: one more
than the largest designated index. -/
def mtrace_call_slots : Nat := MTRACE_ENTRY_REGISTER + 1

/-- The function `mtrace_inst_exec`. -/
def mtrace_inst_exec (emu : Emu) (env : CPUX86State) (stale : Nat → Nat) (s : State)
    (a0 a1 a2 a3 a4 a5 : Nat) : Except Fault State :=
  if s.mtrace_system_enable = 0 then .ok s
  else if a0 ≥ mtrace_call_slots then .error .abort
  else
    match mtrace_call a0 with
    | none => .error .abort
    | some .entry_register => mtrace_entry_register emu env stale s a1 a2 a3 a4 a5

/-! ## Bitmap allocation -/

/-- The function `mtrace_cline_track_alloc`; `none` is the NULL return.
`vmalloc_fails` says whether `qemu_vmalloc` returns NULL. -/
def mtrace_cline_track_alloc (s : State) (vmalloc_fails : Bool) (size : Nat) :
    Except Fault (Option (List Nat)) :=
  if s.mtrace_cline_track = 0 ∨ s.mtrace_system_enable = 0 then .ok none
  else if vmalloc_fails then .error .abort
  else .ok (some (List.replicate (size >>> MTRACE_CLINE_SHIFT) 0))

/-! ## Sequences of tracer operations -/

/-- One call into the tracer from the emulator. -/
inductive TracerOp where
  | access (op : MemOp)
  | io_write (env : CPUX86State) (cb : IoCallback) (ram_addr guest_addr retaddr : Nat)
  | call (env : CPUX86State) (stale_ts target_pc return_pc : Nat) (ret : Int)
  | exec (env : CPUX86State) (stale : Nat → Nat) (a0 a1 a2 a3 a4 a5 : Nat)
  | lock_start (env : CPUX86State)
  | lock_stop (env : CPUX86State)
  | exec_start (env : CPUX86State)
  | exec_stop (env : CPUX86State)

/-- Run one tracer operation. -/
def tracer_step (emu : Emu) (s : State) : TracerOp → Except Fault State
  | .access op => mem_access emu s op
  | .io_write env cb ram_addr guest_addr retaddr =>
      mtrace_io_write emu env s cb ram_addr guest_addr retaddr
  | .call env stale_ts target_pc return_pc ret =>
      mtrace_inst_call env stale_ts s target_pc return_pc ret
  | .exec env stale a0 a1 a2 a3 a4 a5 => mtrace_inst_exec emu env stale s a0 a1 a2 a3 a4 a5
  | .lock_start env => mtrace_lock_start s env
  | .lock_stop env => mtrace_lock_stop s env
  | .exec_start env => mtrace_exec_start s env
  | .exec_stop env => mtrace_exec_stop s env

/-- Run tracer operations one after the other. -/
def tracer_run (emu : Emu) : State → List TracerOp → Except Fault State
  | s, [] => .ok s
  | s, op :: ops =>
      match tracer_step emu s op with
      | .error f => .error f
      | .ok s1 => tracer_run emu s1 ops

/-- The entry is an access record built by `mtrace_access_dump`. -/
def mtrace_entry.is_access : mtrace_entry → Bool
  | .access _ _ _ _ _ _ _ => true
  | _ => false

/-- The `access_count` header values of the records emitted so far, in order. -/
def emitted_seq (s : State) : List Nat :=
  s.emitted.map (fun e => e.h.access_count)

/-- The `access_count` header values of the access records emitted so far, in order. -/
def emitted_access_seq (s : State) : List Nat :=
  (s.emitted.filter mtrace_entry.is_access).map (fun e => e.h.access_count)

/-- What one tracer operation can do to the access counter and to the emitted
records: either the counter stays and at most one record that is not an access
record is emitted, stamped with the counter; or the counter advances by one (as a
`uint64_t`) and at most one record is emitted, stamped with the counter's value
before the advance. -/
def advances (s s' : State) : Prop :=
  (s'.mtrace_access_count = s.mtrace_access_count ∧
    (s'.emitted = s.emitted ∨
      ∃ e, s'.emitted = s.emitted ++ [e] ∧ e.is_access = false ∧
        e.h.access_count = s.mtrace_access_count)) ∨
  (s'.mtrace_access_count = (s.mtrace_access_count + 1) % UINT64_SIZE ∧
    (s'.emitted = s.emitted ∨
      ∃ e, s'.emitted = s.emitted ++ [e] ∧
        e.h.access_count = s.mtrace_access_count % UINT64_SIZE))

/-- The guest operation "register entry" for a 58-byte record of kind 2 at guest
address 0, issued on core 0. -/
def register_op : TracerOp :=
  .exec (cpu_at 0 0) (fun _ => 0) MTRACE_ENTRY_REGISTER 0 mtrace_entry_access 58 0 0

/-- A short trace: a load by core 0, a guest registration, a store by core 1, a
guest registration. -/
def demo_trace : List TracerOp :=
  [.access ⟨.load, cpu_at 0 0, 4096, 0, 0⟩, register_op,
   .access ⟨.store, cpu_at 1 0, 4100, 0, 0⟩, register_op]

/-- The access record `mtrace_access_dump` builds. -/
def access_record (emu : Emu) (env : CPUX86State)
    (type host_addr guest_addr access_count retaddr : Nat) (traffic lock : Int) : mtrace_entry :=
  .access
    { type := mtrace_entry_access
      size := sizeof_access_entry
      cpu := env.cpu_index % UINT32_SIZE
      access_count := access_count % UINT64_SIZE
      ts := 0 }
    type (mtrace_get_pc emu env retaddr) host_addr guest_addr traffic lock

/-- The field `traffic` (new sharing) of an access record. -/
def mtrace_entry.traffic : mtrace_entry → Option Int
  | .access _ _ _ _ _ traffic _ => some traffic
  | _ => none

/-- The field `lock` (under lock) of an access record. -/
def mtrace_entry.lock : mtrace_entry → Option Int
  | .access _ _ _ _ _ _ lock => some lock
  | _ => none

/-- The field `access_type` of an access record. -/
def mtrace_entry.access_type : mtrace_entry → Option Nat
  | .access _ access_type _ _ _ _ _ => some access_type
  | _ => none

/-- The state `demo_on` with core 1 inside a lock region and already recorded as
the sole owner of the first line. -/
def locked_state : State :=
  { demo_on with
    mtrace_lock_active := Function.update demo_on.mtrace_lock_active 1 1
    ram := [⟨4096, 128, some [2, 0]⟩] }

/-! ## Sequences of interesting accesses -/

/-- The arguments of one call of `mtrace_access_dump`. -/
structure DumpArgs where
  env : CPUX86State
  type : Nat
  host_addr : Nat
  guest_addr : Nat
  access_count : Nat
  retaddr : Nat
  traffic : Int
  lock : Int

/-- One call of `mtrace_access_dump`. -/
def access_dump_call (emu : Emu) (s : State) (d : DumpArgs) : Except Fault State :=
  mtrace_access_dump emu d.env s d.type d.host_addr d.guest_addr d.access_count d.retaddr
    d.traffic d.lock

/-- Calls of `mtrace_access_dump` made one after the other. -/
def access_dump_calls (emu : Emu) : State → List DumpArgs → Except Fault State
  | s, [] => .ok s
  | s, d :: ds =>
      match access_dump_call emu s d with
      | .error f => .error f
      | .ok s1 => access_dump_calls emu s1 ds

/-- The number of multiples of `n` below `k`. -/
def multiples_below (n k : Nat) : Nat :=
  (k + n - 1) / n

/-- An interesting access handed to `mtrace_access_dump`: a new load by core 0. -/
def demo_dump : DumpArgs :=
  { env := cpu_at 0 0, type := mtrace_access_ld, host_addr := 4096, guest_addr := 0,
    access_count := 0, retaddr := 0, traffic := 1, lock := 0 }

/-- The state `demo_on` after `mtrace_sample_set(3)`. -/
def sampled_state : State :=
  mtrace_sample_set demo_on 3

/-- A RAM list with one block of `size` bytes at host address `host` carrying the
bitmap `track`. -/
def one_block (host size : Nat) (track : Option (List Nat)) : List RAMBlock :=
  [⟨host, size, track⟩]

/-! ## Host-control requests -/

/-- The subtype `entry.host.host_type` and the payload (`entry.host.access.value`,
`entry.host.call.cpu`) that `register_host` reads from the bytes after the header. -/
def host_request (env : CPUX86State) (rest : List Nat) : Nat × Nat :=
  let rest1 := memcpy_at rest HOST_GLOBAL_TS (le_bytes 8 (mtrace_get_global_tsc env 1))
  (le_value ((rest1.drop HOST_TYPE).take 4), le_value ((rest1.drop HOST_VALUE).take 8))

/-- The bytes after the header of the local `entry` of `mtrace_entry_register` when
`len` bytes at `entry_addr` can be copied from guest memory. -/
def guest_rest (emu : Emu) (stale : Nat → Nat) (entry_addr len : Nat) : Option (List Nat) :=
  match cpu_memory_rw_debug emu entry_addr len with
  | none => none
  | some copied => some ((entry_after_copy copied stale).drop HEADER_BYTES)

/-- The header `mtrace_entry_register` stamps on the copied record, `ts` being the
per-core timestamp it read. -/
def register_header (env : CPUX86State) (s : State) (type len cpu ts : Nat) :
    mtrace_entry_header :=
  { type := type % UINT32_SIZE
    size := len % UINT32_SIZE
    cpu := (if cpu = UINT64_SIZE - 1 then env.cpu_index else cpu) % UINT32_SIZE
    access_count := s.mtrace_access_count
    ts := ts }

/-- A host-control record in guest memory: header bytes (the tracer overwrites
them), subtype, payload, and room for the global timestamp. -/
def host_record (host_type value : Nat) : List Nat :=
  List.replicate HEADER_BYTES 0 ++ le_bytes 4 host_type ++ le_bytes 8 value ++ le_bytes 8 0

/-- Guest memory holding three host-control records of 48 bytes at addresses 0, 48
and 96: set-global-enable 1, set-core-call-tracing for core 3, set-global-enable 0. -/
def host_memory : List Nat :=
  host_record mtrace_access_all_cpu 1 ++ host_record mtrace_call_set_cpu 3 ++
    host_record mtrace_access_all_cpu 0

/-- The bytes after the header of the local `entry` once the second record of
`host_memory` (set-core-call-tracing for core 3) has been copied over a zeroed stack. -/
def set_core_rest : List Nat :=
  (entry_after_copy (host_record mtrace_call_set_cpu 3) (fun _ => 0)).drop HEADER_BYTES

/-- The emulator `demo_emu` with no readable guest memory: every
`cpu_memory_rw_debug` of at least one byte fails. -/
def unmapped_emu : Emu :=
  { demo_emu with guest_byte := fun _ => none }

/-- The emulator `demo_emu` with `host_memory` as guest memory. -/
def host_emu : Emu :=
  { demo_emu with guest_byte := fun a => host_memory[a]? }

/-- A state with the system on, tracking on, the enable switch off, and one RAM
block at host address 4096 holding two zeroed lines. -/
def quiet_state : State :=
  { demo_state with mtrace_system_enable := 1 }

/-- A load by core `cpu` from host address 4096. -/
def load_at (cpu : Nat) : MemOp :=
  { kind := .load, env := cpu_at cpu 0, host_addr := 4096, guest_addr := 0, retaddr := 0 }

/-- The condition under which `mtrace_access_dump` returns without building a
record: the enable switch is off, or the sampler skips the access (the expression
`sampler++ % mtrace_sample` is defined and nonzero). -/
def unrecorded (s : State) : Prop :=
  s.mtrace_enable = 0 ∨
    (s.mtrace_sample ≠ 0 ∧ s.sampler ≠ 2 ^ 31 - 1 ∧
      ¬ (s.sampler = -(2 ^ 31) ∧ s.mtrace_sample = -1) ∧
      Int.tmod s.sampler s.mtrace_sample ≠ 0)

instance (s : State) : Decidable (unrecorded s) := by
  unfold unrecorded
  infer_instance

/-- The operation is, for the sharing detector, a store to line `cline` of the
block at position `blk`: a call of `mtrace_st`, or a call of `mtrace_io_write`
through one of the three notdirty callbacks (which runs `mtrace_cline_update_st`),
whose host address resolves to that line in `ram`. -/
def TracerOp.stores_to (emu : Emu) (ram : List RAMBlock) (blk cline : Nat) : TracerOp → Prop
  | .access op => op.kind = .store ∧ line_of ram op.host_addr = some (blk, cline)
  | .io_write _ cb ram_addr _ _ =>
      (cb = .notdirty_mem_writel ∨ cb = .notdirty_mem_writew ∨ cb = .notdirty_mem_writeb) ∧
        line_of ram (emu.qemu_get_ram_ptr ram_addr) = some (blk, cline)
  | _ => False

instance stores_to_decidable (emu : Emu) (ram : List RAMBlock) (blk cline : Nat) :
    (op : TracerOp) → Decidable (op.stores_to emu ram blk cline)
  | .access op =>
      inferInstanceAs (Decidable (op.kind = .store ∧ line_of ram op.host_addr = some (blk, cline)))
  | .io_write _ cb ram_addr _ _ =>
      inferInstanceAs (Decidable
        ((cb = .notdirty_mem_writel ∨ cb = .notdirty_mem_writew ∨ cb = .notdirty_mem_writeb) ∧
          line_of ram (emu.qemu_get_ram_ptr ram_addr) = some (blk, cline)))
  | .call _ _ _ _ _ => inferInstanceAs (Decidable False)
  | .exec _ _ _ _ _ _ _ _ => inferInstanceAs (Decidable False)
  | .lock_start _ => inferInstanceAs (Decidable False)
  | .lock_stop _ => inferInstanceAs (Decidable False)
  | .exec_start _ => inferInstanceAs (Decidable False)
  | .exec_stop _ => inferInstanceAs (Decidable False)

/-- The guest operation "register entry" for the first record of `host_memory`
(set-global-enable 1), issued on core 0. -/
def enable_op : TracerOp :=
  .exec (cpu_at 0 0) (fun _ => 0) MTRACE_ENTRY_REGISTER 0 mtrace_entry_host 48 0 0

/-- What happens between two loads of the first line by core 3: core 5 loads from
the second line (address 4160) and from the first line (address 4096), then the
guest turns the enable switch on. -/
def quiet_trace : List TracerOp :=
  [.access ⟨.load, cpu_at 5 0, 4160, 0, 0⟩, .access (load_at 5), enable_op]

/-! ## Sharing detector: lemmas -/

theorem qemu_ramblock_from_host_set (ram : List RAMBlock) (i : Nat) (b b' : RAMBlock) (a : Nat)
    (hb : ram[i]? = some b) (hh : b'.host = b.host) (hl : b'.length = b.length) :
    qemu_ramblock_from_host (ram.set i b') a = qemu_ramblock_from_host ram a := by
  induction ram generalizing i with
  | nil => simp
  | cons x xs ih =>
    cases i with
    | zero =>
      simp at hb
      subst hb
      simp [qemu_ramblock_from_host, hh, hl]
    | succ j =>
      simp at hb
      simp [qemu_ramblock_from_host, ih j hb]

theorem cline_lookup_ok_iff (ram : List RAMBlock) (a : Nat) (ln : Line) :
    cline_lookup ram a = .ok ln ↔
      qemu_ramblock_from_host ram a = some ln.blk ∧
      ∃ block, ram[ln.blk]? = some block ∧
        ln.cline = (a - block.host) >>> MTRACE_CLINE_SHIFT ∧
        block.cline_track = some ln.track ∧ ln.track[ln.cline]? = some ln.val := by
  unfold cline_lookup
  constructor
  · intro h
    split at h
    · cases h
    · rename_i i hq
      split at h
      · cases h
      · rename_i block hb
        simp only at h
        split at h
        · cases h
        · rename_i track ht
          split at h
          · cases h
          · rename_i v hv
            cases h
            exact ⟨hq, block, hb, rfl, ht, hv⟩
  · rintro ⟨hq, block, hb, hc, ht, hv⟩
    simp only [hq, hb, ht, ← hc, hv]

theorem cline_lookup_store (ram : List RAMBlock) (a0 a : Nat) (ln : Line) (v : Nat)
    (h0 : cline_lookup ram a0 = .ok ln) :
    cline_lookup (cline_store ram ln v) a =
      match cline_lookup ram a with
      | .error f => .error f
      | .ok l => .ok (if l.blk = ln.blk then
            ⟨l.blk, l.cline, ln.track.set ln.cline (v % UINT8_SIZE),
              if l.cline = ln.cline then v % UINT8_SIZE else l.val⟩ else l) := by
  obtain ⟨-, block, hb, -, ht, hv⟩ := (cline_lookup_ok_iff ram a0 ln).1 h0
  have hstore : cline_store ram ln v = ram.set ln.blk
      { block with cline_track := some (ln.track.set ln.cline (v % UINT8_SIZE)) } := by
    simp [cline_store, hb]
  rw [hstore]
  unfold cline_lookup
  rw [qemu_ramblock_from_host_set ram ln.blk block
    { block with cline_track := some (ln.track.set ln.cline (v % UINT8_SIZE)) } a hb rfl rfl]
  cases hq : qemu_ramblock_from_host ram a with
  | none => rfl
  | some i =>
    simp only [List.getElem?_set]
    by_cases hi : ln.blk = i
    · subst hi
      have hlt : ln.blk < ram.length := by
        rcases List.getElem?_eq_some.1 hb with ⟨h, -⟩
        exact h
      simp only [if_true, hlt, hb, ht, List.getElem?_set]
      by_cases hc : ln.cline = (a - block.host) >>> MTRACE_CLINE_SHIFT
      · have hcl : ln.cline < ln.track.length := by
          rcases List.getElem?_eq_some.1 hv with ⟨h, -⟩
          exact h
        simp [← hc, hcl, hv]
      · simp only [hc, if_false]
        cases hx : ln.track[(a - block.host) >>> MTRACE_CLINE_SHIFT]? with
        | none => rfl
        | some x => simp [Ne.symm hc]
    · simp only [hi, if_false]
      cases hr : ram[i]? with
      | none => rfl
      | some blk =>
        simp only
        cases htr : blk.cline_track with
        | none => rfl
        | some tr =>
          simp only
          cases hx : tr[(a - blk.host) >>> MTRACE_CLINE_SHIFT]? with
          | none => rfl
          | some x => simp [Ne.symm hi]

theorem line_of_store (ram : List RAMBlock) (a0 a : Nat) (ln : Line) (v : Nat)
    (h0 : cline_lookup ram a0 = .ok ln) :
    line_of (cline_store ram ln v) a = line_of ram a := by
  unfold line_of
  rw [cline_lookup_store ram a0 a ln v h0]
  cases cline_lookup ram a with
  | error f => rfl
  | ok l =>
    simp only
    split <;> rfl

theorem bitmap_of_lookup (s : State) (a : Nat) (ln : Line)
    (h : cline_lookup s.ram a = .ok ln) : bitmap s ln.blk ln.cline = some ln.val := by
  obtain ⟨-, block, hb, -, ht, hv⟩ := (cline_lookup_ok_iff s.ram a ln).1 h
  simp [bitmap, hb, ht, hv]

theorem lookup_of_line_of (s : State) (a blk cline b : Nat)
    (h : line_of s.ram a = some (blk, cline)) (hb : bitmap s blk cline = some b) :
    ∃ track, cline_lookup s.ram a = .ok ⟨blk, cline, track, b⟩ := by
  unfold line_of at h
  cases hl : cline_lookup s.ram a with
  | error f => simp [hl] at h
  | ok ln =>
    simp only [hl, Option.some.injEq, Prod.mk.injEq] at h
    have hv := bitmap_of_lookup s a ln hl
    rw [h.1, h.2, hb] at hv
    cases ln
    simp_all

theorem bitmap_store (s : State) (a0 : Nat) (ln : Line) (v blk cline : Nat)
    (h0 : cline_lookup s.ram a0 = .ok ln) :
    bitmap { s with ram := cline_store s.ram ln v } blk cline =
      if blk = ln.blk ∧ cline = ln.cline then some (v % UINT8_SIZE) else bitmap s blk cline := by
  obtain ⟨-, block, hb, -, ht, hv⟩ := (cline_lookup_ok_iff s.ram a0 ln).1 h0
  have hlt : ln.blk < s.ram.length := by
    rcases List.getElem?_eq_some.1 hb with ⟨h, -⟩
    exact h
  have hcl : ln.cline < ln.track.length := by
    rcases List.getElem?_eq_some.1 hv with ⟨h, -⟩
    exact h
  simp only [bitmap, cline_store, hb, List.getElem?_set]
  by_cases hi : ln.blk = blk
  · subst hi
    simp only [if_true, hlt, hb, ht, List.getElem?_set, true_and]
    by_cases hc : ln.cline = cline
    · subst hc
      simp [hcl]
    · simp [hc, Ne.symm hc]
  · simp [hi, Ne.symm hi]

theorem and_shl_one_ne_zero (b cpu : Nat) :
    b &&& (1 <<< cpu) ≠ 0 ↔ b.testBit cpu = true := by
  rw [Nat.one_shiftLeft, Nat.and_two_pow]
  cases b.testBit cpu <;> simp

theorem or_shl_one_byte (b cpu : Nat) (hb : b < UINT8_SIZE) (hc : cpu < 8) :
    (b ||| 1 <<< cpu) % UINT8_SIZE = b ||| 1 <<< cpu := by
  apply Nat.mod_eq_of_lt
  have h8 : UINT8_SIZE = 2 ^ 8 := rfl
  rw [h8] at hb ⊢
  apply Nat.or_lt_two_pow hb
  rw [Nat.one_shiftLeft]
  exact Nat.pow_lt_pow_right (by decide) hc

theorem update_ld_hit (s : State) (a cpu : Nat) (ln : Line)
    (htrack : s.mtrace_cline_track ≠ 0) (hcpu : cpu < 31)
    (hln : cline_lookup s.ram a = .ok ln) (hbit : ln.val.testBit cpu = true) :
    mtrace_cline_update_ld s a cpu = .ok (s, 0) := by
  have hm := (and_shl_one_ne_zero ln.val cpu).2 hbit
  simp [mtrace_cline_update_ld, htrack, hln, shl_one, INT_BITS, hcpu, hm]

theorem update_ld_miss (s : State) (a cpu : Nat) (ln : Line)
    (htrack : s.mtrace_cline_track ≠ 0) (hcpu : cpu < 31)
    (hln : cline_lookup s.ram a = .ok ln) (hbit : ln.val.testBit cpu = false) :
    mtrace_cline_update_ld s a cpu =
      .ok ({ s with ram := cline_store s.ram ln (ln.val ||| 1 <<< cpu) }, 1) := by
  have hm : ¬ (ln.val &&& 1 <<< cpu ≠ 0) := by
    rw [and_shl_one_ne_zero]
    simp [hbit]
  simp only [ne_eq, not_not] at hm
  simp [mtrace_cline_update_ld, htrack, hln, shl_one, INT_BITS, hcpu, hm]

theorem update_st_hit (s : State) (a cpu : Nat) (ln : Line)
    (htrack : s.mtrace_cline_track ≠ 0) (hcpu : cpu < 31)
    (hln : cline_lookup s.ram a = .ok ln) (hval : ln.val = 1 <<< cpu) :
    mtrace_cline_update_st s a cpu = .ok (s, 0) := by
  simp [mtrace_cline_update_st, htrack, hln, shl_one, INT_BITS, hcpu, hval]

theorem update_st_miss (s : State) (a cpu : Nat) (ln : Line)
    (htrack : s.mtrace_cline_track ≠ 0) (hcpu : cpu < 31)
    (hln : cline_lookup s.ram a = .ok ln) (hval : ln.val ≠ 1 <<< cpu) :
    mtrace_cline_update_st s a cpu =
      .ok ({ s with ram := cline_store s.ram ln (1 <<< cpu) }, 1) := by
  simp [mtrace_cline_update_st, htrack, hln, shl_one, INT_BITS, hcpu, hval]

theorem update_ld_line (s : State) (a cpu blk cline b : Nat)
    (htrack : s.mtrace_cline_track ≠ 0) (hcpu : cpu < 31)
    (hline : line_of s.ram a = some (blk, cline)) (hb : bitmap s blk cline = some b) :
    ∃ s', mtrace_cline_update_ld s a cpu = .ok (s', if b.testBit cpu then 0 else 1) ∧
      (b.testBit cpu = true → s' = s) ∧
      s'.mtrace_cline_track = s.mtrace_cline_track ∧
      (∀ a', line_of s'.ram a' = line_of s.ram a') ∧
      bitmap s' blk cline = some (if b.testBit cpu then b else (b ||| 1 <<< cpu) % UINT8_SIZE) ∧
      ∀ j l, (j, l) ≠ (blk, cline) → bitmap s' j l = bitmap s j l := by
  obtain ⟨track, hln⟩ := lookup_of_line_of s a blk cline b hline hb
  cases hbit : b.testBit cpu with
  | true =>
    exact ⟨s, by simpa using update_ld_hit s a cpu _ htrack hcpu hln hbit, fun _ => rfl, rfl,
      fun _ => rfl, by simpa using hb, fun _ _ _ => rfl⟩
  | false =>
    refine ⟨{ s with ram := cline_store s.ram ⟨blk, cline, track, b⟩ (b ||| 1 <<< cpu) },
      by simpa using update_ld_miss s a cpu _ htrack hcpu hln hbit, by simp, rfl,
      fun a' => line_of_store s.ram a a' _ _ hln, ?_, ?_⟩
    · rw [bitmap_store s a _ _ blk cline hln]
      simp
    · intro j l hjl
      rw [bitmap_store s a _ _ j l hln]
      have : ¬ (j = blk ∧ l = cline) := fun h => hjl (by rw [h.1, h.2])
      simp [this]

theorem update_st_line (s : State) (a cpu blk cline b : Nat)
    (htrack : s.mtrace_cline_track ≠ 0) (hcpu : cpu < 31)
    (hline : line_of s.ram a = some (blk, cline)) (hb : bitmap s blk cline = some b) :
    ∃ s', mtrace_cline_update_st s a cpu = .ok (s', if b = 1 <<< cpu then 0 else 1) ∧
      (b = 1 <<< cpu → s' = s) ∧
      s'.mtrace_cline_track = s.mtrace_cline_track ∧
      (∀ a', line_of s'.ram a' = line_of s.ram a') ∧
      bitmap s' blk cline = some (if b = 1 <<< cpu then b else (1 <<< cpu) % UINT8_SIZE) ∧
      ∀ j l, (j, l) ≠ (blk, cline) → bitmap s' j l = bitmap s j l := by
  obtain ⟨track, hln⟩ := lookup_of_line_of s a blk cline b hline hb
  by_cases hval : b = 1 <<< cpu
  · exact ⟨s, by simpa [hval] using update_st_hit s a cpu _ htrack hcpu hln hval, fun _ => rfl, rfl,
      fun _ => rfl, by simpa [hval] using hb, fun _ _ _ => rfl⟩
  · refine ⟨{ s with ram := cline_store s.ram ⟨blk, cline, track, b⟩ (1 <<< cpu) },
      by simpa [hval] using update_st_miss s a cpu _ htrack hcpu hln hval,
      fun h => absurd h hval, rfl, fun a' => line_of_store s.ram a a' _ _ hln, ?_, ?_⟩
    · rw [bitmap_store s a _ _ blk cline hln]
      simp [hval]
    · intro j l hjl
      rw [bitmap_store s a _ _ j l hln]
      have : ¬ (j = blk ∧ l = cline) := fun h => hjl (by rw [h.1, h.2])
      simp [this]

theorem update_ld_frame (s s1 : State) (a c : Nat) (r : Int)
    (h : mtrace_cline_update_ld s a c = .ok (s1, r)) :
    s1.mtrace_cline_track = s.mtrace_cline_track ∧
    (∀ a', line_of s1.ram a' = line_of s.ram a') ∧
    ∀ blk cline b, bitmap s blk cline = some b →
      ∃ b1, bitmap s1 blk cline = some b1 ∧
        ∀ cpu, cpu < 8 → b.testBit cpu = true → b1.testBit cpu = true := by
  unfold mtrace_cline_update_ld at h
  split at h
  · cases h
    exact ⟨rfl, fun _ => rfl, fun _ _ b hb => ⟨b, hb, fun _ _ h => h⟩⟩
  · split at h
    · cases h
    · rename_i ln hln
      split at h
      · cases h
      · rename_i m hm
        split at h
        · cases h
          exact ⟨rfl, fun _ => rfl, fun _ _ b hb => ⟨b, hb, fun _ _ h => h⟩⟩
        · cases h
          refine ⟨rfl, fun a' => line_of_store s.ram a a' ln _ hln, ?_⟩
          intro blk cline b hb
          rw [bitmap_store s a ln _ blk cline hln]
          by_cases hEq : blk = ln.blk ∧ cline = ln.cline
          · rw [if_pos hEq]
            refine ⟨_, rfl, ?_⟩
            intro cpu hcpu hbit
            have hval : b = ln.val := by
              have hv := bitmap_of_lookup s a ln hln
              rw [← hEq.1, ← hEq.2, hb] at hv
              exact Option.some.inj hv
            subst hval
            have h8 : UINT8_SIZE = 2 ^ 8 := rfl
            rw [h8, Nat.testBit_mod_two_pow, Nat.testBit_or]
            simp [hcpu, hbit]
          · rw [if_neg hEq]
            exact ⟨b, hb, fun _ _ h => h⟩

theorem loads_frame (calls : List (Access × Nat × Nat)) :
    ∀ (s s2 : State) (rs : List Int), (∀ c ∈ calls, c.1 = Access.load) →
    detector_calls s calls = .ok (s2, rs) →
    s2.mtrace_cline_track = s.mtrace_cline_track ∧
    (∀ a', line_of s2.ram a' = line_of s.ram a') ∧
    ∀ blk cline b, bitmap s blk cline = some b →
      ∃ b2, bitmap s2 blk cline = some b2 ∧
        ∀ cpu, cpu < 8 → b.testBit cpu = true → b2.testBit cpu = true := by
  induction calls with
  | nil =>
    intro s s2 rs _ h
    simp only [detector_calls, Except.ok.injEq, Prod.mk.injEq] at h
    obtain ⟨rfl, -⟩ := h
    exact ⟨rfl, fun _ => rfl, fun _ _ b hb => ⟨b, hb, fun _ _ h => h⟩⟩
  | cons c cs ih =>
    intro s s2 rs hall h
    have hc : c.1 = Access.load := hall c (List.mem_cons_self _ _)
    simp only [detector_calls, detector_call, hc] at h
    split at h
    · cases h
    · rename_i sr hsr
      split at h
      · cases h
      · rename_i tr htr
        cases h
        obtain ⟨t1, l1, b1⟩ := update_ld_frame s sr.1 c.2.1 c.2.2 sr.2 hsr
        obtain ⟨t2, l2, b2⟩ := ih sr.1 tr.1 tr.2
          (fun x hx => hall x (List.mem_cons_of_mem _ hx)) htr
        refine ⟨t2.trans t1, fun a' => (l2 a').trans (l1 a'), ?_⟩
        intro blk cline b hb
        obtain ⟨x, hx, hxb⟩ := b1 blk cline b hb
        obtain ⟨y, hy, hyb⟩ := b2 blk cline x hx
        exact ⟨y, hy, fun cpu hcpu hbit => hyb cpu hcpu (hxb cpu hcpu hbit)⟩

theorem is_singleton_iff (b cpu : Nat) : is_singleton b cpu ↔ b = 1 <<< cpu := by
  rw [Nat.one_shiftLeft]
  constructor
  · intro h
    apply Nat.eq_of_testBit_eq
    intro c
    rw [h c, Nat.testBit_two_pow]
    by_cases hc : c = cpu
    · simp [hc]
    · simp [hc, Ne.symm hc]
  · intro h c
    rw [h, Nat.testBit_two_pow]
    by_cases hc : c = cpu
    · simp [hc]
    · simp [hc, Ne.symm hc]

theorem shl_one_byte (cpu : Nat) (hc : cpu < 8) : (1 <<< cpu) % UINT8_SIZE = 1 <<< cpu := by
  have h := or_shl_one_byte 0 cpu (by decide) hc
  simpa using h

/-! ## Sharing detector: the claims -/

/-- C1. With cache-line tracking enabled and a line whose bitmap is zero, the six
detector calls load(core 0), load(core 0), load(core 1), store(core 0),
store(core 0), store(core 1) on addresses of that line return
1, 0, 1, 1, 0, 1 (new = true, false, true, true, false, true), in that order. -/
theorem sharing_detector_sequence (s : State) (blk cline a0 a1 a2 a3 a4 a5 : Nat)
    (htrack : s.mtrace_cline_track ≠ 0)
    (hzero : bitmap s blk cline = some 0)
    (h0 : line_of s.ram a0 = some (blk, cline))
    (h1 : line_of s.ram a1 = some (blk, cline))
    (h2 : line_of s.ram a2 = some (blk, cline))
    (h3 : line_of s.ram a3 = some (blk, cline))
    (h4 : line_of s.ram a4 = some (blk, cline))
    (h5 : line_of s.ram a5 = some (blk, cline)) :
    ∃ s', detector_calls s
        [(.load, a0, 0), (.load, a1, 0), (.load, a2, 1),
         (.store, a3, 0), (.store, a4, 0), (.store, a5, 1)] =
      .ok (s', [1, 0, 1, 1, 0, 1]) := by
  obtain ⟨s1, e1, -, t1, l1, b1, -⟩ :=
    update_ld_line s a0 0 blk cline 0 htrack (by decide) h0 hzero
  have e1' : mtrace_cline_update_ld s a0 0 = .ok (s1, 1) := e1
  have b1' : bitmap s1 blk cline = some 1 := b1
  have k1 : s1.mtrace_cline_track ≠ 0 := t1 ▸ htrack
  obtain ⟨s2, e2, -, t2, l2, b2, -⟩ :=
    update_ld_line s1 a1 0 blk cline 1 k1 (by decide) (by rw [l1]; exact h1) b1'
  have e2' : mtrace_cline_update_ld s1 a1 0 = .ok (s2, 0) := e2
  have b2' : bitmap s2 blk cline = some 1 := b2
  have k2 : s2.mtrace_cline_track ≠ 0 := t2 ▸ k1
  obtain ⟨s3, e3, -, t3, l3, b3, -⟩ :=
    update_ld_line s2 a2 1 blk cline 1 k2 (by decide) (by rw [l2, l1]; exact h2) b2'
  have e3' : mtrace_cline_update_ld s2 a2 1 = .ok (s3, 1) := e3
  have b3' : bitmap s3 blk cline = some 3 := b3
  have k3 : s3.mtrace_cline_track ≠ 0 := t3 ▸ k2
  obtain ⟨s4, e4, -, t4, l4, b4, -⟩ :=
    update_st_line s3 a3 0 blk cline 3 k3 (by decide) (by rw [l3, l2, l1]; exact h3) b3'
  have e4' : mtrace_cline_update_st s3 a3 0 = .ok (s4, 1) := e4
  have b4' : bitmap s4 blk cline = some 1 := b4
  have k4 : s4.mtrace_cline_track ≠ 0 := t4 ▸ k3
  obtain ⟨s5, e5, -, t5, l5, b5, -⟩ :=
    update_st_line s4 a4 0 blk cline 1 k4 (by decide) (by rw [l4, l3, l2, l1]; exact h4) b4'
  have e5' : mtrace_cline_update_st s4 a4 0 = .ok (s5, 0) := e5
  have b5' : bitmap s5 blk cline = some 1 := b5
  have k5 : s5.mtrace_cline_track ≠ 0 := t5 ▸ k4
  obtain ⟨s6, e6, -, -, -, -, -⟩ :=
    update_st_line s5 a5 1 blk cline 1 k5 (by decide)
      (by rw [l5, l4, l3, l2, l1]; exact h5) b5'
  have e6' : mtrace_cline_update_st s5 a5 1 = .ok (s6, 1) := e6
  exact ⟨s6, by simp only [detector_calls, detector_call, e1', e2', e3', e4', e5', e6']⟩

/-- Witness for C1: the six calls on the zeroed first line of `demo_state`, using
addresses spread over the 64 bytes of the line. -/
theorem sharing_detector_sequence_witness :
    ∃ s', detector_calls demo_state
        [(.load, 4096, 0), (.load, 4100, 0), (.load, 4159, 1),
         (.store, 4096, 0), (.store, 4128, 0), (.store, 4097, 1)] =
      .ok (s', [1, 0, 1, 1, 0, 1]) :=
  sharing_detector_sequence demo_state 0 0 4096 4100 4159 4096 4128 4097
    (by decide) (by decide) (by decide) (by decide) (by decide) (by decide) (by decide)
    (by decide)

/-- C2, counterexample.  Core 8 is below 255 and tracking is on, the line's bitmap
is 0 (bit 8 clear): the load returns 1, yet afterwards the bitmap is still 0, so
bit 8 is not set; the state is unchanged, hence the same load repeated returns 1
again instead of 0. -/
theorem load_rule_counterexample :
    8 < MAX_CPUS ∧ demo_state.mtrace_cline_track ≠ 0 ∧
    line_of demo_state.ram 4096 = some (0, 0) ∧
    bitmap demo_state 0 0 = some 0 ∧ Nat.testBit 0 8 = false ∧
    mtrace_cline_update_ld demo_state 4096 8 = .ok (demo_state, 1) :=
  ⟨by decide, by decide, by decide, by decide, by decide, rfl⟩

/-- C2 (amended).  Load rule for the cores a line's one-byte bitmap has a bit for
(`cpu < 8`): with tracking enabled, for every host address and every prior value
`b` of the bitmap of its line, `mtrace_cline_update_ld` returns 0 and changes
nothing when bit `cpu` of `b` is set; otherwise it returns 1 and afterwards bit
`cpu` is set, every other bit of that bitmap and every other line's bitmap being
unchanged.  Consequently, after that load and any further loads (no store), a
load of the same line by the same core returns 0 and changes nothing. -/
theorem load_rule (s : State) (host_addr cpu blk cline b : Nat)
    (htrack : s.mtrace_cline_track ≠ 0) (hcpu : cpu < 8)
    (hline : line_of s.ram host_addr = some (blk, cline))
    (hb : bitmap s blk cline = some b) (hbyte : b < UINT8_SIZE) :
    (b.testBit cpu = true → mtrace_cline_update_ld s host_addr cpu = .ok (s, 0)) ∧
    (b.testBit cpu = false →
      ∃ s' b', mtrace_cline_update_ld s host_addr cpu = .ok (s', 1) ∧
        bitmap s' blk cline = some b' ∧ b'.testBit cpu = true ∧
        (∀ c, c ≠ cpu → b'.testBit c = b.testBit c) ∧
        (∀ j l, (j, l) ≠ (blk, cline) → bitmap s' j l = bitmap s j l)) ∧
    (∃ s1 r, mtrace_cline_update_ld s host_addr cpu = .ok (s1, r) ∧
      ∀ loads s2 rs, (∀ c ∈ loads, c.1 = Access.load) →
        detector_calls s1 loads = .ok (s2, rs) →
        ∀ a, line_of s.ram a = some (blk, cline) →
          mtrace_cline_update_ld s2 a cpu = .ok (s2, 0)) := by
  have hcpu31 : cpu < 31 := by omega
  obtain ⟨s1, e1, same1, t1, l1, b1, o1⟩ :=
    update_ld_line s host_addr cpu blk cline b htrack hcpu31 hline hb
  refine ⟨?_, ?_, ?_⟩
  · intro hbit
    rw [e1, same1 hbit]
    simp [hbit]
  · intro hbit
    refine ⟨s1, b ||| 1 <<< cpu, by simpa [hbit] using e1, ?_, ?_, ?_, o1⟩
    · rw [b1, or_shl_one_byte b cpu hbyte hcpu]
      simp [hbit]
    · rw [Nat.testBit_or, Nat.one_shiftLeft, Nat.testBit_two_pow_self]
      simp
    · intro c hc
      rw [Nat.testBit_or, Nat.one_shiftLeft, Nat.testBit_two_pow]
      simp [Ne.symm hc]
  · refine ⟨s1, _, e1, ?_⟩
    intro loads s2 rs hloads hrun a ha
    obtain ⟨t2, l2, b2⟩ := loads_frame loads s1 s2 rs hloads hrun
    have hset : ∃ x, bitmap s1 blk cline = some x ∧ x.testBit cpu = true := by
      cases hbit : b.testBit cpu with
      | true => exact ⟨b, by simpa [hbit] using b1, hbit⟩
      | false =>
        refine ⟨(b ||| 1 <<< cpu) % UINT8_SIZE, by simpa [hbit] using b1, ?_⟩
        rw [or_shl_one_byte b cpu hbyte hcpu, Nat.testBit_or, Nat.one_shiftLeft,
          Nat.testBit_two_pow_self]
        simp
    obtain ⟨x, hx, hxbit⟩ := hset
    obtain ⟨y, hy, hybit⟩ := b2 blk cline x hx
    have hk : s2.mtrace_cline_track ≠ 0 := by rw [t2, t1]; exact htrack
    obtain ⟨s3, e3, same3, -⟩ := update_ld_line s2 a cpu blk cline y hk hcpu31
      (by rw [l2, l1]; exact ha) hy
    have hyb := hybit cpu hcpu hxbit
    rw [e3, same3 hyb]
    simp [hyb]

/-- Witness for C2 (amended): core 3 loads from the zeroed first line of
`demo_state`. -/
theorem load_rule_witness :
    (Nat.testBit 0 3 = true → mtrace_cline_update_ld demo_state 4100 3 = .ok (demo_state, 0)) ∧
    (Nat.testBit 0 3 = false →
      ∃ s' b', mtrace_cline_update_ld demo_state 4100 3 = .ok (s', 1) ∧
        bitmap s' 0 0 = some b' ∧ b'.testBit 3 = true ∧
        (∀ c, c ≠ 3 → b'.testBit c = Nat.testBit 0 c) ∧
        (∀ j l, (j, l) ≠ (0, 0) → bitmap s' j l = bitmap demo_state j l)) ∧
    (∃ s1 r, mtrace_cline_update_ld demo_state 4100 3 = .ok (s1, r) ∧
      ∀ loads s2 rs, (∀ c ∈ loads, c.1 = Access.load) →
        detector_calls s1 loads = .ok (s2, rs) →
        ∀ a, line_of demo_state.ram a = some (0, 0) →
          mtrace_cline_update_ld s2 a 3 = .ok (s2, 0)) :=
  load_rule demo_state 4100 3 0 0 0 (by decide) (by decide) (by decide) (by decide) (by decide)

/-- C3, counterexample.  Core 8 is below 255 and tracking is on, the line's bitmap
is 0, which is not the singleton of core 8: the store returns 1, yet afterwards
the bitmap is still 0 and so is not the singleton of core 8; the state is
unchanged, hence the store immediately repeated returns 1 again instead of 0. -/
theorem store_rule_counterexample :
    8 < MAX_CPUS ∧ demo_state.mtrace_cline_track ≠ 0 ∧
    line_of demo_state.ram 4096 = some (0, 0) ∧
    bitmap demo_state 0 0 = some 0 ∧ ¬ is_singleton 0 8 ∧
    mtrace_cline_update_st demo_state 4096 8 = .ok (demo_state, 1) :=
  ⟨by decide, by decide, by decide, by decide,
    fun h => by rw [is_singleton_iff] at h; exact absurd h (by decide), rfl⟩

/-- C3 (amended).  Store rule for the cores a line's one-byte bitmap has a bit for
(`cpu < 8`): with tracking enabled, for every prior value `b` of the line's bitmap,
`mtrace_cline_update_st` returns 0 and changes nothing when `b` is the singleton
of `cpu`; otherwise it returns 1 and afterwards the bitmap is exactly the
singleton of `cpu`, other lines being unchanged.  Consequently, in the state the
store leaves, the store repeated by the same core on that line returns 0, a load
of the line by the same core returns 0, and a load by any other core returns 1. -/
theorem store_rule (s : State) (host_addr cpu blk cline b : Nat)
    (htrack : s.mtrace_cline_track ≠ 0) (hcpu : cpu < 8)
    (hline : line_of s.ram host_addr = some (blk, cline))
    (hb : bitmap s blk cline = some b) :
    (is_singleton b cpu → mtrace_cline_update_st s host_addr cpu = .ok (s, 0)) ∧
    (¬ is_singleton b cpu →
      ∃ s', mtrace_cline_update_st s host_addr cpu = .ok (s', 1) ∧
        (∃ b', bitmap s' blk cline = some b' ∧ is_singleton b' cpu) ∧
        (∀ j l, (j, l) ≠ (blk, cline) → bitmap s' j l = bitmap s j l)) ∧
    (∃ s1 r, mtrace_cline_update_st s host_addr cpu = .ok (s1, r) ∧
      ∀ a, line_of s.ram a = some (blk, cline) →
        mtrace_cline_update_st s1 a cpu = .ok (s1, 0) ∧
        mtrace_cline_update_ld s1 a cpu = .ok (s1, 0) ∧
        ∀ c, c < 31 → c ≠ cpu → ∃ s2, mtrace_cline_update_ld s1 a c = .ok (s2, 1)) := by
  have hcpu31 : cpu < 31 := by omega
  obtain ⟨s1, e1, same1, t1, l1, b1, o1⟩ :=
    update_st_line s host_addr cpu blk cline b htrack hcpu31 hline hb
  have hb1 : bitmap s1 blk cline = some (1 <<< cpu) := by
    rw [b1]
    by_cases hval : b = 1 <<< cpu
    · simp [hval]
    · simp [hval, shl_one_byte cpu hcpu]
  refine ⟨?_, ?_, ?_⟩
  · intro hs
    have hval := (is_singleton_iff b cpu).1 hs
    rw [e1, same1 hval]
    simp [hval]
  · intro hs
    have hval : b ≠ 1 <<< cpu := fun h => hs ((is_singleton_iff b cpu).2 h)
    exact ⟨s1, by simpa [hval] using e1,
      ⟨1 <<< cpu, hb1, (is_singleton_iff _ cpu).2 rfl⟩, o1⟩
  · refine ⟨s1, _, e1, ?_⟩
    intro a ha
    have hk : s1.mtrace_cline_track ≠ 0 := by rw [t1]; exact htrack
    have ha1 : line_of s1.ram a = some (blk, cline) := by rw [l1]; exact ha
    refine ⟨?_, ?_, ?_⟩
    · obtain ⟨s2, e2, same2, -⟩ := update_st_line s1 a cpu blk cline _ hk hcpu31 ha1 hb1
      rw [e2, same2 rfl]
      simp
    · obtain ⟨s2, e2, same2, -⟩ := update_ld_line s1 a cpu blk cline _ hk hcpu31 ha1 hb1
      have hbit : (1 <<< cpu).testBit cpu = true := by
        rw [Nat.one_shiftLeft, Nat.testBit_two_pow_self]
      rw [e2, same2 hbit]
      simp [hbit]
    · intro c hc hne
      obtain ⟨s2, e2, -⟩ := update_ld_line s1 a c blk cline _ hk hc ha1 hb1
      have hbit : (1 <<< cpu).testBit c = false := by
        rw [Nat.one_shiftLeft, Nat.testBit_two_pow]
        simp [Ne.symm hne]
      exact ⟨s2, by simpa [hbit] using e2⟩

/-- Witness for C3 (amended): core 5 stores to the zeroed second line of
`demo_state`. -/
theorem store_rule_witness :
    (is_singleton 0 5 → mtrace_cline_update_st demo_state 4160 5 = .ok (demo_state, 0)) ∧
    (¬ is_singleton 0 5 →
      ∃ s', mtrace_cline_update_st demo_state 4160 5 = .ok (s', 1) ∧
        (∃ b', bitmap s' 0 1 = some b' ∧ is_singleton b' 5) ∧
        (∀ j l, (j, l) ≠ (0, 1) → bitmap s' j l = bitmap demo_state j l)) ∧
    (∃ s1 r, mtrace_cline_update_st demo_state 4160 5 = .ok (s1, r) ∧
      ∀ a, line_of demo_state.ram a = some (0, 1) →
        mtrace_cline_update_st s1 a 5 = .ok (s1, 0) ∧
        mtrace_cline_update_ld s1 a 5 = .ok (s1, 0) ∧
        ∀ c, c < 31 → c ≠ 5 → ∃ s2, mtrace_cline_update_ld s1 a c = .ok (s2, 1)) :=
  store_rule demo_state 4160 5 0 1 0 (by decide) (by decide) (by decide) (by decide)

/-! ## Virtual timestamps -/

theorem sub64_add (t d : Nat) : sub64 ((t + d) % UINT64_SIZE) (t % UINT64_SIZE) = d % UINT64_SIZE := by
  simp only [sub64, UINT64_SIZE]
  omega

theorem add64_mod (a b : Nat) : add64 (a % UINT64_SIZE) (b % UINT64_SIZE) = (a + b) % UINT64_SIZE := by
  simp only [add64, UINT64_SIZE]
  omega

/-- C8. Virtual timestamp correctness: for every core (index below 255) whose offset
is 0 and all clock readings, after `mtrace_exec_start` at `t0`, `mtrace_exec_stop`
at `t0 + d1`, a pause of any length, `mtrace_exec_start` at `t1` and
`mtrace_exec_stop` at `t1 + d2`, all four calls return, the core's offset is
`d1 + d2` in 64-bit unsigned arithmetic whatever `t1` is, and the timing state of
every other core is unchanged; while the core runs, `mtrace_get_percore_tsc` read at
clock `t` is `(t - start) + offset` in 64-bit unsigned arithmetic: `e` ticks into
the first interval it is `e`, `e` ticks into the second it is `d1 + e`. -/
theorem virtual_timestamp (s : State) (cpu t0 d1 t1 d2 : Nat)
    (hcpu : cpu < MAX_CPUS) (hoff : (s.mtrace_tsc cpu).offset = 0) :
    ∃ s1 s2 s3 s4,
      mtrace_exec_start s (cpu_at cpu t0) = .ok s1 ∧
      mtrace_exec_stop s1 (cpu_at cpu (t0 + d1)) = .ok s2 ∧
      mtrace_exec_start s2 (cpu_at cpu t1) = .ok s3 ∧
      mtrace_exec_stop s3 (cpu_at cpu (t1 + d2)) = .ok s4 ∧
      (s4.mtrace_tsc cpu).offset = (d1 + d2) % UINT64_SIZE ∧
      (∀ c, c ≠ cpu → s4.mtrace_tsc c = s.mtrace_tsc c) ∧
      (∀ (u : State) (t k : Nat), ∃ v, mtrace_get_percore_tsc u (cpu_at cpu t) k = .ok v ∧
        (v : Int) = ((t : Int) % UINT64_SIZE - (u.mtrace_tsc cpu).start % UINT64_SIZE +
          (u.mtrace_tsc cpu).offset) % UINT64_SIZE) ∧
      (∀ e k, mtrace_get_percore_tsc s1 (cpu_at cpu (t0 + e)) k = .ok (e % UINT64_SIZE)) ∧
      (∀ e k, mtrace_get_percore_tsc s3 (cpu_at cpu (t1 + e)) k = .ok ((d1 + e) % UINT64_SIZE)) := by
  refine ⟨_, _, _, _, by simp only [mtrace_exec_start, cpu_at, hcpu, if_true]; rfl,
    by simp only [mtrace_exec_stop, cpu_at, hcpu, if_true]; rfl,
    by simp only [mtrace_exec_start, cpu_at, hcpu, if_true]; rfl,
    by simp only [mtrace_exec_stop, cpu_at, hcpu, if_true]; rfl, ?_, ?_, ?_, ?_, ?_⟩
  · simp only [Function.update_same, cpu_get_tsc, hoff, sub64_add]
    simp only [add64, UINT64_SIZE]
    omega
  · intro c hc
    simp [Function.update_noteq hc]
  · intro u t k
    refine ⟨_, by simp only [mtrace_get_percore_tsc, cpu_at, hcpu, if_true]; rfl, ?_⟩
    simp only [add64, sub64, cpu_get_tsc, UINT64_SIZE]
    omega
  · intro e k
    simp only [mtrace_get_percore_tsc, cpu_at, hcpu, if_true, Function.update_same, cpu_get_tsc,
      hoff, sub64_add]
    simp only [add64, UINT64_SIZE]
    congr 1
    omega
  · intro e k
    simp only [mtrace_get_percore_tsc, cpu_at, hcpu, if_true, Function.update_same, cpu_get_tsc,
      hoff, sub64_add]
    simp only [add64, UINT64_SIZE]
    congr 1
    omega

/-- Witness for C8: core 2 runs 100 ticks from clock 1000, pauses, and runs 50
ticks from clock 5000. -/
theorem virtual_timestamp_witness :
    ∃ s1 s2 s3 s4,
      mtrace_exec_start (State.init []) (cpu_at 2 1000) = .ok s1 ∧
      mtrace_exec_stop s1 (cpu_at 2 (1000 + 100)) = .ok s2 ∧
      mtrace_exec_start s2 (cpu_at 2 5000) = .ok s3 ∧
      mtrace_exec_stop s3 (cpu_at 2 (5000 + 50)) = .ok s4 ∧
      (s4.mtrace_tsc 2).offset = (100 + 50) % UINT64_SIZE ∧
      (∀ c, c ≠ 2 → s4.mtrace_tsc c = (State.init []).mtrace_tsc c) ∧
      (∀ (u : State) (t k : Nat), ∃ v, mtrace_get_percore_tsc u (cpu_at 2 t) k = .ok v ∧
        (v : Int) = ((t : Int) % UINT64_SIZE - (u.mtrace_tsc 2).start % UINT64_SIZE +
          (u.mtrace_tsc 2).offset) % UINT64_SIZE) ∧
      (∀ e k, mtrace_get_percore_tsc s1 (cpu_at 2 (1000 + e)) k = .ok (e % UINT64_SIZE)) ∧
      (∀ e k, mtrace_get_percore_tsc s3 (cpu_at 2 (5000 + e)) k = .ok ((100 + e) % UINT64_SIZE)) :=
  virtual_timestamp (State.init []) 2 1000 100 5000 50 (by decide) rfl

/-! ## Lock regions -/

/-- C9, counterexample.  In the initial state lock tracing is off
(`mtrace_lock_trace = 0`) and core 0 has its lock-active flag clear, yet
`mtrace_lock_stop` on core 0 returns normally, leaving the state as it was: the
mismatch is neither detected nor fatal. -/
theorem lock_stop_counterexample :
    (State.init []).mtrace_lock_active 0 = 0 ∧
    mtrace_lock_stop (State.init []) (cpu_at 0 0) = .ok (State.init []) :=
  ⟨rfl, rfl⟩

/-- C9 (amended).  With lock tracing enabled (`mtrace_lock_trace` nonzero), for
every tracer state and every core (index below 255): `mtrace_lock_stop` on a core
whose lock-active flag is clear aborts; on a core whose flag is set it returns,
clears that core's flag and leaves every other core's flag unchanged. -/
theorem lock_stop_rule (s : State) (env : CPUX86State)
    (htrace : s.mtrace_lock_trace ≠ 0) (hcpu : env.cpu_index < MAX_CPUS) :
    (s.mtrace_lock_active env.cpu_index = 0 → mtrace_lock_stop s env = .error .abort) ∧
    (s.mtrace_lock_active env.cpu_index ≠ 0 →
      ∃ s', mtrace_lock_stop s env = .ok s' ∧
        s'.mtrace_lock_active env.cpu_index = 0 ∧
        ∀ c, c ≠ env.cpu_index → s'.mtrace_lock_active c = s.mtrace_lock_active c) := by
  constructor
  · intro h
    simp [mtrace_lock_stop, htrace, hcpu, h]
  · intro h
    refine ⟨_, by simp only [mtrace_lock_stop, htrace, hcpu, h, if_true, if_false]; rfl, ?_, ?_⟩
    · simp
    · intro c hc
      simp [Function.update_noteq hc]

/-- Witness for C9 (amended): lock tracing on, core 4, whose flag is clear at start. -/
theorem lock_stop_rule_witness :
    (lock_state.mtrace_lock_active 4 = 0 →
      mtrace_lock_stop lock_state (cpu_at 4 0) = .error .abort) ∧
    (lock_state.mtrace_lock_active 4 ≠ 0 →
      ∃ s', mtrace_lock_stop lock_state (cpu_at 4 0) = .ok s' ∧
        s'.mtrace_lock_active 4 = 0 ∧
        ∀ c, c ≠ 4 → s'.mtrace_lock_active c = lock_state.mtrace_lock_active c) :=
  lock_stop_rule lock_state (cpu_at 4 0) (by decide) (by decide)

/-- C10. `mtrace_lock_start` is idempotent, not a counter: with lock tracing
enabled, for every core (index below 255) and every state, in particular one where
the core is already active, `mtrace_lock_start` returns and leaves the flag active;
a second `mtrace_lock_start` returns the very state the first one left; a single
`mtrace_lock_stop` afterwards returns with the flag clear; and no other core's flag
changes in any of these calls. -/
theorem lock_start_idempotent (s : State) (env : CPUX86State)
    (htrace : s.mtrace_lock_trace ≠ 0) (hcpu : env.cpu_index < MAX_CPUS) :
    ∃ s1, mtrace_lock_start s env = .ok s1 ∧
      s1.mtrace_lock_active env.cpu_index ≠ 0 ∧
      (∀ c, c ≠ env.cpu_index → s1.mtrace_lock_active c = s.mtrace_lock_active c) ∧
      mtrace_lock_start s1 env = .ok s1 ∧
      ∃ s3, mtrace_lock_stop s1 env = .ok s3 ∧
        s3.mtrace_lock_active env.cpu_index = 0 ∧
        ∀ c, c ≠ env.cpu_index → s3.mtrace_lock_active c = s.mtrace_lock_active c := by
  refine ⟨_, by simp only [mtrace_lock_start, htrace, hcpu, if_true, if_false]; rfl,
    by simp, ?_, ?_, ?_⟩
  · intro c hc
    simp [Function.update_noteq hc]
  · simp [mtrace_lock_start, htrace, hcpu]
  · refine ⟨_, by simp only [mtrace_lock_stop, htrace, hcpu, if_true, if_false,
      Function.update_same, one_ne_zero]; rfl, by simp, ?_⟩
    intro c hc
    simp [Function.update_noteq hc]

/-- Witness for C10: lock tracing on, core 7. -/
theorem lock_start_idempotent_witness :
    ∃ s1, mtrace_lock_start lock_state (cpu_at 7 0) = .ok s1 ∧
      s1.mtrace_lock_active 7 ≠ 0 ∧
      (∀ c, c ≠ 7 → s1.mtrace_lock_active c = lock_state.mtrace_lock_active c) ∧
      mtrace_lock_start s1 (cpu_at 7 0) = .ok s1 ∧
      ∃ s3, mtrace_lock_stop s1 (cpu_at 7 0) = .ok s3 ∧
        s3.mtrace_lock_active 7 = 0 ∧
        ∀ c, c ≠ 7 → s3.mtrace_lock_active c = lock_state.mtrace_lock_active c :=
  lock_start_idempotent lock_state (cpu_at 7 0) (by decide) (by decide)

/-! ## Log sink -/

theorem write_all_delivers (script : List WriteResult) :
    ∀ (data out : List Nat), write_all script data = some (.ok out) → out = data := by
  induction script with
  | nil =>
    intro data out h
    cases data with
    | nil => simpa [write_all] using h.symm
    | cons d ds => simp [write_all] at h
  | cons r script ih =>
    intro data out h
    cases data with
    | nil => simpa [write_all] using h.symm
    | cons d ds =>
      cases r with
      | eintr => exact ih _ _ (by simpa [write_all] using h)
      | failed => simp [write_all] at h
      | wrote k =>
        simp only [write_all] at h
        cases hw : write_all script ((d :: ds).drop k) with
        | none => simp [hw] at h
        | some y =>
          cases y with
          | error f => simp [hw] at h
          | ok o =>
            simp only [hw, Option.some.injEq, Except.ok.injEq] at h
            rw [← h, ih _ _ hw, List.take_append_drop]

theorem memcpy_at_length (buf src : List Nat) (n : Nat) (h : n + src.length ≤ buf.length) :
    (memcpy_at buf n src).length = buf.length := by
  simp only [memcpy_at, List.length_append, List.length_take, List.length_drop]
  omega

theorem memcpy_at_take (buf src : List Nat) (n : Nat) (h : n + src.length ≤ buf.length) :
    (memcpy_at buf n src).take (n + src.length) = buf.take n ++ src := by
  have hl : (buf.take n ++ src).length = n + src.length := by
    simp only [List.length_append, List.length_take]
    omega
  unfold memcpy_at
  rw [← hl, List.take_left]

theorem image_length (e : mtrace_entry) (h : entry_ok e) : e.image.length = e.h.size := by
  simp only [mtrace_entry.image, List.length_take]
  exact Nat.min_eq_left h.1

theorem images_append (xs ys : List mtrace_entry) : images (xs ++ ys) = images xs ++ images ys := by
  simp [images]

theorem images_single (e : mtrace_entry) : images [e] = e.image := by
  simp [images]

theorem log_entries_snoc (s : State) (es : List mtrace_entry) (e : mtrace_entry) :
    log_entries s (es ++ [e]) = mtrace_log_entry (log_entries s es) (some e) := by
  simp [log_entries, List.foldl_append]

theorem log_entry_fits (t : State) (e : mtrace_entry)
    (hlen : t.flush_buffer.length = FLUSH_BUFFER_BYTES) (hok : entry_ok e)
    (hfit : t.n + e.h.size ≤ FLUSH_BUFFER_BYTES) :
    (mtrace_log_entry t (some e)).written = t.written ∧
    (mtrace_log_entry t (some e)).n = t.n + e.h.size ∧
    (mtrace_log_entry t (some e)).flush_buffer.length = FLUSH_BUFFER_BYTES ∧
    (mtrace_log_entry t (some e)).flush_buffer.take (mtrace_log_entry t (some e)).n =
      t.flush_buffer.take t.n ++ e.image ∧
    (mtrace_log_entry t (some e)).emitted = t.emitted ++ [e] := by
  have hil := image_length e hok
  have hmod : (t.n + e.h.size) % UINT32_SIZE = t.n + e.h.size := by
    apply Nat.mod_eq_of_lt
    have := hok.2
    omega
  have h1 : ¬ (t.n + e.h.size) % UINT32_SIZE > FLUSH_BUFFER_BYTES := by
    rw [hmod]
    omega
  have h2 : ¬ e.h.size > FLUSH_BUFFER_BYTES := by omega
  simp only [mtrace_log_entry, h1, h2, if_false]
  refine ⟨trivial, trivial, ?_, ?_, trivial⟩
  · rw [memcpy_at_length _ _ _ (by rw [hil, hlen]; exact hfit), hlen]
  · rw [← hil, memcpy_at_take _ _ _ (by rw [hil, hlen]; exact hfit)]

theorem log_entry_flush_small (t : State) (e : mtrace_entry)
    (hlen : t.flush_buffer.length = FLUSH_BUFFER_BYTES) (hn : t.n ≤ FLUSH_BUFFER_BYTES)
    (hok : entry_ok e)
    (hover : t.n + e.h.size > FLUSH_BUFFER_BYTES) (hsmall : e.h.size ≤ FLUSH_BUFFER_BYTES) :
    (mtrace_log_entry t (some e)).written = t.written ++ [t.flush_buffer.take t.n] ∧
    (mtrace_log_entry t (some e)).n = e.h.size ∧
    (mtrace_log_entry t (some e)).flush_buffer.length = FLUSH_BUFFER_BYTES ∧
    (mtrace_log_entry t (some e)).flush_buffer.take (mtrace_log_entry t (some e)).n = e.image ∧
    (mtrace_log_entry t (some e)).emitted = t.emitted ++ [e] := by
  have hil := image_length e hok
  have hmod : (t.n + e.h.size) % UINT32_SIZE = t.n + e.h.size := by
    apply Nat.mod_eq_of_lt
    have := hok.2
    omega
  have h1 : (t.n + e.h.size) % UINT32_SIZE > FLUSH_BUFFER_BYTES := by
    rw [hmod]
    exact hover
  have h2 : ¬ e.h.size > FLUSH_BUFFER_BYTES := by omega
  simp only [mtrace_log_entry, h1, h2, if_true, if_false, flush]
  refine ⟨trivial, by simp, ?_, ?_, trivial⟩
  · rw [memcpy_at_length _ _ _ (by simp only [zero_add, hil, hlen]; exact hsmall), hlen]
  · have := memcpy_at_take t.flush_buffer e.image 0
      (by simp only [zero_add, hil, hlen]; exact hsmall)
    simp only [zero_add, hil, List.take_zero, List.nil_append] at this ⊢
    exact this

theorem log_entry_flush_big (t : State) (e : mtrace_entry)
    (hn : t.n ≤ FLUSH_BUFFER_BYTES) (hok : entry_ok e)
    (hbig : e.h.size > FLUSH_BUFFER_BYTES) :
    (mtrace_log_entry t (some e)).written = t.written ++ [t.flush_buffer.take t.n] ++ [e.image] ∧
    (mtrace_log_entry t (some e)).n = 0 ∧
    (mtrace_log_entry t (some e)).flush_buffer = t.flush_buffer ∧
    (mtrace_log_entry t (some e)).emitted = t.emitted ++ [e] := by
  have hmod : (t.n + e.h.size) % UINT32_SIZE = t.n + e.h.size := by
    apply Nat.mod_eq_of_lt
    have := hok.2
    omega
  have h1 : (t.n + e.h.size) % UINT32_SIZE > FLUSH_BUFFER_BYTES := by
    rw [hmod]
    omega
  simp only [mtrace_log_entry, h1, hbig, if_true, flush]
  exact ⟨trivial, trivial, trivial, trivial⟩

theorem log_entries_inv (s : State) (hn : s.n = 0)
    (hlen : s.flush_buffer.length = FLUSH_BUFFER_BYTES) (es : List mtrace_entry) :
    (∀ x ∈ es, entry_ok x) →
    (log_entries s es).flush_buffer.length = FLUSH_BUFFER_BYTES ∧
    (log_entries s es).n ≤ FLUSH_BUFFER_BYTES ∧
    (log_entries s es).emitted = s.emitted ++ es ∧
    (∃ (groups : List (List mtrace_entry)) (pending : List mtrace_entry),
      es = groups.flatten ++ pending ∧
      (log_entries s es).written = s.written ++ groups.map images ∧
      (log_entries s es).flush_buffer.take (log_entries s es).n = images pending) ∧
    ((es.map (fun x => x.h.size)).sum ≤ FLUSH_BUFFER_BYTES →
      (log_entries s es).written = s.written ∧
      (log_entries s es).n = (es.map (fun x => x.h.size)).sum ∧
      (log_entries s es).flush_buffer.take (log_entries s es).n = images es) := by
  induction es using List.reverseRecOn with
  | nil =>
    intro _
    refine ⟨hlen, by simp [log_entries, hn], by simp [log_entries], ⟨[], [], ?_⟩, ?_⟩
    · simp [log_entries, hn, images]
    · intro _
      simp [log_entries, hn, images]
  | append_singleton es e ih =>
    intro hok
    have hes : ∀ x ∈ es, entry_ok x := fun x hx => hok x (List.mem_append_left _ hx)
    have he : entry_ok e := hok e (by simp)
    obtain ⟨tlen, tn, tem, ⟨groups, pending, hsplit, twr, tbuf⟩, tsum⟩ := ih hes
    rw [log_entries_snoc]
    by_cases hfit : (log_entries s es).n + e.h.size ≤ FLUSH_BUFFER_BYTES
    · obtain ⟨w, n', l', b', e'⟩ := log_entry_fits _ e tlen he hfit
      refine ⟨l', by rw [n']; exact hfit, by rw [e', tem, List.append_assoc],
        ⟨groups, pending ++ [e], ?_, ?_, ?_⟩, ?_⟩
      · rw [hsplit, List.append_assoc]
      · rw [w, twr]
      · rw [b', tbuf, images_append, images_single]
      · intro hs
        simp only [List.map_append, List.sum_append, List.map_cons, List.map_nil,
          List.sum_cons, List.sum_nil, Nat.add_zero] at hs ⊢
        obtain ⟨sw, sn, sb⟩ := tsum (by omega)
        refine ⟨by rw [w, sw], by rw [n', sn], ?_⟩
        rw [b', sb, images_append, images_single]
    · have hover : (log_entries s es).n + e.h.size > FLUSH_BUFFER_BYTES := by omega
      have hnosum : ¬ ((es ++ [e]).map (fun x => x.h.size)).sum ≤ FLUSH_BUFFER_BYTES := by
        intro hs
        simp only [List.map_append, List.sum_append, List.map_cons, List.map_nil,
          List.sum_cons, List.sum_nil, Nat.add_zero] at hs
        obtain ⟨-, sn, -⟩ := tsum (by omega)
        omega
      by_cases hsmall : e.h.size ≤ FLUSH_BUFFER_BYTES
      · obtain ⟨w, n', l', b', e'⟩ := log_entry_flush_small _ e tlen tn he hover hsmall
        refine ⟨l', by rw [n']; exact hsmall, by rw [e', tem, List.append_assoc],
          ⟨groups ++ [pending], [e], ?_, ?_, ?_⟩, fun hs => absurd hs hnosum⟩
        · rw [hsplit]
          simp
        · rw [w, twr, tbuf]
          simp
        · rw [b', images_single]
      · have hbig : e.h.size > FLUSH_BUFFER_BYTES := by omega
        obtain ⟨w, n', l', e'⟩ := log_entry_flush_big _ e tn he hbig
        refine ⟨by rw [l']; exact tlen, by rw [n']; omega, by rw [e', tem, List.append_assoc],
          ⟨groups ++ [pending, [e]], [], ?_, ?_, ?_⟩, fun hs => absurd hs hnosum⟩
        · rw [hsplit]
          simp
        · rw [w, twr, tbuf]
          simp [images_single]
        · rw [n']
          simp [images]

theorem images_flatten (groups : List (List mtrace_entry)) :
    (groups.map images).flatten = images groups.flatten := by
  induction groups with
  | nil => simp [images]
  | cons g gs ih => simp [ih, images_append]

theorem demo_entry_ok (k : Nat) : entry_ok (demo_entry k) :=
  ⟨by simp [demo_entry, mtrace_entry.h, mtrace_entry.mem, mtrace_entry_header.mem, le_bytes,
      sizeof_access_entry],
    by simp [demo_entry, mtrace_entry.h, sizeof_access_entry, FLUSH_BUFFER_BYTES, UINT32_SIZE]⟩

theorem init_buffer_length (ram : List RAMBlock) :
    (State.init ram).flush_buffer.length = FLUSH_BUFFER_BYTES := by
  simp [State.init]

theorem log_sink_lossless_aux (s : State) (es : List mtrace_entry)
    (hn : s.n = 0) (hlen : s.flush_buffer.length = FLUSH_BUFFER_BYTES)
    (hok : ∀ x ∈ es, entry_ok x) :
    (∃ w, (mtrace_log_entry (log_entries s es) none).written = s.written ++ w ∧
      w.flatten = images es) ∧
    (mtrace_log_entry (log_entries s es) none).n = 0 ∧
    (mtrace_log_entry (log_entries s es) none).emitted = s.emitted ++ es := by
  obtain ⟨-, -, tem, ⟨groups, pending, hsplit, twr, tbuf⟩, -⟩ := log_entries_inv s hn hlen es hok
  refine ⟨⟨groups.map images ++ [images pending], ?_, ?_⟩, rfl, tem⟩
  · simp only [mtrace_log_entry, flush, twr, tbuf, List.append_assoc]
  · rw [List.flatten_append, images_flatten, hsplit, images_append]
    simp

/-- C5. The log sink is lossless and order-preserving: starting from an empty
accumulation buffer, for every sequence of entries passed to `mtrace_log_entry`
followed by a flush (NULL entry), the payloads handed to `write_all`, concatenated
in call order, equal the concatenation of the first `h.size` bytes of each entry
in emission order, and after the flush `n = 0`; and whenever `write_all` returns,
the descriptor has been given exactly the payload. -/
theorem log_sink_lossless (s : State) (es : List mtrace_entry)
    (hn : s.n = 0) (hlen : s.flush_buffer.length = FLUSH_BUFFER_BYTES)
    (hok : ∀ x ∈ es, entry_ok x) :
    (∃ w, (mtrace_log_entry (log_entries s es) none).written = s.written ++ w ∧
      w.flatten = images es) ∧
    (mtrace_log_entry (log_entries s es) none).n = 0 ∧
    (mtrace_log_entry (log_entries s es) none).emitted = s.emitted ++ es ∧
    ∀ script payload out, write_all script payload = some (.ok out) → out = payload := by
  exact ⟨(log_sink_lossless_aux s es hn hlen hok).1, (log_sink_lossless_aux s es hn hlen hok).2.1,
    (log_sink_lossless_aux s es hn hlen hok).2.2,
    fun script payload out h => write_all_delivers script payload out h⟩

/-- Witness for C5: three access records logged from the initial state, then a flush. -/
theorem log_sink_lossless_witness :
    (∃ w, (mtrace_log_entry (log_entries (State.init [])
          [demo_entry 0, demo_entry 1, demo_entry 2]) none).written = (State.init []).written ++ w ∧
      w.flatten = images [demo_entry 0, demo_entry 1, demo_entry 2]) ∧
    (mtrace_log_entry (log_entries (State.init [])
      [demo_entry 0, demo_entry 1, demo_entry 2]) none).n = 0 ∧
    (mtrace_log_entry (log_entries (State.init [])
      [demo_entry 0, demo_entry 1, demo_entry 2]) none).emitted =
        (State.init []).emitted ++ [demo_entry 0, demo_entry 1, demo_entry 2] ∧
    ∀ script payload out, write_all script payload = some (.ok out) → out = payload :=
  log_sink_lossless (State.init []) [demo_entry 0, demo_entry 1, demo_entry 2] rfl
    (init_buffer_length [])
    (by
      intro x hx
      simp only [List.mem_cons, List.mem_singleton, List.not_mem_nil, or_false] at hx
      rcases hx with rfl | rfl | rfl <;> exact demo_entry_ok _)

/-- C6. Buffer flush boundary: starting from an empty accumulation buffer, after
every sequence `es` of emitted records the fill `n` is at most 8192; for a next
record `e`, if `n + size > 8192` the buffered bytes are handed to `write_all`
first, before `e` is accepted (and `e` then goes into the emptied buffer, or
straight to `write_all` when it is itself larger than the buffer), whereas if
`n + size ≤ 8192` nothing is written and `e` is appended to the buffer; records
whose cumulative size is at most 8192, exactly 8192 included, are all buffered
with nothing written; and the payloads handed to `write_all` are the
concatenations of consecutive groups of whole records, the records not yet
written being exactly the buffer's content, so no record is split across two
writes. -/
theorem buffer_flush_boundary (s : State) (es : List mtrace_entry) (e : mtrace_entry)
    (hn : s.n = 0) (hlen : s.flush_buffer.length = FLUSH_BUFFER_BYTES)
    (hok : ∀ x ∈ es, entry_ok x) (he : entry_ok e) :
    (log_entries s es).n ≤ FLUSH_BUFFER_BYTES ∧
    ((log_entries s es).n + e.h.size > FLUSH_BUFFER_BYTES →
      (mtrace_log_entry (log_entries s es) (some e)).written =
        (log_entries s es).written ++ [(log_entries s es).flush_buffer.take (log_entries s es).n]
          ++ (if e.h.size > FLUSH_BUFFER_BYTES then [e.image] else []) ∧
      (mtrace_log_entry (log_entries s es) (some e)).flush_buffer.take
          (mtrace_log_entry (log_entries s es) (some e)).n =
        (if e.h.size > FLUSH_BUFFER_BYTES then [] else e.image)) ∧
    ((log_entries s es).n + e.h.size ≤ FLUSH_BUFFER_BYTES →
      (mtrace_log_entry (log_entries s es) (some e)).written = (log_entries s es).written ∧
      (mtrace_log_entry (log_entries s es) (some e)).flush_buffer.take
          (mtrace_log_entry (log_entries s es) (some e)).n =
        (log_entries s es).flush_buffer.take (log_entries s es).n ++ e.image) ∧
    ((es.map (fun x => x.h.size)).sum ≤ FLUSH_BUFFER_BYTES →
      (log_entries s es).written = s.written ∧
      (log_entries s es).n = (es.map (fun x => x.h.size)).sum ∧
      (log_entries s es).flush_buffer.take (log_entries s es).n = images es) ∧
    (∃ (groups : List (List mtrace_entry)) (pending : List mtrace_entry),
      es = groups.flatten ++ pending ∧
      (log_entries s es).written = s.written ++ groups.map images ∧
      (log_entries s es).flush_buffer.take (log_entries s es).n = images pending) := by
  obtain ⟨tlen, tn, -, hgroups, hsum⟩ := log_entries_inv s hn hlen es hok
  refine ⟨tn, ?_, ?_, hsum, hgroups⟩
  · intro hover
    by_cases hbig : e.h.size > FLUSH_BUFFER_BYTES
    · obtain ⟨w, n', -, -⟩ := log_entry_flush_big _ e tn he hbig
      rw [w, n']
      simp [hbig]
    · obtain ⟨w, -, -, b', -⟩ := log_entry_flush_small _ e tlen tn he hover (by omega)
      rw [w, b']
      simp [hbig]
  · intro hfit
    obtain ⟨w, -, -, b', -⟩ := log_entry_fits _ e tlen he hfit
    exact ⟨w, b'⟩

/-- Witness for C6: 141 access records of 58 bytes buffered from the initial state
(8178 bytes), and one more record next. -/
theorem buffer_flush_boundary_witness :
    (log_entries (State.init []) (List.replicate 141 (demo_entry 0))).n ≤ FLUSH_BUFFER_BYTES ∧
    ((log_entries (State.init []) (List.replicate 141 (demo_entry 0))).n + (demo_entry 1).h.size
        > FLUSH_BUFFER_BYTES →
      (mtrace_log_entry (log_entries (State.init []) (List.replicate 141 (demo_entry 0)))
          (some (demo_entry 1))).written =
        (log_entries (State.init []) (List.replicate 141 (demo_entry 0))).written ++
          [(log_entries (State.init []) (List.replicate 141 (demo_entry 0))).flush_buffer.take
            (log_entries (State.init []) (List.replicate 141 (demo_entry 0))).n]
          ++ (if (demo_entry 1).h.size > FLUSH_BUFFER_BYTES then [(demo_entry 1).image] else []) ∧
      (mtrace_log_entry (log_entries (State.init []) (List.replicate 141 (demo_entry 0)))
          (some (demo_entry 1))).flush_buffer.take
          (mtrace_log_entry (log_entries (State.init []) (List.replicate 141 (demo_entry 0)))
            (some (demo_entry 1))).n =
        (if (demo_entry 1).h.size > FLUSH_BUFFER_BYTES then [] else (demo_entry 1).image)) ∧
    ((log_entries (State.init []) (List.replicate 141 (demo_entry 0))).n + (demo_entry 1).h.size
        ≤ FLUSH_BUFFER_BYTES →
      (mtrace_log_entry (log_entries (State.init []) (List.replicate 141 (demo_entry 0)))
          (some (demo_entry 1))).written =
        (log_entries (State.init []) (List.replicate 141 (demo_entry 0))).written ∧
      (mtrace_log_entry (log_entries (State.init []) (List.replicate 141 (demo_entry 0)))
          (some (demo_entry 1))).flush_buffer.take
          (mtrace_log_entry (log_entries (State.init []) (List.replicate 141 (demo_entry 0)))
            (some (demo_entry 1))).n =
        (log_entries (State.init []) (List.replicate 141 (demo_entry 0))).flush_buffer.take
          (log_entries (State.init []) (List.replicate 141 (demo_entry 0))).n ++
            (demo_entry 1).image) ∧
    (((List.replicate 141 (demo_entry 0)).map (fun x => x.h.size)).sum ≤ FLUSH_BUFFER_BYTES →
      (log_entries (State.init []) (List.replicate 141 (demo_entry 0))).written =
        (State.init []).written ∧
      (log_entries (State.init []) (List.replicate 141 (demo_entry 0))).n =
        ((List.replicate 141 (demo_entry 0)).map (fun x => x.h.size)).sum ∧
      (log_entries (State.init []) (List.replicate 141 (demo_entry 0))).flush_buffer.take
          (log_entries (State.init []) (List.replicate 141 (demo_entry 0))).n =
        images (List.replicate 141 (demo_entry 0))) ∧
    (∃ (groups : List (List mtrace_entry)) (pending : List mtrace_entry),
      List.replicate 141 (demo_entry 0) = groups.flatten ++ pending ∧
      (log_entries (State.init []) (List.replicate 141 (demo_entry 0))).written =
        (State.init []).written ++ groups.map images ∧
      (log_entries (State.init []) (List.replicate 141 (demo_entry 0))).flush_buffer.take
          (log_entries (State.init []) (List.replicate 141 (demo_entry 0))).n = images pending) :=
  buffer_flush_boundary (State.init []) (List.replicate 141 (demo_entry 0)) (demo_entry 1) rfl
    (init_buffer_length [])
    (fun x hx => by rw [List.eq_of_mem_replicate hx]; exact demo_entry_ok 0)
    (demo_entry_ok 1)

/-! ## Global access order -/

theorem log_entry_fields (s : State) (e : mtrace_entry) :
    (mtrace_log_entry s (some e)).mtrace_access_count = s.mtrace_access_count ∧
    (mtrace_log_entry s (some e)).mtrace_system_enable = s.mtrace_system_enable ∧
    (mtrace_log_entry s (some e)).emitted = s.emitted ++ [e] := by
  simp only [mtrace_log_entry, flush]
  split_ifs <;> exact ⟨rfl, rfl, rfl⟩

theorem access_dump_fields (emu : Emu) (env : CPUX86State) (s s' : State)
    (type host_addr guest_addr a retaddr : Nat) (traffic lock : Int)
    (h : mtrace_access_dump emu env s type host_addr guest_addr a retaddr traffic lock = .ok s') :
    s'.mtrace_access_count = s.mtrace_access_count ∧
    s'.mtrace_system_enable = s.mtrace_system_enable ∧
    (s'.emitted = s.emitted ∨
      ∃ e, s'.emitted = s.emitted ++ [e] ∧ e.h.access_count = a % UINT64_SIZE) := by
  unfold mtrace_access_dump at h
  split_ifs at h
  · cases h
    exact ⟨rfl, rfl, Or.inl rfl⟩
  · cases h
    exact ⟨rfl, rfl, Or.inl rfl⟩
  · cases h
    obtain ⟨c, y, em⟩ := log_entry_fields
      { s with sampler := s.sampler + 1 }
      (.access ⟨mtrace_entry_access, sizeof_access_entry, env.cpu_index % UINT32_SIZE,
        a % UINT64_SIZE, 0⟩ type (mtrace_get_pc emu env retaddr) host_addr guest_addr
        traffic lock)
    exact ⟨c, y, Or.inr ⟨_, em, rfl⟩⟩

theorem update_ld_fields (s s' : State) (a c : Nat) (r : Int)
    (h : mtrace_cline_update_ld s a c = .ok (s', r)) :
    ∃ ram, s' = { s with ram := ram } := by
  unfold mtrace_cline_update_ld at h
  split at h
  · cases h
    exact ⟨s.ram, rfl⟩
  · split at h
    · cases h
    · split at h
      · cases h
      · split at h
        · cases h
          exact ⟨s.ram, rfl⟩
        · cases h
          exact ⟨_, rfl⟩

theorem update_st_fields (s s' : State) (a c : Nat) (r : Int)
    (h : mtrace_cline_update_st s a c = .ok (s', r)) :
    ∃ ram, s' = { s with ram := ram } := by
  unfold mtrace_cline_update_st at h
  split at h
  · cases h
    exact ⟨s.ram, rfl⟩
  · split at h
    · cases h
    · split at h
      · cases h
      · split at h
        · cases h
          exact ⟨s.ram, rfl⟩
        · cases h
          exact ⟨_, rfl⟩

theorem access_tail_fields (emu : Emu) (env : CPUX86State) (type host_addr guest_addr a retaddr : Nat)
    (sr : State × Int) (s' : State)
    (h : access_tail emu env type host_addr guest_addr a retaddr sr = .ok s') :
    s'.mtrace_access_count = sr.1.mtrace_access_count ∧
    s'.mtrace_system_enable = sr.1.mtrace_system_enable ∧
    (s'.emitted = sr.1.emitted ∨
      ∃ e, s'.emitted = sr.1.emitted ++ [e] ∧ e.h.access_count = a % UINT64_SIZE) := by
  unfold access_tail at h
  split at h
  · cases h
  · split_ifs at h
    · exact access_dump_fields emu env _ _ _ _ _ _ _ _ _ h
    · cases h
      exact ⟨rfl, rfl, Or.inl rfl⟩

theorem mem_access_fields (emu : Emu) (s s' : State) (op : MemOp)
    (hsys : s.mtrace_system_enable ≠ 0) (h : mem_access emu s op = .ok s') :
    s'.mtrace_access_count = (s.mtrace_access_count + 1) % UINT64_SIZE ∧
    s'.mtrace_system_enable = s.mtrace_system_enable ∧
    (s'.emitted = s.emitted ∨
      ∃ e, s'.emitted = s.emitted ++ [e] ∧
        e.h.access_count = s.mtrace_access_count % UINT64_SIZE) := by
  unfold mem_access at h
  split at h
  · simp only [mtrace_ld, hsys, if_false] at h
    split at h
    · cases h
    · rename_i sr hsr
      obtain ⟨ram, hram⟩ := update_ld_fields _ sr.1 _ _ sr.2 hsr
      obtain ⟨c, y, em⟩ := access_tail_fields emu _ _ _ _ _ _ sr s' h
      rw [hram] at c y em
      exact ⟨c, y, em⟩
  · simp only [mtrace_st, hsys, if_false] at h
    split at h
    · cases h
    · rename_i sr hsr
      obtain ⟨ram, hram⟩ := update_st_fields _ sr.1 _ _ sr.2 hsr
      obtain ⟨c, y, em⟩ := access_tail_fields emu _ _ _ _ _ _ sr s' h
      rw [hram] at c y em
      exact ⟨c, y, em⟩

theorem mem_accesses_count (emu : Emu) (ops : List MemOp) :
    ∀ (s si : State), s.mtrace_system_enable ≠ 0 → mem_accesses emu s ops = .ok si →
      si.mtrace_system_enable = s.mtrace_system_enable ∧
      si.mtrace_access_count % UINT64_SIZE =
        (s.mtrace_access_count + ops.length) % UINT64_SIZE ∧
      (s.mtrace_access_count < UINT64_SIZE → si.mtrace_access_count < UINT64_SIZE) := by
  induction ops with
  | nil =>
    intro s si _ h
    simp only [mem_accesses, Except.ok.injEq] at h
    subst h
    exact ⟨rfl, rfl, fun h => h⟩
  | cons op ops ih =>
    intro s si hsys h
    simp only [mem_accesses] at h
    split at h
    · cases h
    · rename_i s1 h1
      obtain ⟨c1, y1, -⟩ := mem_access_fields emu s s1 op hsys h1
      obtain ⟨y2, c2, b2⟩ := ih s1 si (by rw [y1]; exact hsys) h
      refine ⟨y2.trans y1, ?_, ?_⟩
      · rw [c2, c1, List.length_cons]
        simp only [UINT64_SIZE]
        omega
      · intro _
        apply b2
        rw [c1]
        exact Nat.mod_lt _ (by simp [UINT64_SIZE])

theorem update_ld_returns (s : State) (a c : Nat) (hc : c < 31)
    (hline : s.mtrace_cline_track = 0 ∨ (line_of s.ram a).isSome = true) :
    ∃ sr, mtrace_cline_update_ld s a c = .ok sr := by
  unfold mtrace_cline_update_ld
  by_cases ht : s.mtrace_cline_track = 0
  · exact ⟨_, by rw [if_pos ht]⟩
  · rw [if_neg ht]
    have hsome : (line_of s.ram a).isSome = true := hline.resolve_left ht
    unfold line_of at hsome
    cases hl : cline_lookup s.ram a with
    | error f => simp [hl] at hsome
    | ok ln =>
      simp only [shl_one, INT_BITS, hc, if_true]
      split_ifs
      · exact ⟨_, rfl⟩
      · exact ⟨_, rfl⟩

theorem update_st_returns (s : State) (a c : Nat) (hc : c < 31)
    (hline : s.mtrace_cline_track = 0 ∨ (line_of s.ram a).isSome = true) :
    ∃ sr, mtrace_cline_update_st s a c = .ok sr := by
  unfold mtrace_cline_update_st
  by_cases ht : s.mtrace_cline_track = 0
  · exact ⟨_, by rw [if_pos ht]⟩
  · rw [if_neg ht]
    have hsome : (line_of s.ram a).isSome = true := hline.resolve_left ht
    unfold line_of at hsome
    cases hl : cline_lookup s.ram a with
    | error f => simp [hl] at hsome
    | ok ln =>
      simp only [shl_one, INT_BITS, hc, if_true]
      split_ifs
      · exact ⟨_, rfl⟩
      · exact ⟨_, rfl⟩

theorem access_dump_returns (emu : Emu) (env : CPUX86State) (s : State)
    (type host_addr guest_addr a retaddr : Nat) (traffic lock : Int)
    (hlog : s.mtrace_enable = 0 ∨
      (0 < s.mtrace_sample ∧ 0 ≤ s.sampler ∧ s.sampler < 2 ^ 31 - 1)) :
    ∃ s', mtrace_access_dump emu env s type host_addr guest_addr a retaddr traffic lock = .ok s' := by
  unfold mtrace_access_dump
  by_cases he : s.mtrace_enable = 0
  · exact ⟨_, by rw [if_pos he]⟩
  · obtain ⟨h1, h2, h3⟩ := hlog.resolve_left he
    have c1 : ¬ s.mtrace_sample = 0 := by omega
    have c2 : ¬ s.sampler = 2 ^ 31 - 1 := by omega
    have c3 : ¬ (s.sampler = -(2 ^ 31) ∧ s.mtrace_sample = -1) := by omega
    rw [if_neg he, if_neg c1, if_neg c2, if_neg c3]
    simp only
    split_ifs
    · exact ⟨_, rfl⟩
    · exact ⟨_, rfl⟩

theorem access_tail_returns (emu : Emu) (env : CPUX86State)
    (type host_addr guest_addr a retaddr : Nat) (sr : State × Int)
    (hcpu : env.cpu_index < MAX_CPUS)
    (hlog : sr.1.mtrace_enable = 0 ∨
      (0 < sr.1.mtrace_sample ∧ 0 ≤ sr.1.sampler ∧ sr.1.sampler < 2 ^ 31 - 1)) :
    ∃ s', access_tail emu env type host_addr guest_addr a retaddr sr = .ok s' := by
  unfold access_tail
  simp only [lock_active_get, hcpu, if_true]
  split_ifs
  · exact access_dump_returns emu env sr.1 _ _ _ _ _ _ _ hlog
  · exact ⟨_, rfl⟩

theorem mem_access_returns (emu : Emu) (s : State) (op : MemOp)
    (hcpu : op.env.cpu_index < 31)
    (hline : s.mtrace_cline_track = 0 ∨ (line_of s.ram op.host_addr).isSome = true)
    (hlog : s.mtrace_enable = 0 ∨
      (0 < s.mtrace_sample ∧ 0 ≤ s.sampler ∧ s.sampler < 2 ^ 31 - 1)) :
    ∃ s', mem_access emu s op = .ok s' := by
  have h255 : op.env.cpu_index < MAX_CPUS := by
    simp only [MAX_CPUS]
    omega
  unfold mem_access
  split
  · unfold mtrace_ld
    by_cases hsys : s.mtrace_system_enable = 0
    · exact ⟨_, by rw [if_pos hsys]⟩
    · rw [if_neg hsys]
      simp only
      obtain ⟨sr, hsr⟩ := update_ld_returns
        { s with mtrace_access_count := (s.mtrace_access_count + 1) % UINT64_SIZE }
        op.host_addr op.env.cpu_index hcpu hline
      obtain ⟨ram, hram⟩ := update_ld_fields _ sr.1 _ _ sr.2 hsr
      rw [hsr]
      exact access_tail_returns emu op.env _ _ _ _ _ sr h255 (by rw [hram]; exact hlog)
  · unfold mtrace_st
    by_cases hsys : s.mtrace_system_enable = 0
    · exact ⟨_, by rw [if_pos hsys]⟩
    · rw [if_neg hsys]
      simp only
      obtain ⟨sr, hsr⟩ := update_st_returns
        { s with mtrace_access_count := (s.mtrace_access_count + 1) % UINT64_SIZE }
        op.host_addr op.env.cpu_index hcpu hline
      obtain ⟨ram, hram⟩ := update_st_fields _ sr.1 _ _ sr.2 hsr
      rw [hsr]
      exact access_tail_returns emu op.env _ _ _ _ _ sr h255 (by rw [hram]; exact hlog)

/-- C4. Monotonic global order: with the system enabled, for every interleaving
`pre` of `mtrace_ld` and `mtrace_st` calls across any cores and every further call
`op`, the call increases `mtrace_access_count` by exactly 1 (as a `uint64_t`)
whether or not the access is logged, and the access, the `pre.length`-th of the run
(0-based), is assigned the sequence value `initial + pre.length`, whichever core
made it: that is the counter's value when the call starts, and it is the
`access_count` of the record the call emits, if it emits one. -/
theorem monotonic_global_order (emu : Emu) (s si s' : State) (pre : List MemOp) (op : MemOp)
    (hsys : s.mtrace_system_enable ≠ 0) (hcount : s.mtrace_access_count < UINT64_SIZE)
    (hrun : mem_accesses emu s pre = .ok si) (hstep : mem_access emu si op = .ok s') :
    si.mtrace_access_count = (s.mtrace_access_count + pre.length) % UINT64_SIZE ∧
    s'.mtrace_access_count = (si.mtrace_access_count + 1) % UINT64_SIZE ∧
    (s.mtrace_access_count + pre.length + 1 < UINT64_SIZE →
      si.mtrace_access_count = s.mtrace_access_count + pre.length ∧
      s'.mtrace_access_count = si.mtrace_access_count + 1) ∧
    (s'.emitted = si.emitted ∨
      ∃ e, s'.emitted = si.emitted ++ [e] ∧
        e.h.access_count = (s.mtrace_access_count + pre.length) % UINT64_SIZE) := by
  obtain ⟨y, c, b⟩ := mem_accesses_count emu pre s si hsys hrun
  have hlt := b hcount
  rw [Nat.mod_eq_of_lt hlt] at c
  obtain ⟨c1, -, em⟩ := mem_access_fields emu si s' op (by rw [y]; exact hsys) hstep
  refine ⟨c, c1, ?_, ?_⟩
  · intro hno
    have h1 : si.mtrace_access_count = s.mtrace_access_count + pre.length := by
      rw [c]
      exact Nat.mod_eq_of_lt (by omega)
    refine ⟨h1, ?_⟩
    rw [c1]
    exact Nat.mod_eq_of_lt (by omega)
  · rw [Nat.mod_eq_of_lt hlt, c] at em
    exact em

/-- Witness for C4: from `demo_on`, a load by core 0 and then a store by core 1,
both logged. -/
theorem monotonic_global_order_witness :
    demo_mid.mtrace_access_count = (demo_on.mtrace_access_count + 1) % UINT64_SIZE ∧
    demo_end.mtrace_access_count = (demo_mid.mtrace_access_count + 1) % UINT64_SIZE ∧
    (demo_on.mtrace_access_count + 1 + 1 < UINT64_SIZE →
      demo_mid.mtrace_access_count = demo_on.mtrace_access_count + 1 ∧
      demo_end.mtrace_access_count = demo_mid.mtrace_access_count + 1) ∧
    (demo_end.emitted = demo_mid.emitted ∨
      ∃ e, demo_end.emitted = demo_mid.emitted ++ [e] ∧
        e.h.access_count = (demo_on.mtrace_access_count + 1) % UINT64_SIZE) :=
  monotonic_global_order demo_emu demo_on demo_mid demo_end
    [⟨.load, cpu_at 0 0, 4096, 0, 0⟩] ⟨.store, cpu_at 1 0, 4100, 0, 0⟩
    (by decide) (by decide) rfl rfl

/-! ## Round trip -/

theorem le_bytes_length (k v : Nat) : (le_bytes k v).length = k := by
  induction k generalizing v with
  | zero => rfl
  | succ k ih => simp [le_bytes, ih]

theorem le_value_le_bytes (k v : Nat) : le_value (le_bytes k v) = v % 256 ^ k := by
  induction k generalizing v with
  | zero => simp [le_bytes, le_value, Nat.mod_one]
  | succ k ih =>
    simp only [le_bytes, le_value, ih, Nat.mod_mod]
    rw [pow_succ', Nat.mod_mul]

theorem mem_eq_header_append (e : mtrace_entry) : ∃ body, e.mem = e.h.mem ++ body := by
  cases e with
  | access h a b c d f g =>
    exact ⟨le_bytes 4 a ++ le_bytes 8 b ++ le_bytes 8 c ++ le_bytes 8 d ++ [int_byte f] ++
      [int_byte g], by simp [mtrace_entry.mem, mtrace_entry.h]⟩
  | call h a b c =>
    exact ⟨le_bytes 8 a ++ le_bytes 8 b ++ [int_byte c],
      by simp [mtrace_entry.mem, mtrace_entry.h]⟩
  | machine h a b =>
    exact ⟨le_bytes 4 a ++ le_bytes 8 b, by simp [mtrace_entry.mem, mtrace_entry.h]⟩
  | guest h r => exact ⟨r, by simp [mtrace_entry.mem, mtrace_entry.h]⟩

theorem mem_size_field (e : mtrace_entry) :
    (e.mem.drop SIZE_OFFSET).take 4 = le_bytes 4 e.h.size := by
  obtain ⟨body, hb⟩ := mem_eq_header_append e
  rw [hb]
  simp only [mtrace_entry_header.mem, List.append_assoc, SIZE_OFFSET]
  rw [List.drop_left' (le_bytes_length 4 _), List.take_left' (le_bytes_length 4 _)]

theorem image_size_field (e : mtrace_entry) (rest : List Nat) (h : record_ok e) :
    le_value (((e.image ++ rest).drop SIZE_OFFSET).take 4) = e.h.size := by
  have hlen := image_length e h.1
  have h28 : HEADER_BYTES ≤ e.h.size := h.2
  have hsz : e.h.size < UINT32_SIZE := by
    have := h.1.2
    omega
  simp only [HEADER_BYTES, SIZE_OFFSET] at h28 ⊢
  rw [List.drop_append_of_le_length (by omega),
    List.take_append_of_le_length (by simp only [List.length_drop]; omega)]
  have hfield : (e.image.drop 4).take 4 = (e.mem.drop 4).take 4 := by
    simp only [mtrace_entry.image, List.drop_take, List.take_take]
    congr 1
    omega
  rw [hfield]
  have := mem_size_field e
  simp only [SIZE_OFFSET] at this
  rw [this, le_value_le_bytes]
  exact Nat.mod_eq_of_lt (by simpa [UINT32_SIZE] using hsz)

theorem read_record_image (e : mtrace_entry) (rest : List Nat) (h : record_ok e) :
    read_record (e.image ++ rest) = some (e.image, rest) := by
  have hlen := image_length e h.1
  have h28 : HEADER_BYTES ≤ e.h.size := h.2
  have hfield := image_size_field e rest h
  have c1 : ¬ (e.image ++ rest).length < HEADER_BYTES := by
    simp only [List.length_append]
    omega
  have c2 : ¬ e.h.size < HEADER_BYTES := by omega
  have c3 : ¬ (e.image ++ rest).length < e.h.size := by
    simp only [List.length_append]
    omega
  simp only [read_record, c1, hfield, c2, c3, if_false]
  rw [List.take_left' hlen, List.drop_left' hlen]

theorem read_records_images (es : List mtrace_entry) :
    (∀ x ∈ es, record_ok x) → ∀ fuel, (images es).length ≤ fuel →
      read_records fuel (images es) = some (es.map mtrace_entry.image) := by
  induction es with
  | nil =>
    intro _ fuel _
    cases fuel <;> rfl
  | cons e es ih =>
    intro hok fuel hfuel
    have he : record_ok e := hok e (List.mem_cons_self _ _)
    have hes : ∀ x ∈ es, record_ok x := fun x hx => hok x (List.mem_cons_of_mem _ hx)
    have himg : images (e :: es) = e.image ++ images es := by simp [images]
    have hlen := image_length e he.1
    have h28 : HEADER_BYTES ≤ e.h.size := he.2
    rw [himg] at hfuel ⊢
    simp only [List.length_append, HEADER_BYTES] at hfuel h28
    have hrec := read_record_image e (images es) he
    cases fuel with
    | zero => omega
    | succ fuel =>
      cases hs : e.image ++ images es with
      | nil =>
        have : (e.image ++ images es).length = 0 := by rw [hs]; rfl
        simp only [List.length_append] at this
        omega
      | cons b bs =>
        rw [hs] at hrec
        simp only [read_records, hrec, ih hes fuel (by omega), List.map_cons]

theorem header_mem_length (h : mtrace_entry_header) : h.mem.length = HEADER_BYTES := by
  simp [mtrace_entry_header.mem, le_bytes_length, HEADER_BYTES]

theorem access_record_ok (h : mtrace_entry_header) (a b c d : Nat) (f g : Int)
    (hs : h.size = sizeof_access_entry) : record_ok (.access h a b c d f g) := by
  refine ⟨⟨?_, ?_⟩, ?_⟩
  · simp [mtrace_entry.mem, mtrace_entry.h, header_mem_length, le_bytes_length, hs,
      sizeof_access_entry, HEADER_BYTES]
  · simp [mtrace_entry.h, hs, sizeof_access_entry, FLUSH_BUFFER_BYTES, UINT32_SIZE]
  · simp [mtrace_entry.h, hs, sizeof_access_entry, HEADER_BYTES]

theorem call_record_ok (h : mtrace_entry_header) (a b : Nat) (c : Int)
    (hs : h.size = sizeof_call_entry) : record_ok (.call h a b c) := by
  refine ⟨⟨?_, ?_⟩, ?_⟩
  · simp [mtrace_entry.mem, mtrace_entry.h, header_mem_length, le_bytes_length, hs,
      sizeof_call_entry, HEADER_BYTES]
  · simp [mtrace_entry.h, hs, sizeof_call_entry, FLUSH_BUFFER_BYTES, UINT32_SIZE]
  · simp [mtrace_entry.h, hs, sizeof_call_entry, HEADER_BYTES]

theorem machine_record_ok (h : mtrace_entry_header) (a b : Nat)
    (hs : h.size = sizeof_machine_entry) : record_ok (.machine h a b) := by
  refine ⟨⟨?_, ?_⟩, ?_⟩
  · simp [mtrace_entry.mem, mtrace_entry.h, header_mem_length, le_bytes_length, hs,
      sizeof_machine_entry, HEADER_BYTES]
  · simp [mtrace_entry.h, hs, sizeof_machine_entry, FLUSH_BUFFER_BYTES, UINT32_SIZE]
  · simp [mtrace_entry.h, hs, sizeof_machine_entry, HEADER_BYTES]

theorem guest_record_ok (h : mtrace_entry_header) (rest : List Nat)
    (hlo : HEADER_BYTES ≤ h.size) (hhi : h.size ≤ sizeof_mtrace_entry)
    (hrest : rest.length = sizeof_mtrace_entry - HEADER_BYTES) : record_ok (.guest h rest) := by
  simp only [HEADER_BYTES, sizeof_mtrace_entry] at hlo hhi hrest
  refine ⟨⟨?_, ?_⟩, ?_⟩
  · simp only [mtrace_entry.mem, mtrace_entry.h, List.length_append, header_mem_length, hrest,
      HEADER_BYTES]
    omega
  · simp only [mtrace_entry.h, FLUSH_BUFFER_BYTES, UINT32_SIZE]
    omega
  · simp only [mtrace_entry.h, HEADER_BYTES]
    omega

theorem access_dump_record_ok (emu : Emu) (env : CPUX86State) (s s' : State)
    (type host_addr guest_addr a retaddr : Nat) (traffic lock : Int)
    (h : mtrace_access_dump emu env s type host_addr guest_addr a retaddr traffic lock = .ok s') :
    s'.emitted = s.emitted ∨ ∃ e, s'.emitted = s.emitted ++ [e] ∧ record_ok e := by
  unfold mtrace_access_dump at h
  split_ifs at h
  · cases h
    exact Or.inl rfl
  · cases h
    exact Or.inl rfl
  · cases h
    exact Or.inr ⟨_, (log_entry_fields _ _).2.2, access_record_ok _ _ _ _ _ _ _ rfl⟩

theorem mem_access_record_ok (emu : Emu) (s s' : State) (op : MemOp)
    (h : mem_access emu s op = .ok s') :
    s'.emitted = s.emitted ∨ ∃ e, s'.emitted = s.emitted ++ [e] ∧ record_ok e := by
  have tail : ∀ (type a : Nat) (sr : State × Int),
      sr.1.emitted = s.emitted →
      access_tail emu op.env type op.host_addr op.guest_addr a op.retaddr sr = .ok s' →
      s'.emitted = s.emitted ∨ ∃ e, s'.emitted = s.emitted ++ [e] ∧ record_ok e := by
    intro type a sr hem ht
    unfold access_tail at ht
    split at ht
    · cases ht
    · split_ifs at ht
      · rw [← hem]
        exact access_dump_record_ok emu _ _ _ _ _ _ _ _ _ _ ht
      · cases ht
        exact Or.inl hem
  unfold mem_access at h
  split at h
  · unfold mtrace_ld at h
    split_ifs at h
    · cases h
      exact Or.inl rfl
    · simp only at h
      split at h
      · cases h
      · rename_i sr hsr
        obtain ⟨ram, hram⟩ := update_ld_fields _ sr.1 _ _ sr.2 hsr
        exact tail _ _ sr (by rw [hram]) h
  · unfold mtrace_st at h
    split_ifs at h
    · cases h
      exact Or.inl rfl
    · simp only at h
      split at h
      · cases h
      · rename_i sr hsr
        obtain ⟨ram, hram⟩ := update_st_fields _ sr.1 _ _ sr.2 hsr
        exact tail _ _ sr (by rw [hram]) h

theorem inst_call_record_ok (env : CPUX86State) (stale_ts : Nat) (s s' : State)
    (target_pc return_pc : Nat) (ret : Int)
    (h : mtrace_inst_call env stale_ts s target_pc return_pc ret = .ok s') :
    s'.emitted = s.emitted ∨ ∃ e, s'.emitted = s.emitted ++ [e] ∧ record_ok e := by
  unfold mtrace_inst_call at h
  split_ifs at h
  · cases h
    exact Or.inl rfl
  · cases h
    exact Or.inl rfl
  · cases h
    exact Or.inr ⟨_, (log_entry_fields _ _).2.2, call_record_ok _ _ _ _ rfl⟩

theorem init_record_ok (s : State) (smp_cpus ram_size : Nat) :
    (mtrace_init s smp_cpus ram_size).emitted = s.emitted ∨
      ∃ e, (mtrace_init s smp_cpus ram_size).emitted = s.emitted ++ [e] ∧ record_ok e := by
  unfold mtrace_init
  split_ifs
  · exact Or.inl rfl
  · exact Or.inr ⟨_, (log_entry_fields _ _).2.2, machine_record_ok _ _ _ rfl⟩

theorem cpu_memory_rw_debug_length (emu : Emu) (len : Nat) :
    ∀ (addr : Nat) (bs : List Nat), cpu_memory_rw_debug emu addr len = some bs → bs.length = len := by
  induction len with
  | zero =>
    intro addr bs h
    simp only [cpu_memory_rw_debug, Option.some.injEq] at h
    rw [← h]
    rfl
  | succ len ih =>
    intro addr bs h
    simp only [cpu_memory_rw_debug] at h
    split at h
    · rename_i b rest hb hrest
      simp only [Option.some.injEq] at h
      rw [← h, List.length_cons, ih _ _ hrest]
    · cases h

theorem entry_after_copy_length (copied : List Nat) (stale : Nat → Nat)
    (h : copied.length ≤ sizeof_mtrace_entry) :
    (entry_after_copy copied stale).length = sizeof_mtrace_entry := by
  simp only [entry_after_copy, List.length_append, List.length_map, List.length_range']
  omega

theorem register_label_length (emu : Emu) (rest rest1 : List Nat)
    (hrest : rest.length = sizeof_mtrace_entry - HEADER_BYTES)
    (h : register_label emu rest = some rest1) : rest1.length = rest.length := by
  unfold register_label at h
  split at h
  · cases h
  · simp only [Option.some.injEq] at h
    rw [← h]
    apply memcpy_at_length
    rw [le_bytes_length, hrest]
    decide

theorem register_host_frame (env : CPUX86State) (s : State) (rest : List Nat) (sr : State × List Nat)
    (hrest : rest.length = sizeof_mtrace_entry - HEADER_BYTES)
    (h : register_host env s rest = .ok sr) :
    sr.2.length = rest.length ∧ sr.1.emitted = s.emitted ∧ sr.1.written = s.written ∧
      sr.1.flush_buffer = s.flush_buffer ∧ sr.1.n = s.n := by
  have hl : (memcpy_at rest HOST_GLOBAL_TS (le_bytes 8 (mtrace_get_global_tsc env 1))).length =
      rest.length := by
    apply memcpy_at_length
    rw [le_bytes_length, hrest]
    decide
  unfold register_host at h
  simp only at h
  split_ifs at h <;> cases h <;> exact ⟨hl, rfl, rfl, rfl, rfl⟩

theorem entry_register_record_ok (emu : Emu) (env : CPUX86State) (stale : Nat → Nat)
    (s s' : State) (entry_addr type len cpu n5 : Nat) (hlen : HEADER_BYTES ≤ len)
    (h : mtrace_entry_register emu env stale s entry_addr type len cpu n5 = .ok s') :
    s'.emitted = s.emitted ∨
      ∃ e, s'.emitted = s.emitted ++ [e] ∧ record_ok e ∧ e.h.size = len := by
  unfold mtrace_entry_register at h
  by_cases hbig : len > sizeof_mtrace_entry
  · rw [if_pos hbig] at h
    cases h
    exact Or.inl rfl
  · rw [if_neg hbig] at h
    cases hcopy : cpu_memory_rw_debug emu entry_addr len with
    | none =>
      simp only [hcopy] at h
      cases h
      exact Or.inl rfl
    | some copied =>
      have hcl := cpu_memory_rw_debug_length emu len entry_addr copied hcopy
      have hle : len ≤ sizeof_mtrace_entry := by omega
      have hmod : len % UINT32_SIZE = len := by
        apply Nat.mod_eq_of_lt
        simp only [sizeof_mtrace_entry] at hle
        simp only [UINT32_SIZE]
        omega
      have hrest : ((entry_after_copy copied stale).drop HEADER_BYTES).length =
          sizeof_mtrace_entry - HEADER_BYTES := by
        rw [List.length_drop, entry_after_copy_length copied stale (by rw [hcl]; exact hle)]
      simp only [hcopy] at h
      cases hts : mtrace_get_percore_tsc s env 0 with
      | error f => simp [hts] at h
      | ok ts =>
        simp only [hts] at h
        generalize hr : (if type = mtrace_entry_label then
          register_label emu ((entry_after_copy copied stale).drop HEADER_BYTES)
          else some ((entry_after_copy copied stale).drop HEADER_BYTES)) = r at h
        cases r with
        | none =>
          simp only at h
          cases h
          exact Or.inl rfl
        | some rest1 =>
          have hrest1 : rest1.length = sizeof_mtrace_entry - HEADER_BYTES := by
            by_cases hlab : type = mtrace_entry_label
            · rw [if_pos hlab] at hr
              rw [register_label_length emu _ rest1 hrest hr, hrest]
            · rw [if_neg hlab] at hr
              simp only [Option.some.injEq] at hr
              rw [← hr, hrest]
          simp only at h
          by_cases hhost : type = mtrace_entry_host
          · rw [if_pos hhost] at h
            cases hsr : register_host env s rest1 with
            | error f => simp [hsr] at h
            | ok sr =>
              simp only [hsr, Except.ok.injEq] at h
              obtain ⟨l2, em, -⟩ := register_host_frame env s rest1 sr hrest1 hsr
              subst h
              have hem := (log_entry_fields sr.1 (.guest
                { type := type % UINT32_SIZE
                  size := len % UINT32_SIZE
                  cpu := (if cpu = UINT64_SIZE - 1 then env.cpu_index else cpu) % UINT32_SIZE
                  access_count := s.mtrace_access_count
                  ts := ts } sr.2)).2.2
              rw [em] at hem
              exact Or.inr ⟨_, hem,
                guest_record_ok _ _ (by rw [hmod]; exact hlen) (by rw [hmod]; exact hle)
                  (by rw [l2, hrest1]), hmod⟩
          · rw [if_neg hhost] at h
            simp only [Except.ok.injEq] at h
            subst h
            refine Or.inr ⟨_, (log_entry_fields _ _).2.2, ?_, ?_⟩
            · exact guest_record_ok _ _ (by rw [hmod]; exact hlen) (by rw [hmod]; exact hle) hrest1
            · exact hmod

/-- C7, counterexample.  The guest registers a record of length 4, which
`mtrace_entry_register` accepts (4 is at most the maximum entry size) and logs with
`h.size = 4`; after the flush the stream is the four bytes `2 0 0 0`, the first
field of the header alone, and the reader cannot decode a header from them: the
record is not recovered and the read underruns. -/
theorem round_trip_counterexample :
    ∃ s1 e,
      mtrace_entry_register demo_emu (cpu_at 0 0) (fun _ => 0) (State.init []) 0
        mtrace_entry_access 4 0 0 = .ok s1 ∧
      s1.emitted = [e] ∧ e.h.size = 4 ∧ 4 ≤ sizeof_mtrace_entry ∧
      (mtrace_cleanup s1).written.flatten = [2, 0, 0, 0] ∧
      read_log [2, 0, 0, 0] = none :=
  ⟨_, _, rfl, rfl, rfl, by decide, rfl, rfl⟩

/-- C7 (amended).  Round-trip integrity for records at least a header long: starting
from an empty sink, for every sequence of records whose size covers the header,
reading the flushed byte stream by repeatedly decoding a header and consuming
exactly its `byteSize` bytes recovers exactly the emitted records in order and
stops exactly at end of stream, with no leftover bytes and no underrun; and the
access records of `mtrace_ld`/`mtrace_st`, the call records of `mtrace_inst_call`,
the machine record of `mtrace_init` and the guest-registered records of length at
least the header size are such records. -/
theorem round_trip (s : State) (es : List mtrace_entry)
    (hn : s.n = 0) (hlen : s.flush_buffer.length = FLUSH_BUFFER_BYTES) (hw : s.written = [])
    (hok : ∀ x ∈ es, record_ok x) :
    read_log (mtrace_cleanup (log_entries s es)).written.flatten =
      some (es.map mtrace_entry.image) ∧
    (∀ emu s1 s2 op, mem_access emu s1 op = .ok s2 →
      s2.emitted = s1.emitted ∨ ∃ e, s2.emitted = s1.emitted ++ [e] ∧ record_ok e) ∧
    (∀ env stale_ts s1 s2 target_pc return_pc ret,
      mtrace_inst_call env stale_ts s1 target_pc return_pc ret = .ok s2 →
      s2.emitted = s1.emitted ∨ ∃ e, s2.emitted = s1.emitted ++ [e] ∧ record_ok e) ∧
    (∀ s1 smp_cpus ram_size,
      (mtrace_init s1 smp_cpus ram_size).emitted = s1.emitted ∨
        ∃ e, (mtrace_init s1 smp_cpus ram_size).emitted = s1.emitted ++ [e] ∧ record_ok e) ∧
    (∀ emu env stale s1 s2 entry_addr type len cpu n5, HEADER_BYTES ≤ len →
      mtrace_entry_register emu env stale s1 entry_addr type len cpu n5 = .ok s2 →
      s2.emitted = s1.emitted ∨
        ∃ e, s2.emitted = s1.emitted ++ [e] ∧ record_ok e ∧ e.h.size = len) := by
  refine ⟨?_, fun emu s1 s2 op h => mem_access_record_ok emu s1 s2 op h,
    fun env st s1 s2 a b c h => inst_call_record_ok env st s1 s2 a b c h,
    fun s1 a b => init_record_ok s1 a b,
    fun emu env stale s1 s2 a ty len cpu n5 hl h =>
      entry_register_record_ok emu env stale s1 s2 a ty len cpu n5 hl h⟩
  obtain ⟨⟨w, hwr, hflat⟩, -, -⟩ :=
    log_sink_lossless_aux s es hn hlen (fun x hx => (hok x hx).1)
  simp only [mtrace_cleanup]
  rw [hwr, hw, List.nil_append, hflat, read_log]
  exact read_records_images es hok _ (Nat.le_refl _)

/-- Witness for C7 (amended): three access records logged from the initial state. -/
theorem round_trip_witness :
    read_log (mtrace_cleanup (log_entries (State.init [])
        [demo_entry 0, demo_entry 1, demo_entry 2])).written.flatten =
      some ([demo_entry 0, demo_entry 1, demo_entry 2].map mtrace_entry.image) ∧
    (∀ emu s1 s2 op, mem_access emu s1 op = .ok s2 →
      s2.emitted = s1.emitted ∨ ∃ e, s2.emitted = s1.emitted ++ [e] ∧ record_ok e) ∧
    (∀ env stale_ts s1 s2 target_pc return_pc ret,
      mtrace_inst_call env stale_ts s1 target_pc return_pc ret = .ok s2 →
      s2.emitted = s1.emitted ∨ ∃ e, s2.emitted = s1.emitted ++ [e] ∧ record_ok e) ∧
    (∀ s1 smp_cpus ram_size,
      (mtrace_init s1 smp_cpus ram_size).emitted = s1.emitted ∨
        ∃ e, (mtrace_init s1 smp_cpus ram_size).emitted = s1.emitted ++ [e] ∧ record_ok e) ∧
    (∀ emu env stale s1 s2 entry_addr type len cpu n5, HEADER_BYTES ≤ len →
      mtrace_entry_register emu env stale s1 entry_addr type len cpu n5 = .ok s2 →
      s2.emitted = s1.emitted ∨
        ∃ e, s2.emitted = s1.emitted ++ [e] ∧ record_ok e ∧ e.h.size = len) :=
  round_trip (State.init []) [demo_entry 0, demo_entry 1, demo_entry 2] rfl
    (init_buffer_length []) rfl
    (by
      intro x hx
      simp only [List.mem_cons, List.mem_singleton, List.not_mem_nil, or_false] at hx
      rcases hx with rfl | rfl | rfl <;>
        exact access_record_ok _ _ _ _ _ _ _ rfl)

/-! ## Control dispatch -/

theorem entry_register_unfold (emu : Emu) (env : CPUX86State) (stale : Nat → Nat) (s : State)
    (entry_addr type len cpu n5 ts : Nat) (rest : List Nat)
    (hlen : len ≤ sizeof_mtrace_entry)
    (hrest : guest_rest emu stale entry_addr len = some rest)
    (hts : mtrace_get_percore_tsc s env 0 = .ok ts) :
    mtrace_entry_register emu env stale s entry_addr type len cpu n5 =
      match (if type = mtrace_entry_label then register_label emu rest else some rest) with
      | none => .ok s
      | some rest1 =>
          if type = mtrace_entry_host then
            match register_host env s rest1 with
            | .error f => .error f
            | .ok sr =>
                .ok (mtrace_log_entry sr.1
                  (some (.guest (register_header env s type len cpu ts) sr.2)))
          else
            .ok (mtrace_log_entry s (some (.guest (register_header env s type len cpu ts) rest1))) := by
  have hbig : ¬ len > sizeof_mtrace_entry := by omega
  unfold guest_rest at hrest
  cases hcopy : cpu_memory_rw_debug emu entry_addr len with
  | none => simp [hcopy] at hrest
  | some copied =>
    simp only [hcopy, Option.some.injEq] at hrest
    subst hrest
    simp only [mtrace_entry_register, hbig, if_false, hcopy, hts, register_header]

theorem register_host_count (env : CPUX86State) (s : State) (rest : List Nat)
    (sr : State × List Nat) (h : register_host env s rest = .ok sr) :
    sr.1.mtrace_access_count = s.mtrace_access_count ∧ sr.1.emitted = s.emitted := by
  unfold register_host at h
  simp only at h
  split_ifs at h <;> cases h <;> exact ⟨rfl, rfl⟩

theorem log_entry_frame (s : State) (e : mtrace_entry) :
    (mtrace_log_entry s (some e)).mtrace_enable = s.mtrace_enable ∧
    (mtrace_log_entry s (some e)).mtrace_call_stack_active = s.mtrace_call_stack_active ∧
    (mtrace_log_entry s (some e)).mtrace_sample = s.mtrace_sample ∧
    (mtrace_log_entry s (some e)).sampler = s.sampler ∧
    (mtrace_log_entry s (some e)).ram = s.ram ∧
    (mtrace_log_entry s (some e)).mtrace_lock_active = s.mtrace_lock_active ∧
    (mtrace_log_entry s (some e)).mtrace_cline_track = s.mtrace_cline_track := by
  simp only [mtrace_log_entry, flush]
  split_ifs <;> exact ⟨rfl, rfl, rfl, rfl, rfl, rfl, rfl⟩

theorem register_host_flags (env : CPUX86State) (s : State) (rest : List Nat)
    (sr : State × List Nat) (h : register_host env s rest = .ok sr) :
    ((host_request env rest).1 = mtrace_access_all_cpu →
      sr.1.mtrace_enable = to_int (host_request env rest).2 ∧
      sr.1.mtrace_call_stack_active = s.mtrace_call_stack_active) ∧
    ((host_request env rest).1 = mtrace_call_clear_cpu →
      sr.1.mtrace_enable = s.mtrace_enable ∧
      sr.1.mtrace_call_stack_active =
        Function.update s.mtrace_call_stack_active (host_request env rest).2 0) ∧
    ((host_request env rest).1 = mtrace_call_set_cpu →
      sr.1.mtrace_enable = s.mtrace_enable ∧
      sr.1.mtrace_call_stack_active =
        Function.update s.mtrace_call_stack_active (host_request env rest).2 s.mtrace_enable) ∧
    ∀ c, sr.1.mtrace_call_stack_active c ≠ 0 →
      s.mtrace_call_stack_active c ≠ 0 ∨ s.mtrace_enable ≠ 0 := by
  unfold register_host at h
  simp only at h
  simp only [host_request]
  split_ifs at h with h1 h2 h3 h4 h5
  · cases h
    refine ⟨fun _ => ⟨rfl, rfl⟩, fun h' => ?_, fun h' => ?_, fun c hc => Or.inl hc⟩
    · rw [h1] at h'
      exact absurd h' (by decide)
    · rw [h1] at h'
      exact absurd h' (by decide)
  · cases h
    refine ⟨fun h' => absurd h' h1, fun _ => ⟨rfl, rfl⟩, fun h' => ?_, fun c hc => ?_⟩
    · rw [h2] at h'
      exact absurd h' (by decide)
    · left
      intro h0
      apply hc
      simp only [Function.update_apply]
      split_ifs
      · rfl
      · exact h0
  · cases h
    refine ⟨fun h' => absurd h' h1, fun h' => absurd h' h2, fun _ => ⟨rfl, rfl⟩, fun c hc => ?_⟩
    simp only [Function.update_apply] at hc
    split_ifs at hc
    · exact Or.inr hc
    · exact Or.inl hc

theorem register_host_returns (env : CPUX86State) (s : State) (rest : List Nat)
    (h : (host_request env rest).1 = mtrace_access_all_cpu ∨
      (((host_request env rest).1 = mtrace_call_clear_cpu ∨
        (host_request env rest).1 = mtrace_call_set_cpu) ∧
        (host_request env rest).2 < MAX_CPUS)) :
    ∃ sr, register_host env s rest = .ok sr := by
  unfold register_host
  simp only [host_request] at h
  simp only
  split_ifs with h1 h2 h3 h4 h5
  · exact ⟨_, rfl⟩
  · exact ⟨_, rfl⟩
  · rcases h with h | ⟨-, h⟩
    · exact absurd h h1
    · exact absurd h h3
  · exact ⟨_, rfl⟩
  · rcases h with h | ⟨-, h⟩
    · exact absurd h h1
    · exact absurd h h5
  · rcases h with h | ⟨h | h, -⟩
    · exact absurd h h1
    · exact absurd h h2
    · exact absurd h h4

theorem entry_register_flags (emu : Emu) (env : CPUX86State) (stale : Nat → Nat)
    (s s' : State) (entry_addr type len cpu n5 : Nat)
    (h : mtrace_entry_register emu env stale s entry_addr type len cpu n5 = .ok s') :
    ∀ c, s'.mtrace_call_stack_active c ≠ 0 →
      s.mtrace_call_stack_active c ≠ 0 ∨ s.mtrace_enable ≠ 0 := by
  unfold mtrace_entry_register at h
  by_cases hbig : len > sizeof_mtrace_entry
  · rw [if_pos hbig] at h
    cases h
    exact fun c hc => Or.inl hc
  · rw [if_neg hbig] at h
    cases hcopy : cpu_memory_rw_debug emu entry_addr len with
    | none =>
      simp only [hcopy] at h
      cases h
      exact fun c hc => Or.inl hc
    | some copied =>
      simp only [hcopy] at h
      cases hts : mtrace_get_percore_tsc s env 0 with
      | error f => simp [hts] at h
      | ok ts =>
        simp only [hts] at h
        generalize (if type = mtrace_entry_label then
          register_label emu ((entry_after_copy copied stale).drop HEADER_BYTES)
          else some ((entry_after_copy copied stale).drop HEADER_BYTES)) = r at h
        cases r with
        | none =>
          simp only at h
          cases h
          exact fun c hc => Or.inl hc
        | some rest1 =>
          simp only at h
          by_cases hhost : type = mtrace_entry_host
          · rw [if_pos hhost] at h
            cases hsr : register_host env s rest1 with
            | error f => simp [hsr] at h
            | ok sr =>
              simp only [hsr, Except.ok.injEq] at h
              subst h
              intro c hc
              rw [(log_entry_frame _ _).2.1] at hc
              exact (register_host_flags env s rest1 sr hsr).2.2.2 c hc
          · rw [if_neg hhost] at h
            simp only [Except.ok.injEq] at h
            subst h
            intro c hc
            rw [(log_entry_frame _ _).2.1] at hc
            exact Or.inl hc

set_option maxRecDepth 100000 in
/-- C12, counterexample.  From the initial state three host-control registrations,
set-global-enable 1, set-core-call-tracing for core 3 and set-global-enable 0, all
return; in the state they reach core 3's call-tracing flag is 1 while the master
enable switch is 0. -/
theorem call_tracing_counterexample :
    ∃ s1 s2 s3,
      mtrace_entry_register host_emu (cpu_at 0 0) (fun _ => 0) (State.init []) 0
        mtrace_entry_host 48 0 0 = .ok s1 ∧
      mtrace_entry_register host_emu (cpu_at 0 0) (fun _ => 0) s1 48
        mtrace_entry_host 48 0 0 = .ok s2 ∧
      mtrace_entry_register host_emu (cpu_at 0 0) (fun _ => 0) s2 96
        mtrace_entry_host 48 0 0 = .ok s3 ∧
      s2.mtrace_enable = 1 ∧ s2.mtrace_call_stack_active 3 = 1 ∧
      s3.mtrace_call_stack_active 3 = 1 ∧ s3.mtrace_enable = 0 :=
  ⟨_, _, _, rfl, rfl, rfl, rfl, rfl, rfl, rfl⟩

/-- C12 (amended).  A registration can turn a core's call-tracing flag on only while
the master enable switch is on: for every host-control registration that is not
dropped, set-core-call-tracing stores the current value of `mtrace_enable` in the
core's flag and leaves the switch as it is, clear-core-call-tracing stores 0, and
set-global-enable sets the switch and changes no flag (a flag set while the switch
was on stays set when the switch is turned off); and for every registration of any
kind that returns, a flag that is nonzero afterwards was nonzero before or the
switch was on before. -/
theorem call_tracing_rule (emu : Emu) (env : CPUX86State) (stale : Nat → Nat) (s : State)
    (entry_addr len cpu n5 : Nat) (rest : List Nat)
    (hlen : len ≤ sizeof_mtrace_entry)
    (hrest : guest_rest emu stale entry_addr len = some rest)
    (hcpu : env.cpu_index < MAX_CPUS) :
    ((host_request env rest).1 = mtrace_call_set_cpu → (host_request env rest).2 < MAX_CPUS →
      ∃ s', mtrace_entry_register emu env stale s entry_addr mtrace_entry_host len cpu n5 = .ok s' ∧
        s'.mtrace_call_stack_active =
          Function.update s.mtrace_call_stack_active (host_request env rest).2 s.mtrace_enable ∧
        s'.mtrace_enable = s.mtrace_enable) ∧
    ((host_request env rest).1 = mtrace_call_clear_cpu → (host_request env rest).2 < MAX_CPUS →
      ∃ s', mtrace_entry_register emu env stale s entry_addr mtrace_entry_host len cpu n5 = .ok s' ∧
        s'.mtrace_call_stack_active =
          Function.update s.mtrace_call_stack_active (host_request env rest).2 0 ∧
        s'.mtrace_enable = s.mtrace_enable) ∧
    ((host_request env rest).1 = mtrace_access_all_cpu →
      ∃ s', mtrace_entry_register emu env stale s entry_addr mtrace_entry_host len cpu n5 = .ok s' ∧
        s'.mtrace_enable = to_int (host_request env rest).2 ∧
        s'.mtrace_call_stack_active = s.mtrace_call_stack_active) ∧
    (∀ type s', mtrace_entry_register emu env stale s entry_addr type len cpu n5 = .ok s' →
      ∀ c, s'.mtrace_call_stack_active c ≠ 0 →
        s.mtrace_call_stack_active c ≠ 0 ∨ s.mtrace_enable ≠ 0) := by
  have hts : ∃ ts, mtrace_get_percore_tsc s env 0 = .ok ts := by
    simp only [mtrace_get_percore_tsc, hcpu, if_true]
    exact ⟨_, rfl⟩
  obtain ⟨ts, hts⟩ := hts
  have hne : ¬ mtrace_entry_host = mtrace_entry_label := by decide
  have step : ∀ sr, register_host env s rest = .ok sr →
      mtrace_entry_register emu env stale s entry_addr mtrace_entry_host len cpu n5 =
        .ok (mtrace_log_entry sr.1
          (some (.guest (register_header env s mtrace_entry_host len cpu ts) sr.2))) := by
    intro sr hsr
    rw [entry_register_unfold emu env stale s entry_addr mtrace_entry_host len cpu n5 ts rest
      hlen hrest hts]
    simp only [hne, if_false, if_true, hsr]
  refine ⟨?_, ?_, ?_, fun type s' h => entry_register_flags emu env stale s s' entry_addr type
    len cpu n5 h⟩
  · intro hty hval
    obtain ⟨sr, hsr⟩ := register_host_returns env s rest (Or.inr ⟨Or.inr hty, hval⟩)
    obtain ⟨-, -, hset, -⟩ := register_host_flags env s rest sr hsr
    refine ⟨_, step sr hsr, ?_, ?_⟩
    · rw [(log_entry_frame _ _).2.1]
      exact (hset hty).2
    · rw [(log_entry_frame _ _).1]
      exact (hset hty).1
  · intro hty hval
    obtain ⟨sr, hsr⟩ := register_host_returns env s rest (Or.inr ⟨Or.inl hty, hval⟩)
    obtain ⟨-, hclr, -, -⟩ := register_host_flags env s rest sr hsr
    refine ⟨_, step sr hsr, ?_, ?_⟩
    · rw [(log_entry_frame _ _).2.1]
      exact (hclr hty).2
    · rw [(log_entry_frame _ _).1]
      exact (hclr hty).1
  · intro hty
    obtain ⟨sr, hsr⟩ := register_host_returns env s rest (Or.inl hty)
    obtain ⟨hall, -, -, -⟩ := register_host_flags env s rest sr hsr
    refine ⟨_, step sr hsr, ?_, ?_⟩
    · rw [(log_entry_frame _ _).1]
      exact (hall hty).1
    · rw [(log_entry_frame _ _).2.1]
      exact (hall hty).2

set_option maxRecDepth 100000 in
/-- Witness for C12 (amended): the set-core-call-tracing record for core 3 of
`host_memory`, registered in the initial state. -/
theorem call_tracing_rule_witness :
    ((host_request (cpu_at 0 0) set_core_rest).1 = mtrace_call_set_cpu →
      (host_request (cpu_at 0 0) set_core_rest).2 < MAX_CPUS →
      ∃ s', mtrace_entry_register host_emu (cpu_at 0 0) (fun _ => 0) (State.init []) 48
          mtrace_entry_host 48 0 0 = .ok s' ∧
        s'.mtrace_call_stack_active =
          Function.update (State.init []).mtrace_call_stack_active
            (host_request (cpu_at 0 0) set_core_rest).2 (State.init []).mtrace_enable ∧
        s'.mtrace_enable = (State.init []).mtrace_enable) ∧
    ((host_request (cpu_at 0 0) set_core_rest).1 = mtrace_call_clear_cpu →
      (host_request (cpu_at 0 0) set_core_rest).2 < MAX_CPUS →
      ∃ s', mtrace_entry_register host_emu (cpu_at 0 0) (fun _ => 0) (State.init []) 48
          mtrace_entry_host 48 0 0 = .ok s' ∧
        s'.mtrace_call_stack_active =
          Function.update (State.init []).mtrace_call_stack_active
            (host_request (cpu_at 0 0) set_core_rest).2 0 ∧
        s'.mtrace_enable = (State.init []).mtrace_enable) ∧
    ((host_request (cpu_at 0 0) set_core_rest).1 = mtrace_access_all_cpu →
      ∃ s', mtrace_entry_register host_emu (cpu_at 0 0) (fun _ => 0) (State.init []) 48
          mtrace_entry_host 48 0 0 = .ok s' ∧
        s'.mtrace_enable = to_int (host_request (cpu_at 0 0) set_core_rest).2 ∧
        s'.mtrace_call_stack_active = (State.init []).mtrace_call_stack_active) ∧
    (∀ type s', mtrace_entry_register host_emu (cpu_at 0 0) (fun _ => 0) (State.init []) 48
        type 48 0 0 = .ok s' →
      ∀ c, s'.mtrace_call_stack_active c ≠ 0 →
        (State.init []).mtrace_call_stack_active c ≠ 0 ∨ (State.init []).mtrace_enable ≠ 0) :=
  call_tracing_rule host_emu (cpu_at 0 0) (fun _ => 0) (State.init []) 48 48 0 0 set_core_rest
    (by decide) (by decide) (by decide)

/-- C13. An over-length registration is dropped, not fatal: for every length
argument greater than `sizeof(union mtrace_entry)`, `mtrace_entry_register` returns
the state it was given, whatever guest memory holds (nothing is copied, no record
is forwarded, and the access counter, the enable switch, the call-tracing flags and
the buffer are unchanged); a length equal to the maximum is not rejected: when the
copy succeeds and the kind is neither label nor host-control, a record of that size
is forwarded to the log sink. -/
theorem over_length_dropped (emu : Emu) (env : CPUX86State) (stale : Nat → Nat) (s : State)
    (entry_addr type len cpu n5 : Nat) :
    (len > sizeof_mtrace_entry →
      ∀ emu', mtrace_entry_register emu' env stale s entry_addr type len cpu n5 = .ok s) ∧
    (len = sizeof_mtrace_entry →
      ∀ rest, guest_rest emu stale entry_addr len = some rest →
        env.cpu_index < MAX_CPUS → type ≠ mtrace_entry_label → type ≠ mtrace_entry_host →
        ∃ s' e, mtrace_entry_register emu env stale s entry_addr type len cpu n5 = .ok s' ∧
          s'.emitted = s.emitted ++ [e] ∧ e.h.size = sizeof_mtrace_entry) := by
  constructor
  · intro hbig emu'
    simp only [mtrace_entry_register, hbig, if_true]
  · intro hmax rest hrest hcpu hlab hhost
    have hts : ∃ ts, mtrace_get_percore_tsc s env 0 = .ok ts := by
      simp only [mtrace_get_percore_tsc, hcpu, if_true]
      exact ⟨_, rfl⟩
    obtain ⟨ts, hts⟩ := hts
    rw [entry_register_unfold emu env stale s entry_addr type len cpu n5 ts rest
      (by omega) hrest hts]
    simp only [hlab, hhost, if_false]
    refine ⟨_, _, rfl, (log_entry_fields _ _).2.2, ?_⟩
    rw [hmax]
    rfl

set_option maxRecDepth 100000 in
/-- Witness for C13: a registration of 85 bytes, one more than the maximum, in the
initial state, and one of exactly 84 bytes. -/
theorem over_length_dropped_witness :
    (∀ emu', mtrace_entry_register emu' (cpu_at 0 0) (fun _ => 0) (State.init []) 0
      mtrace_entry_access 85 0 0 = .ok (State.init [])) ∧
    (∃ s' e, mtrace_entry_register demo_emu (cpu_at 0 0) (fun _ => 0) (State.init []) 0
        mtrace_entry_access 84 0 0 = .ok s' ∧
      s'.emitted = (State.init []).emitted ++ [e] ∧ e.h.size = sizeof_mtrace_entry) :=
  ⟨(over_length_dropped demo_emu (cpu_at 0 0) (fun _ => 0) (State.init []) 0
      mtrace_entry_access 85 0 0).1 (by decide),
   (over_length_dropped demo_emu (cpu_at 0 0) (fun _ => 0) (State.init []) 0
      mtrace_entry_access 84 0 0).2 (by decide) (List.replicate 56 0) (by decide) (by decide)
      (by decide) (by decide)⟩

theorem host_addr_fails (emu : Emu) (guest_addr : Nat) :
    (emu.cpu_get_phys_page_debug guest_addr = none → mtrace_host_addr emu guest_addr = none) ∧
    (∀ phys0, emu.cpu_get_phys_page_debug guest_addr = some phys0 →
      emu.phys_page_find
        (((phys0 + guest_addr % 2 ^ emu.TARGET_PAGE_BITS) % UINT64_SIZE -
          (phys0 + guest_addr % 2 ^ emu.TARGET_PAGE_BITS) % UINT64_SIZE %
            2 ^ emu.TARGET_PAGE_BITS) >>> emu.TARGET_PAGE_BITS) = none →
      mtrace_host_addr emu guest_addr = none) := by
  constructor
  · intro h
    simp only [mtrace_host_addr, h]
  · intro phys0 h1 h2
    simp only [mtrace_host_addr, h1, h2]

/-- C14. Recoverable record-level errors are atomic drops: when the guest-memory
copy fails, or when the record is a label whose guest address `mtrace_host_addr`
cannot resolve (no physical page, or no page descriptor), `mtrace_entry_register`
returns the very state it was given: it does not abort, forwards no record, and
leaves the access counter, the enable switch, the call-tracing flags and the
buffered bytes as they were; the state being the same, whatever runs next runs as
if the registration had not happened. -/
theorem recoverable_drop (emu : Emu) (env : CPUX86State) (stale : Nat → Nat) (s : State)
    (entry_addr type len cpu n5 : Nat) :
    (cpu_memory_rw_debug emu entry_addr len = none →
      mtrace_entry_register emu env stale s entry_addr type len cpu n5 = .ok s) ∧
    (∀ rest, len ≤ sizeof_mtrace_entry → guest_rest emu stale entry_addr len = some rest →
      env.cpu_index < MAX_CPUS → type = mtrace_entry_label →
      mtrace_host_addr emu (le_value ((rest.drop LABEL_GUEST_ADDR).take 8)) = none →
      mtrace_entry_register emu env stale s entry_addr type len cpu n5 = .ok s) ∧
    (∀ guest_addr, emu.cpu_get_phys_page_debug guest_addr = none →
      mtrace_host_addr emu guest_addr = none) := by
  refine ⟨?_, ?_, fun g h => (host_addr_fails emu g).1 h⟩
  · intro hcopy
    simp only [mtrace_entry_register, hcopy]
    split_ifs <;> rfl
  · intro rest hlen hrest hcpu hlab hfail
    have hts : ∃ ts, mtrace_get_percore_tsc s env 0 = .ok ts := by
      simp only [mtrace_get_percore_tsc, hcpu, if_true]
      exact ⟨_, rfl⟩
    obtain ⟨ts, hts⟩ := hts
    rw [entry_register_unfold emu env stale s entry_addr type len cpu n5 ts rest hlen hrest hts]
    simp only [hlab, if_true, register_label, hfail]

set_option maxRecDepth 100000 in
/-- Witness for C14: a registration from unreadable guest memory, and a label
registration whose guest address has no physical page, both in the initial state. -/
theorem recoverable_drop_witness :
    mtrace_entry_register unmapped_emu (cpu_at 0 0) (fun _ => 0) (State.init []) 0
      mtrace_entry_access 58 0 0 = .ok (State.init []) ∧
    mtrace_entry_register demo_emu (cpu_at 0 0) (fun _ => 0) (State.init []) 0
      mtrace_entry_label 84 0 0 = .ok (State.init []) :=
  ⟨(recoverable_drop unmapped_emu (cpu_at 0 0) (fun _ => 0) (State.init []) 0
      mtrace_entry_access 58 0 0).1 (by decide),
   (recoverable_drop demo_emu (cpu_at 0 0) (fun _ => 0) (State.init []) 0
      mtrace_entry_label 84 0 0).2.1 (List.replicate 56 0) (by decide) (by decide) (by decide)
      (by decide) (by decide)⟩

/-! ## The global access sequence over the whole trace -/

theorem access_tail_advances (emu : Emu) (env : CPUX86State)
    (type host_addr guest_addr retaddr : Nat) (s : State) (sr : State × Int) (s' : State)
    (hc : sr.1.mtrace_access_count = (s.mtrace_access_count + 1) % UINT64_SIZE)
    (he : sr.1.emitted = s.emitted)
    (h : access_tail emu env type host_addr guest_addr s.mtrace_access_count retaddr sr = .ok s') :
    advances s s' := by
  obtain ⟨c, -, em⟩ := access_tail_fields emu env type host_addr guest_addr _ retaddr sr s' h
  right
  rw [c, hc, he] at *
  exact ⟨rfl, em⟩

theorem mem_access_advances (emu : Emu) (s s' : State) (op : MemOp)
    (h : mem_access emu s op = .ok s') : advances s s' := by
  unfold mem_access at h
  split at h
  · unfold mtrace_ld at h
    split_ifs at h
    · cases h
      exact Or.inl ⟨rfl, Or.inl rfl⟩
    · simp only at h
      split at h
      · cases h
      · rename_i sr hsr
        obtain ⟨ram, hram⟩ := update_ld_fields _ sr.1 _ _ sr.2 hsr
        exact access_tail_advances emu _ _ _ _ _ s sr s' (by rw [hram]) (by rw [hram]) h
  · unfold mtrace_st at h
    split_ifs at h
    · cases h
      exact Or.inl ⟨rfl, Or.inl rfl⟩
    · simp only at h
      split at h
      · cases h
      · rename_i sr hsr
        obtain ⟨ram, hram⟩ := update_st_fields _ sr.1 _ _ sr.2 hsr
        exact access_tail_advances emu _ _ _ _ _ s sr s' (by rw [hram]) (by rw [hram]) h

theorem io_write_advances (emu : Emu) (env : CPUX86State) (s s' : State) (cb : IoCallback)
    (ram_addr guest_addr retaddr : Nat)
    (h : mtrace_io_write emu env s cb ram_addr guest_addr retaddr = .ok s') : advances s s' := by
  unfold mtrace_io_write at h
  split_ifs at h
  · cases h
    exact Or.inl ⟨rfl, Or.inl rfl⟩
  · simp only at h
    split at h
    · cases h
    · rename_i sr hsr
      obtain ⟨ram, hram⟩ := update_st_fields _ sr.1 _ _ sr.2 hsr
      exact access_tail_advances emu _ _ _ _ _ s sr s' (by rw [hram]) (by rw [hram]) h
  · cases h
    exact Or.inl ⟨rfl, Or.inl rfl⟩

theorem inst_call_advances (env : CPUX86State) (stale_ts : Nat) (s s' : State)
    (target_pc return_pc : Nat) (ret : Int)
    (h : mtrace_inst_call env stale_ts s target_pc return_pc ret = .ok s') : advances s s' := by
  unfold mtrace_inst_call at h
  split_ifs at h
  · cases h
    exact Or.inl ⟨rfl, Or.inl rfl⟩
  · cases h
    exact Or.inl ⟨rfl, Or.inl rfl⟩
  · cases h
    exact Or.inl ⟨(log_entry_fields _ _).1, Or.inr ⟨_, (log_entry_fields _ _).2.2, rfl, rfl⟩⟩

theorem entry_register_advances (emu : Emu) (env : CPUX86State) (stale : Nat → Nat)
    (s s' : State) (entry_addr type len cpu n5 : Nat)
    (h : mtrace_entry_register emu env stale s entry_addr type len cpu n5 = .ok s') :
    advances s s' := by
  unfold mtrace_entry_register at h
  by_cases hbig : len > sizeof_mtrace_entry
  · rw [if_pos hbig] at h
    cases h
    exact Or.inl ⟨rfl, Or.inl rfl⟩
  · rw [if_neg hbig] at h
    cases hcopy : cpu_memory_rw_debug emu entry_addr len with
    | none =>
      simp only [hcopy] at h
      cases h
      exact Or.inl ⟨rfl, Or.inl rfl⟩
    | some copied =>
      simp only [hcopy] at h
      cases hts : mtrace_get_percore_tsc s env 0 with
      | error f => simp [hts] at h
      | ok ts =>
        simp only [hts] at h
        generalize (if type = mtrace_entry_label then
          register_label emu ((entry_after_copy copied stale).drop HEADER_BYTES)
          else some ((entry_after_copy copied stale).drop HEADER_BYTES)) = r at h
        cases r with
        | none =>
          simp only at h
          cases h
          exact Or.inl ⟨rfl, Or.inl rfl⟩
        | some rest1 =>
          simp only at h
          by_cases hhost : type = mtrace_entry_host
          · rw [if_pos hhost] at h
            cases hsr : register_host env s rest1 with
            | error f => simp [hsr] at h
            | ok sr =>
              simp only [hsr, Except.ok.injEq] at h
              subst h
              obtain ⟨c1, e1⟩ := register_host_count env s rest1 sr hsr
              have hem := (log_entry_fields sr.1
                (mtrace_entry.guest (register_header env s type len cpu ts) sr.2)).2.2
              rw [e1] at hem
              exact Or.inl ⟨by rw [(log_entry_fields _ _).1, c1], Or.inr ⟨_, hem, rfl, rfl⟩⟩
          · rw [if_neg hhost] at h
            simp only [Except.ok.injEq] at h
            subst h
            exact Or.inl ⟨(log_entry_fields _ _).1,
              Or.inr ⟨_, (log_entry_fields _ _).2.2, rfl, rfl⟩⟩

theorem tracer_step_advances (emu : Emu) (s s' : State) (op : TracerOp)
    (h : tracer_step emu s op = .ok s') : advances s s' := by
  cases op with
  | access op => exact mem_access_advances emu s s' op h
  | io_write env cb ram_addr guest_addr retaddr =>
    exact io_write_advances emu env s s' cb ram_addr guest_addr retaddr h
  | call env stale_ts target_pc return_pc ret =>
    exact inst_call_advances env stale_ts s s' target_pc return_pc ret h
  | exec env stale a0 a1 a2 a3 a4 a5 =>
    simp only [tracer_step, mtrace_inst_exec] at h
    split_ifs at h
    · cases h
      exact Or.inl ⟨rfl, Or.inl rfl⟩
    · split at h
      · cases h
      · exact entry_register_advances emu env stale s s' a1 a2 a3 a4 a5 h
  | lock_start env =>
    simp only [tracer_step, mtrace_lock_start] at h
    split_ifs at h <;> cases h <;> exact Or.inl ⟨rfl, Or.inl rfl⟩
  | lock_stop env =>
    simp only [tracer_step, mtrace_lock_stop] at h
    split_ifs at h <;> cases h <;> exact Or.inl ⟨rfl, Or.inl rfl⟩
  | exec_start env =>
    simp only [tracer_step, mtrace_exec_start] at h
    split_ifs at h
    cases h
    exact Or.inl ⟨rfl, Or.inl rfl⟩
  | exec_stop env =>
    simp only [tracer_step, mtrace_exec_stop] at h
    split_ifs at h
    cases h
    exact Or.inl ⟨rfl, Or.inl rfl⟩

theorem emitted_seq_snoc (s s' : State) (e : mtrace_entry)
    (h : s'.emitted = s.emitted ++ [e]) :
    emitted_seq s' = emitted_seq s ++ [e.h.access_count] ∧
    emitted_access_seq s' =
      emitted_access_seq s ++ (if e.is_access = true then [e.h.access_count] else []) := by
  simp only [emitted_seq, emitted_access_seq, h, List.map_append, List.map_cons, List.map_nil,
    List.filter_append, true_and]
  cases he : e.is_access <;> simp [List.filter, he]

theorem advances_inv (s s' : State) (h : advances s s')
    (hno : s.mtrace_access_count + 1 < UINT64_SIZE)
    (p1 : List.Pairwise (fun a b => a ≤ b) (emitted_seq s))
    (p2 : ∀ x ∈ emitted_seq s, x ≤ s.mtrace_access_count)
    (p3 : List.Pairwise (fun a b => a < b) (emitted_access_seq s))
    (p4 : ∀ x ∈ emitted_access_seq s, x < s.mtrace_access_count) :
    s'.mtrace_access_count ≤ s.mtrace_access_count + 1 ∧
    List.Pairwise (fun a b => a ≤ b) (emitted_seq s') ∧
    (∀ x ∈ emitted_seq s', x ≤ s'.mtrace_access_count) ∧
    List.Pairwise (fun a b => a < b) (emitted_access_seq s') ∧
    (∀ x ∈ emitted_access_seq s', x < s'.mtrace_access_count) := by
  have hm1 : (s.mtrace_access_count + 1) % UINT64_SIZE = s.mtrace_access_count + 1 :=
    Nat.mod_eq_of_lt hno
  have hm0 : s.mtrace_access_count % UINT64_SIZE = s.mtrace_access_count :=
    Nat.mod_eq_of_lt (by omega)
  rcases h with ⟨hc, hem⟩ | ⟨hc, hem⟩
  · rcases hem with hem | ⟨e, hem, hna, hac⟩
    · have e1 : emitted_seq s' = emitted_seq s := by simp only [emitted_seq, hem]
      have e2 : emitted_access_seq s' = emitted_access_seq s := by
        simp only [emitted_access_seq, hem]
      rw [e1, e2, hc]
      exact ⟨by omega, p1, p2, p3, p4⟩
    · obtain ⟨e1, e2⟩ := emitted_seq_snoc s s' e hem
      simp only [hna, Bool.false_eq_true, if_false, List.append_nil] at e2
      rw [e1, e2, hc, hac]
      refine ⟨by omega, ?_, ?_, p3, p4⟩
      · rw [List.pairwise_append]
        refine ⟨p1, List.pairwise_singleton _ _, ?_⟩
        intro a ha b hb
        simp only [List.mem_singleton] at hb
        rw [hb]
        exact p2 a ha
      · intro x hx
        simp only [List.mem_append, List.mem_singleton] at hx
        rcases hx with hx | hx
        · exact p2 x hx
        · omega
  · rw [hm1] at hc
    rcases hem with hem | ⟨e, hem, hac⟩
    · have e1 : emitted_seq s' = emitted_seq s := by simp only [emitted_seq, hem]
      have e2 : emitted_access_seq s' = emitted_access_seq s := by
        simp only [emitted_access_seq, hem]
      rw [e1, e2, hc]
      refine ⟨by omega, p1, ?_, p3, ?_⟩
      · intro x hx
        have := p2 x hx
        omega
      · intro x hx
        have := p4 x hx
        omega
    · rw [hm0] at hac
      obtain ⟨e1, e2⟩ := emitted_seq_snoc s s' e hem
      rw [e1, e2, hc, hac]
      refine ⟨by omega, ?_, ?_, ?_, ?_⟩
      · rw [List.pairwise_append]
        refine ⟨p1, List.pairwise_singleton _ _, ?_⟩
        intro a ha b hb
        simp only [List.mem_singleton] at hb
        rw [hb]
        exact p2 a ha
      · intro x hx
        simp only [List.mem_append, List.mem_singleton] at hx
        rcases hx with hx | hx
        · have := p2 x hx
          omega
        · omega
      · split_ifs
        · rw [List.pairwise_append]
          refine ⟨p3, List.pairwise_singleton _ _, ?_⟩
          intro a ha b hb
          simp only [List.mem_singleton] at hb
          rw [hb]
          exact p4 a ha
        · rw [List.append_nil]
          exact p3
      · intro x hx
        split_ifs at hx
        · simp only [List.mem_append, List.mem_singleton] at hx
          rcases hx with hx | hx
          · have := p4 x hx
            omega
          · omega
        · rw [List.append_nil] at hx
          have := p4 x hx
          omega

theorem tracer_run_inv (emu : Emu) (ops : List TracerOp) :
    ∀ (s s' : State), tracer_run emu s ops = .ok s' →
      s.mtrace_access_count + ops.length < UINT64_SIZE →
      List.Pairwise (fun a b => a ≤ b) (emitted_seq s) →
      (∀ x ∈ emitted_seq s, x ≤ s.mtrace_access_count) →
      List.Pairwise (fun a b => a < b) (emitted_access_seq s) →
      (∀ x ∈ emitted_access_seq s, x < s.mtrace_access_count) →
      List.Pairwise (fun a b => a ≤ b) (emitted_seq s') ∧
      List.Pairwise (fun a b => a < b) (emitted_access_seq s') := by
  induction ops with
  | nil =>
    intro s s' h _ p1 _ p3 _
    simp only [tracer_run, Except.ok.injEq] at h
    subst h
    exact ⟨p1, p3⟩
  | cons op ops ih =>
    intro s s' h hno p1 p2 p3 p4
    simp only [tracer_run] at h
    split at h
    · cases h
    · rename_i s1 h1
      simp only [List.length_cons] at hno
      obtain ⟨c, q1, q2, q3, q4⟩ := advances_inv s s1 (tracer_step_advances emu s s1 op h1)
        (by omega) p1 p2 p3 p4
      exact ih s1 s' h (by omega) q1 q2 q3 q4

set_option maxRecDepth 100000 in
/-- C15, counterexample.  With the system on, two guest registrations in a row both
return and emit one record each; both records carry `globalAccessSeq` 0, so the
values of successive records are not strictly increasing. -/
theorem global_sequence_counterexample :
    ∃ s', tracer_run demo_emu quiet_state [register_op, register_op] = .ok s' ∧
      emitted_seq s' = [0, 0] ∧
      ¬ List.Pairwise (fun a b => a < b) (emitted_seq s') :=
  ⟨_, rfl, rfl, by decide⟩

/-- C15 (amended).  The global access sequence is monotone over the whole trace,
and strict among access records: for every sequence of tracer operations (accesses
and I/O-mapped writes on any cores, call events, guest operations, lock and
scheduling events) run from a
state with nothing emitted, while the 64-bit counter does not wrap, the
`globalAccessSeq` header values of successive records emitted to the log are
non-decreasing, whichever core or kind of event produced each record, and those of
the access records are strictly increasing; call records and guest-registered
records repeat the counter's current value. -/
theorem global_sequence_monotone (emu : Emu) (s s' : State) (ops : List TracerOp)
    (hfresh : s.emitted = [])
    (hno : s.mtrace_access_count + ops.length < UINT64_SIZE)
    (hrun : tracer_run emu s ops = .ok s') :
    List.Pairwise (fun a b => a ≤ b) (emitted_seq s') ∧
    List.Pairwise (fun a b => a < b) (emitted_access_seq s') := by
  have e1 : emitted_seq s = [] := by simp [emitted_seq, hfresh]
  have e2 : emitted_access_seq s = [] := by simp [emitted_access_seq, hfresh]
  apply tracer_run_inv emu ops s s' hrun hno
  · rw [e1]
    exact List.Pairwise.nil
  · rw [e1]
    intro x hx
    cases hx
  · rw [e2]
    exact List.Pairwise.nil
  · rw [e2]
    intro x hx
    cases hx

set_option maxRecDepth 100000 in
/-- Witness for C15 (amended): `demo_trace` run from `demo_on`; the records carry
0, 1, 1, 2 and the two access records 0, 1. -/
theorem global_sequence_monotone_witness :
    ∃ s', tracer_run demo_emu demo_on demo_trace = .ok s' ∧
      emitted_seq s' = [0, 1, 1, 2] ∧ emitted_access_seq s' = [0, 1] ∧
      List.Pairwise (fun a b => a ≤ b) (emitted_seq s') ∧
      List.Pairwise (fun a b => a < b) (emitted_access_seq s') :=
  ⟨_, rfl, rfl, rfl,
    global_sequence_monotone demo_emu demo_on _ demo_trace rfl (by decide) rfl⟩

/-! ## Which accesses are logged -/

theorem access_dump_enabled (emu : Emu) (env : CPUX86State) (s : State)
    (type host_addr guest_addr a retaddr : Nat) (traffic lock : Int)
    (hen : s.mtrace_enable ≠ 0) (hN : 0 < s.mtrace_sample)
    (h0 : 0 ≤ s.sampler) (hmax : s.sampler < 2 ^ 31 - 1) :
    mtrace_access_dump emu env s type host_addr guest_addr a retaddr traffic lock =
      .ok (if Int.tmod s.sampler s.mtrace_sample ≠ 0 then { s with sampler := s.sampler + 1 }
        else mtrace_log_entry { s with sampler := s.sampler + 1 }
          (some (access_record emu env type host_addr guest_addr a retaddr traffic lock))) := by
  have c1 : ¬ s.mtrace_sample = 0 := by omega
  have c2 : ¬ s.sampler = 2 ^ 31 - 1 := by omega
  have c3 : ¬ (s.sampler = -(2 ^ 31) ∧ s.mtrace_sample = -1) := by omega
  unfold mtrace_access_dump
  rw [if_neg hen, if_neg c1, if_neg c2, if_neg c3]
  simp only [access_record]
  split_ifs <;> rfl

theorem access_tail_logs (emu : Emu) (env : CPUX86State)
    (type host_addr guest_addr a retaddr : Nat) (sr : State × Int)
    (hcpu : env.cpu_index < MAX_CPUS)
    (hen : sr.1.mtrace_enable ≠ 0) (hsample : sr.1.mtrace_sample = 1)
    (hmax : sr.1.sampler < 2 ^ 31 - 1) :
    ∃ s', access_tail emu env type host_addr guest_addr a retaddr sr = .ok s' ∧
      ((sr.2 ≠ 0 ∨ sr.1.mtrace_lock_active env.cpu_index ≠ 0) →
        s'.emitted = sr.1.emitted ++
          [access_record emu env type host_addr guest_addr a retaddr sr.2
            (sr.1.mtrace_lock_active env.cpu_index)]) ∧
      (¬ (sr.2 ≠ 0 ∨ sr.1.mtrace_lock_active env.cpu_index ≠ 0) →
        s'.emitted = sr.1.emitted) := by
  unfold access_tail
  simp only [lock_active_get, hcpu, if_true]
  by_cases hc : sr.2 ≠ 0 ∨ sr.1.mtrace_lock_active env.cpu_index ≠ 0
  · have c1 : ¬ sr.1.mtrace_sample = 0 := by omega
    have c2 : ¬ sr.1.sampler = 2 ^ 31 - 1 := by omega
    have c3 : ¬ (sr.1.sampler = -(2 ^ 31) ∧ sr.1.mtrace_sample = -1) := by omega
    have ht : ¬ Int.tmod sr.1.sampler sr.1.mtrace_sample ≠ 0 := by
      rw [hsample, Int.tmod_one]
      simp
    rw [if_pos hc]
    unfold mtrace_access_dump
    rw [if_neg hen, if_neg c1, if_neg c2, if_neg c3, if_neg ht]
    exact ⟨_, rfl, fun _ => (log_entry_fields _ _).2.2, fun h => absurd hc h⟩
  · rw [if_neg hc]
    exact ⟨_, rfl, fun h => absurd h hc, fun _ => rfl⟩

/-- C16, counterexample.  In `locked_state` the system and the enable switch are
on, the sample rate is 1 and core 1's lock-active flag is set; core 1 makes an
I/O-mapped write through a callback that is none of the three notdirty ones: the
call returns the state it was given, so no access record is emitted although the
core holds a lock. -/
theorem lock_forces_logging_counterexample :
    locked_state.mtrace_system_enable ≠ 0 ∧ locked_state.mtrace_enable ≠ 0 ∧
    locked_state.mtrace_sample = 1 ∧ locked_state.mtrace_lock_active 1 ≠ 0 ∧
    ∃ s', mtrace_io_write demo_emu (cpu_at 1 0) locked_state (IoCallback.other 0) 4096 0 0 =
        .ok s' ∧ s'.emitted = locked_state.emitted :=
  ⟨by decide, by decide, rfl, by decide, locked_state, rfl, rfl⟩

/-- C16 (amended). Lock regions force logging regardless of sharing novelty: with
the system and the enable switch on and sample rate 1 (the sampler short of
`INT_MAX` and the core index within the per-core arrays, as the C code needs to be
defined), whenever the detector call of a load, a store or an I/O-mapped write
made through one of the three notdirty callbacks returns, the access returns too
and emits an access record if and only if the detector reported it new or the
accessing core's lock-active flag is set; the record's `traffic` (new sharing)
field is the detector's result and its `lock` (under lock) field is the core's
lock-active flag.  An I/O-mapped write made through any other callback returns the
state it was given: it emits no record, whatever the lock flag. -/
theorem lock_forces_logging (emu : Emu) (env : CPUX86State) (s : State)
    (addr guest_addr retaddr : Nat)
    (hsys : s.mtrace_system_enable ≠ 0) (hen : s.mtrace_enable ≠ 0)
    (hsample : s.mtrace_sample = 1) (hmax : s.sampler < 2 ^ 31 - 1)
    (hcpu : env.cpu_index < MAX_CPUS) :
    (∀ sr, mtrace_cline_update_ld
        { s with mtrace_access_count := (s.mtrace_access_count + 1) % UINT64_SIZE }
        addr env.cpu_index = .ok sr →
      ∃ s', mtrace_ld emu env s addr guest_addr retaddr = .ok s' ∧
        ((sr.2 ≠ 0 ∨ s.mtrace_lock_active env.cpu_index ≠ 0) →
          ∃ e, s'.emitted = s.emitted ++ [e] ∧ e.access_type = some mtrace_access_ld ∧
            e.traffic = some sr.2 ∧ e.lock = some (s.mtrace_lock_active env.cpu_index)) ∧
        (¬ (sr.2 ≠ 0 ∨ s.mtrace_lock_active env.cpu_index ≠ 0) → s'.emitted = s.emitted)) ∧
    (∀ sr, mtrace_cline_update_st
        { s with mtrace_access_count := (s.mtrace_access_count + 1) % UINT64_SIZE }
        addr env.cpu_index = .ok sr →
      ∃ s', mtrace_st emu env s addr guest_addr retaddr = .ok s' ∧
        ((sr.2 ≠ 0 ∨ s.mtrace_lock_active env.cpu_index ≠ 0) →
          ∃ e, s'.emitted = s.emitted ++ [e] ∧ e.access_type = some mtrace_access_st ∧
            e.traffic = some sr.2 ∧ e.lock = some (s.mtrace_lock_active env.cpu_index)) ∧
        (¬ (sr.2 ≠ 0 ∨ s.mtrace_lock_active env.cpu_index ≠ 0) → s'.emitted = s.emitted)) ∧
    (∀ cb sr, (cb = IoCallback.notdirty_mem_writel ∨ cb = IoCallback.notdirty_mem_writew ∨
        cb = IoCallback.notdirty_mem_writeb) →
      mtrace_cline_update_st
        { s with mtrace_access_count := (s.mtrace_access_count + 1) % UINT64_SIZE }
        (emu.qemu_get_ram_ptr addr) env.cpu_index = .ok sr →
      ∃ s', mtrace_io_write emu env s cb addr guest_addr retaddr = .ok s' ∧
        ((sr.2 ≠ 0 ∨ s.mtrace_lock_active env.cpu_index ≠ 0) →
          ∃ e, s'.emitted = s.emitted ++ [e] ∧ e.access_type = some mtrace_access_iw ∧
            e.traffic = some sr.2 ∧ e.lock = some (s.mtrace_lock_active env.cpu_index)) ∧
        (¬ (sr.2 ≠ 0 ∨ s.mtrace_lock_active env.cpu_index ≠ 0) → s'.emitted = s.emitted)) ∧
    (∀ cb, ¬ (cb = IoCallback.notdirty_mem_writel ∨ cb = IoCallback.notdirty_mem_writew ∨
        cb = IoCallback.notdirty_mem_writeb) →
      mtrace_io_write emu env s cb addr guest_addr retaddr = .ok s) := by
  have tail : ∀ (type host : Nat) (sr : State × Int),
      (∃ ram, sr.1 =
        { s with mtrace_access_count := (s.mtrace_access_count + 1) % UINT64_SIZE, ram := ram }) →
      ∃ s', access_tail emu env type host guest_addr s.mtrace_access_count retaddr sr = .ok s' ∧
        ((sr.2 ≠ 0 ∨ s.mtrace_lock_active env.cpu_index ≠ 0) →
          ∃ e, s'.emitted = s.emitted ++ [e] ∧ e.access_type = some type ∧
            e.traffic = some sr.2 ∧ e.lock = some (s.mtrace_lock_active env.cpu_index)) ∧
        (¬ (sr.2 ≠ 0 ∨ s.mtrace_lock_active env.cpu_index ≠ 0) → s'.emitted = s.emitted) := by
    intro type host sr hsr
    obtain ⟨ram, hram⟩ := hsr
    obtain ⟨s', hs', hyes, hno⟩ := access_tail_logs emu env type host guest_addr
      s.mtrace_access_count retaddr sr hcpu (by rw [hram]; exact hen) (by rw [hram]; exact hsample)
      (by rw [hram]; exact hmax)
    have hl : sr.1.mtrace_lock_active = s.mtrace_lock_active := by rw [hram]
    have he : sr.1.emitted = s.emitted := by rw [hram]
    rw [hl, he] at hyes hno
    exact ⟨s', hs', fun hc => ⟨_, hyes hc, rfl, rfl, rfl⟩, hno⟩
  refine ⟨?_, ?_, ?_, ?_⟩
  · intro sr hsr
    obtain ⟨ram, hram⟩ := update_ld_fields _ sr.1 _ _ sr.2 hsr
    simp only [mtrace_ld, hsys, if_false, hsr]
    exact tail _ _ sr ⟨ram, hram⟩
  · intro sr hsr
    obtain ⟨ram, hram⟩ := update_st_fields _ sr.1 _ _ sr.2 hsr
    simp only [mtrace_st, hsys, if_false, hsr]
    exact tail _ _ sr ⟨ram, hram⟩
  · intro cb sr hcb hsr
    obtain ⟨ram, hram⟩ := update_st_fields _ sr.1 _ _ sr.2 hsr
    simp only [mtrace_io_write, hsys, if_false, hcb, if_true, hsr]
    exact tail _ _ sr ⟨ram, hram⟩
  · intro cb hcb
    unfold mtrace_io_write
    rw [if_neg hsys, if_neg hcb]

/-- Witness for C16 (amended): in `locked_state` core 1 holds a lock and already
owns the line, so neither its load nor its I/O-mapped write through
`notdirty_mem_writel` is new (the detector returns 0), yet both are logged, with
`traffic` 0 and `lock` 1; its I/O-mapped write through another callback is not. -/
theorem lock_forces_logging_witness :
    (∃ s' e, mtrace_ld demo_emu (cpu_at 1 0) locked_state 4096 0 0 = .ok s' ∧
      s'.emitted = locked_state.emitted ++ [e] ∧ e.access_type = some mtrace_access_ld ∧
      e.traffic = some 0 ∧ e.lock = some 1) ∧
    (∃ s' e, mtrace_io_write demo_emu (cpu_at 1 0) locked_state
        IoCallback.notdirty_mem_writel 4096 0 0 = .ok s' ∧
      s'.emitted = locked_state.emitted ++ [e] ∧ e.access_type = some mtrace_access_iw ∧
      e.traffic = some 0 ∧ e.lock = some 1) ∧
    mtrace_io_write demo_emu (cpu_at 1 0) locked_state (IoCallback.other 0) 4096 0 0 =
      .ok locked_state := by
  have hthm := lock_forces_logging demo_emu (cpu_at 1 0) locked_state 4096 0 0
    (by decide) (by decide) rfl (by decide) (by decide)
  refine ⟨?_, ?_, hthm.2.2.2 (IoCallback.other 0) (by decide)⟩
  · obtain ⟨s', h1, h2, -⟩ := hthm.1 _ rfl
    obtain ⟨e, h3, h4, h5, h6⟩ := h2 (Or.inr (by decide))
    exact ⟨s', e, h1, h3, h4, h5, h6⟩
  · obtain ⟨s', h1, h2, -⟩ := hthm.2.2.1 IoCallback.notdirty_mem_writel _ (Or.inl rfl) rfl
    obtain ⟨e, h3, h4, h5, h6⟩ := h2 (Or.inr (by decide))
    exact ⟨s', e, h1, h3, h4, h5, h6⟩

/-! ## Sampling -/

theorem multiples_below_succ (n k : Nat) (hn : 1 ≤ n) :
    multiples_below n (k + 1) = multiples_below n k + (if k % n = 0 then 1 else 0) := by
  unfold multiples_below
  have hpos : 0 < n := hn
  have h1 : (k + 1 + n - 1) / n = k / n + 1 := by
    have : k + 1 + n - 1 = k + n := by omega
    rw [this, Nat.add_div_right k hpos]
  rw [h1]
  have hk := Nat.div_add_mod k n
  have hr := Nat.mod_lt k hpos
  by_cases h0 : k % n = 0
  · rw [if_pos h0]
    have h2 : (k + n - 1) / n = k / n := by
      have : k + n - 1 = n * (k / n) + (n - 1) := by omega
      rw [this, Nat.mul_add_div hpos, Nat.div_eq_of_lt (show n - 1 < n by omega)]
      rfl
    rw [h2]
  · rw [if_neg h0]
    have h2 : (k + n - 1) / n = k / n + 1 := by
      have hm : n * (k / n + 1) = n * (k / n) + n := by rw [Nat.mul_add, Nat.mul_one]
      have : k + n - 1 = n * (k / n + 1) + (k % n - 1) := by omega
      rw [this, Nat.mul_add_div hpos, Nat.div_eq_of_lt (show k % n - 1 < n by omega)]
    rw [h2]

theorem multiples_below_window (n k : Nat) (hn : 1 ≤ n) :
    multiples_below n (k + n) = multiples_below n k + 1 := by
  unfold multiples_below
  have : k + n + n - 1 = (k + n - 1) + n := by omega
  rw [this, Nat.add_div_right _ hn]

theorem access_dump_call_sampled (emu : Emu) (s : State) (d : DumpArgs) (n k : Nat)
    (hen : s.mtrace_enable ≠ 0) (hn : 1 ≤ n) (hsample : s.mtrace_sample = n)
    (hk : s.sampler = k) (hmax : k + 1 < 2 ^ 31) :
    ∃ u, access_dump_call emu s d = .ok u ∧
      u.mtrace_enable = s.mtrace_enable ∧ u.mtrace_sample = s.mtrace_sample ∧
      u.sampler = (k + 1 : Nat) ∧
      (k % n = 0 → u.emitted = s.emitted ++
        [access_record emu d.env d.type d.host_addr d.guest_addr d.access_count d.retaddr
          d.traffic d.lock]) ∧
      (k % n ≠ 0 → u.emitted = s.emitted) := by
  have hN : 0 < s.mtrace_sample := by
    rw [hsample]
    exact_mod_cast hn
  have h0 : 0 ≤ s.sampler := by
    rw [hk]
    exact Int.natCast_nonneg k
  have hm : s.sampler < 2 ^ 31 - 1 := by
    rw [hk]
    omega
  have htm : Int.tmod s.sampler s.mtrace_sample = ((k % n : Nat) : Int) := by
    rw [hk, hsample, Int.ofNat_tmod]
  unfold access_dump_call
  rw [access_dump_enabled emu d.env s _ _ _ _ _ _ _ hen hN h0 hm, htm]
  by_cases hz : k % n = 0
  · have : ¬ ((k % n : Nat) : Int) ≠ 0 := by
      rw [hz]
      simp
    rw [if_neg this]
    refine ⟨_, rfl, (log_entry_frame _ _).1, (log_entry_frame _ _).2.2.1, ?_,
      fun _ => (log_entry_fields _ _).2.2, fun h => absurd hz h⟩
    rw [(log_entry_frame _ _).2.2.2.1]
    simp only [hk]
    push_cast
    rfl
  · have : ((k % n : Nat) : Int) ≠ 0 := by exact_mod_cast hz
    rw [if_pos this]
    refine ⟨_, rfl, rfl, rfl, ?_, fun h => absurd h hz, fun _ => rfl⟩
    simp only [hk]
    push_cast
    rfl

theorem access_dump_calls_sampled (emu : Emu) (n : Nat) (hn : 1 ≤ n) (ds : List DumpArgs) :
    ∀ (s : State) (k : Nat), s.mtrace_enable ≠ 0 → s.mtrace_sample = n → s.sampler = k →
      k + ds.length < 2 ^ 31 →
      ∃ t, access_dump_calls emu s ds = .ok t ∧
        t.mtrace_enable = s.mtrace_enable ∧ t.mtrace_sample = s.mtrace_sample ∧
        t.sampler = (k + ds.length : Nat) ∧
        t.emitted.length + multiples_below n k =
          s.emitted.length + multiples_below n (k + ds.length) := by
  induction ds with
  | nil =>
    intro s k _ _ hk _
    exact ⟨s, rfl, rfl, rfl, by simpa using hk, rfl⟩
  | cons d ds ih =>
    intro s k hen hsample hk hmax
    simp only [List.length_cons] at hmax
    obtain ⟨u, hu, ue, us, uk, uyes, uno⟩ :=
      access_dump_call_sampled emu s d n k hen hn hsample hk (by omega)
    obtain ⟨t, ht, te, ts, tk, tlen⟩ :=
      ih u (k + 1) (by rw [ue]; exact hen) (by rw [us]; exact hsample) uk (by omega)
    refine ⟨t, by simp only [access_dump_calls, hu, ht], te.trans ue, ts.trans us, ?_, ?_⟩
    · rw [tk, List.length_cons]
      congr 1
      omega
    · have hsucc := multiples_below_succ n k hn
      have hidx : k + (d :: ds).length = k + 1 + ds.length := by
        rw [List.length_cons]
        omega
      rw [hidx]
      by_cases hz : k % n = 0
      · rw [if_pos hz] at hsucc
        have := uyes hz
        have hl : u.emitted.length = s.emitted.length + 1 := by
          rw [this, List.length_append]
          rfl
        omega
      · rw [if_neg hz] at hsucc
        have hl : u.emitted.length = s.emitted.length := by rw [uno hz]
        omega

theorem multiples_below_zero (n : Nat) (hn : 1 ≤ n) : multiples_below n 0 = 0 := by
  unfold multiples_below
  exact Nat.div_eq_of_lt (by omega)

/-- C17. Sample rate: with sample rate `N ≥ 1` and the enable switch on, numbering
from 0 the interesting accesses that reach `mtrace_access_dump` while enabled (the
sampler starts at 0 and stays below `INT_MAX`), every call returns and the `k`-th
emits a record if and only if `k mod N = 0`; so after `k` of them
`⌈k / N⌉` records have been emitted, among any `N` consecutive ones exactly one is
logged, and with `N = 1` all are; a call made while the switch is off changes
nothing and is not counted. -/
theorem sample_rate (emu : Emu) (s : State) (N : Nat) (ds : List DumpArgs) (d : DumpArgs)
    (hen : s.mtrace_enable ≠ 0) (hN : 1 ≤ N) (hsample : s.mtrace_sample = N)
    (hs0 : s.sampler = 0) (hmax : ds.length + 1 < 2 ^ 31) :
    ∃ t u, access_dump_calls emu s ds = .ok t ∧ access_dump_call emu t d = .ok u ∧
      (ds.length % N = 0 → u.emitted = t.emitted ++
        [access_record emu d.env d.type d.host_addr d.guest_addr d.access_count d.retaddr
          d.traffic d.lock]) ∧
      (ds.length % N ≠ 0 → u.emitted = t.emitted) ∧
      t.emitted.length = s.emitted.length + multiples_below N ds.length ∧
      (∀ win : List DumpArgs, win.length = N → ds.length + N < 2 ^ 31 →
        ∃ v, access_dump_calls emu t win = .ok v ∧
          v.emitted.length = t.emitted.length + 1) ∧
      (N = 1 → u.emitted = t.emitted ++
        [access_record emu d.env d.type d.host_addr d.guest_addr d.access_count d.retaddr
          d.traffic d.lock]) ∧
      (∀ (s0 : State) (d0 : DumpArgs), s0.mtrace_enable = 0 →
        access_dump_call emu s0 d0 = .ok s0) := by
  obtain ⟨t, ht, te, ts, tk, tlen⟩ := access_dump_calls_sampled emu N hN ds s 0 hen hsample
    (by rw [hs0]; rfl) (by omega)
  simp only [Nat.zero_add] at tk tlen
  rw [multiples_below_zero N hN, Nat.add_zero] at tlen
  obtain ⟨u, hu, -, -, -, uyes, uno⟩ := access_dump_call_sampled emu t d N ds.length
    (by rw [te]; exact hen) hN (by rw [ts]; exact hsample) tk hmax
  refine ⟨t, u, ht, hu, uyes, uno, tlen, ?_, ?_, ?_⟩
  · intro win hwin hbound
    obtain ⟨v, hv, -, -, -, vlen⟩ := access_dump_calls_sampled emu N hN win t ds.length
      (by rw [te]; exact hen) (by rw [ts]; exact hsample) tk (by omega)
    rw [hwin, multiples_below_window N ds.length hN] at vlen
    exact ⟨v, hv, by omega⟩
  · intro h1
    apply uyes
    rw [h1]
    exact Nat.mod_one _
  · intro s0 d0 h0
    simp only [access_dump_call, mtrace_access_dump, h0, if_true]

/-- Witness for C17: sample rate 3, four interesting accesses already made from
`sampled_state`, and a fifth next. -/
theorem sample_rate_witness :
    ∃ t u, access_dump_calls demo_emu sampled_state (List.replicate 4 demo_dump) = .ok t ∧
      access_dump_call demo_emu t demo_dump = .ok u ∧
      ((List.replicate 4 demo_dump).length % 3 = 0 → u.emitted = t.emitted ++
        [access_record demo_emu demo_dump.env demo_dump.type demo_dump.host_addr
          demo_dump.guest_addr demo_dump.access_count demo_dump.retaddr
          demo_dump.traffic demo_dump.lock]) ∧
      ((List.replicate 4 demo_dump).length % 3 ≠ 0 → u.emitted = t.emitted) ∧
      t.emitted.length =
        sampled_state.emitted.length + multiples_below 3 (List.replicate 4 demo_dump).length ∧
      (∀ win : List DumpArgs, win.length = 3 →
        (List.replicate 4 demo_dump).length + 3 < 2 ^ 31 →
        ∃ v, access_dump_calls demo_emu t win = .ok v ∧
          v.emitted.length = t.emitted.length + 1) ∧
      (3 = 1 → u.emitted = t.emitted ++
        [access_record demo_emu demo_dump.env demo_dump.type demo_dump.host_addr
          demo_dump.guest_addr demo_dump.access_count demo_dump.retaddr
          demo_dump.traffic demo_dump.lock]) ∧
      (∀ (s0 : State) (d0 : DumpArgs), s0.mtrace_enable = 0 →
        access_dump_call demo_emu s0 d0 = .ok s0) :=
  sample_rate demo_emu sampled_state 3 (List.replicate 4 demo_dump) demo_dump
    (by decide) (by decide) rfl rfl (by decide)

/-! ## Guest operation codes -/

/-- C18, counterexample.  In the initial state the system is not enabled
(`mtrace_system_enable = 0`); the guest issues operation code 7, which is not
"register entry", and `mtrace_inst_exec` returns normally with the state unchanged
instead of aborting. -/
theorem unknown_op_counterexample :
    (State.init []).mtrace_system_enable = 0 ∧ 7 ≠ MTRACE_ENTRY_REGISTER ∧
    mtrace_inst_exec demo_emu (cpu_at 0 0) (fun _ => 0) (State.init []) 7 0 0 0 0 0 =
      .ok (State.init []) :=
  ⟨rfl, by decide, rfl⟩

/-- C18 (amended).  With the system enabled, unknown operation codes are fatal: for
every guest-issued operation whose code is anything other than "register entry"
(out of the dispatch table's range or a slot with no handler), `mtrace_inst_exec`
aborts; for the register-entry code it does not abort on that ground and does
exactly what `mtrace_entry_register` does with the remaining five arguments
unchanged. -/
theorem unknown_op_fatal (emu : Emu) (env : CPUX86State) (stale : Nat → Nat) (s : State)
    (a0 a1 a2 a3 a4 a5 : Nat) (hsys : s.mtrace_system_enable ≠ 0) :
    (a0 ≠ MTRACE_ENTRY_REGISTER →
      mtrace_inst_exec emu env stale s a0 a1 a2 a3 a4 a5 = .error .abort) ∧
    (a0 = MTRACE_ENTRY_REGISTER →
      mtrace_inst_exec emu env stale s a0 a1 a2 a3 a4 a5 =
        mtrace_entry_register emu env stale s a1 a2 a3 a4 a5) := by
  constructor
  · intro hne
    simp only [mtrace_inst_exec, hsys, if_false, mtrace_call, hne]
    split_ifs <;> rfl
  · intro heq
    subst heq
    have hin : ¬ MTRACE_ENTRY_REGISTER ≥ mtrace_call_slots := by decide
    simp only [mtrace_inst_exec, hsys, if_false, hin, mtrace_call, if_true]

/-- Witness for C18 (amended): `quiet_state` has the system enabled; code 7 aborts
and the register-entry code dispatches. -/
theorem unknown_op_fatal_witness :
    mtrace_inst_exec demo_emu (cpu_at 0 0) (fun _ => 0) quiet_state 7 0 0 0 0 0 = .error .abort ∧
    mtrace_inst_exec demo_emu (cpu_at 0 0) (fun _ => 0) quiet_state MTRACE_ENTRY_REGISTER
        0 mtrace_entry_access 58 0 0 =
      mtrace_entry_register demo_emu (cpu_at 0 0) (fun _ => 0) quiet_state
        0 mtrace_entry_access 58 0 0 :=
  ⟨(unknown_op_fatal demo_emu (cpu_at 0 0) (fun _ => 0) quiet_state 7 0 0 0 0 0
      (by decide)).1 (by decide),
   (unknown_op_fatal demo_emu (cpu_at 0 0) (fun _ => 0) quiet_state MTRACE_ENTRY_REGISTER
      0 mtrace_entry_access 58 0 0 (by decide)).2 rfl⟩

/-! ## Bitmap bounds -/

/-- C19, counterexample.  With tracking and the system on, the bitmap allocated for
a block of 100 bytes has `100 >> 6 = 1` entry; the address at offset 64 lies inside
the block, its line index is `64 >> 6 = 1`, which is not a valid index into that
bitmap, and the detector's access to it is out of bounds. -/
theorem bitmap_bounds_counterexample :
    mtrace_cline_track_alloc quiet_state false 100 = .ok (some [0]) ∧
    64 < 100 ∧ 64 >>> MTRACE_CLINE_SHIFT = 1 ∧ ¬ (1 < [0].length) ∧
    mtrace_cline_update_ld { quiet_state with ram := one_block 4096 100 (some [0]) }
      (4096 + 64) 0 = .error .undefined :=
  ⟨rfl, by decide, by decide, by decide, rfl⟩

/-- C19 (amended).  Bitmap indexing stays in bounds for blocks made of whole lines:
with tracking and the system enabled, for every block size that is a multiple of
64 and every host address inside the block (`offset < size`),
`mtrace_cline_track_alloc(size)` returns a bitmap of `size >> 6` one-byte entries,
all zero, and the line index `offset >> 6` used by `mtrace_cline_update_ld` and
`mtrace_cline_update_st` is a valid index into it: the detector resolves the
address to that line of the block. -/
theorem bitmap_bounds (s : State) (host size offset : Nat)
    (htrack : s.mtrace_cline_track ≠ 0) (hsys : s.mtrace_system_enable ≠ 0)
    (hsize : size % 64 = 0) (hoff : offset < size) :
    ∃ track, mtrace_cline_track_alloc s false size = .ok (some track) ∧
      track.length = size >>> MTRACE_CLINE_SHIFT ∧
      (∀ x ∈ track, x = 0) ∧
      offset >>> MTRACE_CLINE_SHIFT < track.length ∧
      cline_lookup (one_block host size (some track)) (host + offset) =
        .ok ⟨0, offset >>> MTRACE_CLINE_SHIFT, track, 0⟩ := by
  have hlt : offset >>> MTRACE_CLINE_SHIFT < size >>> MTRACE_CLINE_SHIFT := by
    simp only [MTRACE_CLINE_SHIFT, Nat.shiftRight_eq_div_pow]
    omega
  refine ⟨List.replicate (size >>> MTRACE_CLINE_SHIFT) 0, ?_, List.length_replicate _ _,
    fun x hx => List.eq_of_mem_replicate hx, by rw [List.length_replicate]; exact hlt, ?_⟩
  · simp [mtrace_cline_track_alloc, htrack, hsys]
  · rw [cline_lookup_ok_iff]
    refine ⟨?_, ⟨host, size, _⟩, rfl, ?_, rfl, ?_⟩
    · simp [one_block, qemu_ramblock_from_host, hoff]
    · simp
    · simp only [List.getElem?_replicate, hlt, if_true]

/-- Witness for C19 (amended): a block of two lines (128 bytes) at host address
4096 and the address at offset 100. -/
theorem bitmap_bounds_witness :
    ∃ track, mtrace_cline_track_alloc quiet_state false 128 = .ok (some track) ∧
      track.length = 128 >>> MTRACE_CLINE_SHIFT ∧
      (∀ x ∈ track, x = 0) ∧
      100 >>> MTRACE_CLINE_SHIFT < track.length ∧
      cline_lookup (one_block 4096 128 (some track)) (4096 + 100) =
        .ok ⟨0, 100 >>> MTRACE_CLINE_SHIFT, track, 0⟩ :=
  bitmap_bounds quiet_state 4096 128 100 (by decide) (by decide) (by decide) (by decide)

/-! ## The detector advances whether or not the access is recorded -/

theorem update_ld_indep (s1 s2 : State) (a c : Nat) (sr1 : State × Int)
    (ht : s2.mtrace_cline_track = s1.mtrace_cline_track) (hr : s2.ram = s1.ram)
    (h1 : mtrace_cline_update_ld s1 a c = .ok sr1) :
    ∃ sr2, mtrace_cline_update_ld s2 a c = .ok sr2 ∧ sr2.1.ram = sr1.1.ram ∧ sr2.2 = sr1.2 := by
  unfold mtrace_cline_update_ld at h1 ⊢
  rw [ht, hr]
  split_ifs at h1 ⊢
  · cases h1
    exact ⟨_, rfl, hr, rfl⟩
  · cases hl : cline_lookup s1.ram a with
    | error f => simp [hl] at h1
    | ok ln =>
      simp only [hl] at h1 ⊢
      cases hm : shl_one c with
      | error f => simp [hm] at h1
      | ok m =>
        simp only [hm] at h1 ⊢
        split_ifs at h1 ⊢
        · cases h1
          exact ⟨_, rfl, hr, rfl⟩
        · cases h1
          exact ⟨_, rfl, rfl, rfl⟩

theorem update_st_indep (s1 s2 : State) (a c : Nat) (sr1 : State × Int)
    (ht : s2.mtrace_cline_track = s1.mtrace_cline_track) (hr : s2.ram = s1.ram)
    (h1 : mtrace_cline_update_st s1 a c = .ok sr1) :
    ∃ sr2, mtrace_cline_update_st s2 a c = .ok sr2 ∧ sr2.1.ram = sr1.1.ram ∧ sr2.2 = sr1.2 := by
  unfold mtrace_cline_update_st at h1 ⊢
  rw [ht, hr]
  split_ifs at h1 ⊢
  · cases h1
    exact ⟨_, rfl, hr, rfl⟩
  · cases hl : cline_lookup s1.ram a with
    | error f => simp [hl] at h1
    | ok ln =>
      simp only [hl] at h1 ⊢
      cases hm : shl_one c with
      | error f => simp [hm] at h1
      | ok m =>
        simp only [hm] at h1 ⊢
        split_ifs at h1 ⊢
        · cases h1
          exact ⟨_, rfl, hr, rfl⟩
        · cases h1
          exact ⟨_, rfl, rfl, rfl⟩

theorem access_dump_ram (emu : Emu) (env : CPUX86State) (s s' : State)
    (type host_addr guest_addr a retaddr : Nat) (traffic lock : Int)
    (h : mtrace_access_dump emu env s type host_addr guest_addr a retaddr traffic lock = .ok s') :
    s'.ram = s.ram := by
  unfold mtrace_access_dump at h
  split_ifs at h
  · cases h
    rfl
  · cases h
    rfl
  · cases h
    exact (log_entry_frame _ _).2.2.2.2.1

theorem access_tail_ram (emu : Emu) (env : CPUX86State)
    (type host_addr guest_addr a retaddr : Nat) (sr : State × Int) (s' : State)
    (h : access_tail emu env type host_addr guest_addr a retaddr sr = .ok s') :
    s'.ram = sr.1.ram := by
  unfold access_tail at h
  split at h
  · cases h
  · split_ifs at h
    · exact access_dump_ram emu env _ _ _ _ _ _ _ _ _ h
    · cases h
      rfl

theorem access_tail_silent (emu : Emu) (env : CPUX86State)
    (type host_addr guest_addr a retaddr : Nat) (sr : State × Int)
    (hcpu : env.cpu_index < MAX_CPUS)
    (h : sr.1.mtrace_enable = 0 ∨ (sr.2 = 0 ∧ sr.1.mtrace_lock_active env.cpu_index = 0)) :
    access_tail emu env type host_addr guest_addr a retaddr sr = .ok sr.1 := by
  unfold access_tail
  simp only [lock_active_get, hcpu, if_true]
  split_ifs with hc
  · rcases h with h | ⟨h1, h2⟩
    · simp only [mtrace_access_dump, h, if_true]
    · rcases hc with hc | hc
      · exact absurd h1 hc
      · exact absurd h2 hc
  · rfl

theorem mem_access_ram (emu : Emu) (s s' : State) (op : MemOp)
    (hsys : s.mtrace_system_enable ≠ 0) (h : mem_access emu s op = .ok s') :
    ∃ sr, detector_call
        { s with mtrace_access_count := (s.mtrace_access_count + 1) % UINT64_SIZE }
        (op.kind, op.host_addr, op.env.cpu_index) = .ok sr ∧ s'.ram = sr.1.ram := by
  unfold mem_access at h
  unfold detector_call
  split at h
  · rename_i hk
    simp only [mtrace_ld, hsys, if_false] at h
    split at h
    · cases h
    · rename_i sr hsr
      simp only [hk]
      exact ⟨sr, hsr, access_tail_ram emu _ _ _ _ _ _ sr s' h⟩
  · rename_i hk
    simp only [mtrace_st, hsys, if_false] at h
    split at h
    · cases h
    · rename_i sr hsr
      simp only [hk]
      exact ⟨sr, hsr, access_tail_ram emu _ _ _ _ _ _ sr s' h⟩

theorem detector_call_indep (s1 s2 : State) (c : Access × Nat × Nat) (sr1 sr2 : State × Int)
    (ht : s2.mtrace_cline_track = s1.mtrace_cline_track) (hr : s2.ram = s1.ram)
    (h1 : detector_call s1 c = .ok sr1) (h2 : detector_call s2 c = .ok sr2) :
    sr2.1.ram = sr1.1.ram ∧ sr2.2 = sr1.2 := by
  unfold detector_call at h1 h2
  split at h1
  · rename_i hk
    simp only [hk] at h2
    obtain ⟨x, hx, r1, r2⟩ := update_ld_indep s1 s2 _ _ sr1 ht hr h1
    rw [hx] at h2
    cases h2
    exact ⟨r1, r2⟩
  · rename_i hk
    simp only [hk] at h2
    obtain ⟨x, hx, r1, r2⟩ := update_st_indep s1 s2 _ _ sr1 ht hr h1
    rw [hx] at h2
    cases h2
    exact ⟨r1, r2⟩

theorem access_tail_cpu (emu : Emu) (env : CPUX86State)
    (type host_addr guest_addr a retaddr : Nat) (sr : State × Int) (s' : State)
    (h : access_tail emu env type host_addr guest_addr a retaddr sr = .ok s') :
    env.cpu_index < MAX_CPUS := by
  by_contra hc
  simp [access_tail, lock_active_get, hc] at h

theorem mem_access_cpu (emu : Emu) (s s' : State) (op : MemOp)
    (hsys : s.mtrace_system_enable ≠ 0) (h : mem_access emu s op = .ok s') :
    op.env.cpu_index < MAX_CPUS := by
  unfold mem_access at h
  split at h
  · simp only [mtrace_ld, hsys, if_false] at h
    split at h
    · cases h
    · exact access_tail_cpu emu _ _ _ _ _ _ _ s' h
  · simp only [mtrace_st, hsys, if_false] at h
    split at h
    · cases h
    · exact access_tail_cpu emu _ _ _ _ _ _ _ s' h

theorem access_tail_unrecorded (emu : Emu) (env : CPUX86State)
    (type host_addr guest_addr a retaddr : Nat) (sr : State × Int)
    (hcpu : env.cpu_index < MAX_CPUS) (h : unrecorded sr.1) :
    ∃ s', access_tail emu env type host_addr guest_addr a retaddr sr = .ok s' ∧
      s'.ram = sr.1.ram ∧ s'.emitted = sr.1.emitted ∧
      s'.mtrace_access_count = sr.1.mtrace_access_count := by
  unfold access_tail
  simp only [lock_active_get, hcpu, if_true]
  split_ifs with hc
  · by_cases he : sr.1.mtrace_enable = 0
    · exact ⟨sr.1, by simp only [mtrace_access_dump, he, if_true], rfl, rfl, rfl⟩
    · rcases h with h | ⟨h1, h2, h3, h4⟩
      · exact absurd h he
      · refine ⟨{ sr.1 with sampler := sr.1.sampler + 1 }, ?_, rfl, rfl, rfl⟩
        unfold mtrace_access_dump
        rw [if_neg he, if_neg h1, if_neg h2, if_neg h3]
        simp only [h4, ne_eq, not_false_eq_true, if_true]
  · exact ⟨sr.1, rfl, rfl, rfl, rfl⟩

theorem bitmap_congr (s t : State) (h : t.ram = s.ram) (blk cline : Nat) :
    bitmap t blk cline = bitmap s blk cline := by
  simp only [bitmap, h]

theorem update_st_frame (s s1 : State) (a c : Nat) (r : Int)
    (h : mtrace_cline_update_st s a c = .ok (s1, r)) :
    s1.mtrace_cline_track = s.mtrace_cline_track ∧
    (∀ a', line_of s1.ram a' = line_of s.ram a') ∧
    ∀ blk cline, line_of s.ram a ≠ some (blk, cline) →
      bitmap s1 blk cline = bitmap s blk cline := by
  unfold mtrace_cline_update_st at h
  split at h
  · cases h
    exact ⟨rfl, fun _ => rfl, fun _ _ _ => rfl⟩
  · split at h
    · cases h
    · rename_i ln hln
      split at h
      · cases h
      · rename_i m hm
        split at h
        · cases h
          exact ⟨rfl, fun _ => rfl, fun _ _ _ => rfl⟩
        · cases h
          refine ⟨rfl, fun a' => line_of_store s.ram a a' ln _ hln, ?_⟩
          intro blk cline hne
          rw [bitmap_store s a ln _ blk cline hln]
          have hl : line_of s.ram a = some (ln.blk, ln.cline) := by simp only [line_of, hln]
          rw [if_neg]
          rintro ⟨h1, h2⟩
          exact hne (by rw [hl, h1, h2])

theorem access_dump_track (emu : Emu) (env : CPUX86State) (s s' : State)
    (type host_addr guest_addr a retaddr : Nat) (traffic lock : Int)
    (h : mtrace_access_dump emu env s type host_addr guest_addr a retaddr traffic lock = .ok s') :
    s'.mtrace_cline_track = s.mtrace_cline_track := by
  unfold mtrace_access_dump at h
  split_ifs at h
  · cases h
    rfl
  · cases h
    rfl
  · cases h
    exact (log_entry_frame _ _).2.2.2.2.2.2

theorem access_tail_track (emu : Emu) (env : CPUX86State)
    (type host_addr guest_addr a retaddr : Nat) (sr : State × Int) (s' : State)
    (h : access_tail emu env type host_addr guest_addr a retaddr sr = .ok s') :
    s'.mtrace_cline_track = sr.1.mtrace_cline_track := by
  unfold access_tail at h
  split at h
  · cases h
  · split_ifs at h
    · exact access_dump_track emu env _ _ _ _ _ _ _ _ _ h
    · cases h
      rfl

theorem register_host_ram (env : CPUX86State) (s : State) (rest : List Nat)
    (sr : State × List Nat) (h : register_host env s rest = .ok sr) :
    sr.1.ram = s.ram ∧ sr.1.mtrace_cline_track = s.mtrace_cline_track := by
  unfold register_host at h
  simp only at h
  split_ifs at h <;> cases h <;> exact ⟨rfl, rfl⟩

theorem entry_register_ram (emu : Emu) (env : CPUX86State) (stale : Nat → Nat)
    (s s' : State) (entry_addr type len cpu n5 : Nat)
    (h : mtrace_entry_register emu env stale s entry_addr type len cpu n5 = .ok s') :
    s'.ram = s.ram ∧ s'.mtrace_cline_track = s.mtrace_cline_track := by
  unfold mtrace_entry_register at h
  by_cases hbig : len > sizeof_mtrace_entry
  · rw [if_pos hbig] at h
    cases h
    exact ⟨rfl, rfl⟩
  · rw [if_neg hbig] at h
    cases hcopy : cpu_memory_rw_debug emu entry_addr len with
    | none =>
      simp only [hcopy] at h
      cases h
      exact ⟨rfl, rfl⟩
    | some copied =>
      simp only [hcopy] at h
      cases hts : mtrace_get_percore_tsc s env 0 with
      | error f => simp [hts] at h
      | ok ts =>
        simp only [hts] at h
        generalize (if type = mtrace_entry_label then
          register_label emu ((entry_after_copy copied stale).drop HEADER_BYTES)
          else some ((entry_after_copy copied stale).drop HEADER_BYTES)) = r at h
        cases r with
        | none =>
          simp only at h
          cases h
          exact ⟨rfl, rfl⟩
        | some rest1 =>
          simp only at h
          by_cases hhost : type = mtrace_entry_host
          · rw [if_pos hhost] at h
            cases hsr : register_host env s rest1 with
            | error f => simp [hsr] at h
            | ok sr =>
              simp only [hsr, Except.ok.injEq] at h
              subst h
              obtain ⟨r1, t1⟩ := register_host_ram env s rest1 sr hsr
              exact ⟨by rw [(log_entry_frame _ _).2.2.2.2.1, r1],
                by rw [(log_entry_frame _ _).2.2.2.2.2.2, t1]⟩
          · rw [if_neg hhost] at h
            simp only [Except.ok.injEq] at h
            subst h
            exact ⟨(log_entry_frame _ _).2.2.2.2.1, (log_entry_frame _ _).2.2.2.2.2.2⟩

theorem tracer_step_keeps (emu : Emu) (ram0 : List RAMBlock) (blk cline cpu : Nat)
    (hcpu : cpu < 8) (s s' : State) (op : TracerOp)
    (h : tracer_step emu s op = .ok s')
    (hl : ∀ a, line_of s.ram a = line_of ram0 a)
    (hno : ¬ op.stores_to emu ram0 blk cline)
    (hbit : ∃ b, bitmap s blk cline = some b ∧ b.testBit cpu = true) :
    s'.mtrace_cline_track = s.mtrace_cline_track ∧
    (∀ a, line_of s'.ram a = line_of ram0 a) ∧
    ∃ b', bitmap s' blk cline = some b' ∧ b'.testBit cpu = true := by
  have same : s'.ram = s.ram → s'.mtrace_cline_track = s.mtrace_cline_track →
      s'.mtrace_cline_track = s.mtrace_cline_track ∧
      (∀ a, line_of s'.ram a = line_of ram0 a) ∧
      ∃ b', bitmap s' blk cline = some b' ∧ b'.testBit cpu = true := by
    intro hr ht
    refine ⟨ht, fun a => by rw [hr]; exact hl a, ?_⟩
    obtain ⟨b, hb, hbt⟩ := hbit
    exact ⟨b, by rw [bitmap_congr s s' hr]; exact hb, hbt⟩
  have ld : ∀ (s1 : State) (a c : Nat) (sr : State × Int), s1.ram = s.ram →
      s1.mtrace_cline_track = s.mtrace_cline_track →
      mtrace_cline_update_ld s1 a c = .ok sr →
      s'.ram = sr.1.ram → s'.mtrace_cline_track = sr.1.mtrace_cline_track →
      s'.mtrace_cline_track = s.mtrace_cline_track ∧
      (∀ a, line_of s'.ram a = line_of ram0 a) ∧
      ∃ b', bitmap s' blk cline = some b' ∧ b'.testBit cpu = true := by
    intro s1 a c sr r1 t1 hsr hr ht
    obtain ⟨f1, f2, f3⟩ := update_ld_frame s1 sr.1 a c sr.2 hsr
    obtain ⟨b, hb, hbt⟩ := hbit
    obtain ⟨b1, hb1, hbb⟩ := f3 blk cline b (by rw [bitmap_congr s s1 r1]; exact hb)
    refine ⟨by rw [ht, f1, t1], fun a' => by rw [hr, f2, r1]; exact hl a', ?_⟩
    exact ⟨b1, by rw [bitmap_congr sr.1 s' hr]; exact hb1, hbb cpu hcpu hbt⟩
  have st : ∀ (s1 : State) (a c : Nat) (sr : State × Int), s1.ram = s.ram →
      s1.mtrace_cline_track = s.mtrace_cline_track →
      line_of ram0 a ≠ some (blk, cline) →
      mtrace_cline_update_st s1 a c = .ok sr →
      s'.ram = sr.1.ram → s'.mtrace_cline_track = sr.1.mtrace_cline_track →
      s'.mtrace_cline_track = s.mtrace_cline_track ∧
      (∀ a, line_of s'.ram a = line_of ram0 a) ∧
      ∃ b', bitmap s' blk cline = some b' ∧ b'.testBit cpu = true := by
    intro s1 a c sr r1 t1 hne hsr hr ht
    obtain ⟨f1, f2, f3⟩ := update_st_frame s1 sr.1 a c sr.2 hsr
    obtain ⟨b, hb, hbt⟩ := hbit
    have hb1 : bitmap sr.1 blk cline = some b := by
      rw [f3 blk cline (by rw [r1, hl a]; exact hne), bitmap_congr s s1 r1]
      exact hb
    refine ⟨by rw [ht, f1, t1], fun a' => by rw [hr, f2, r1]; exact hl a', ?_⟩
    exact ⟨b, by rw [bitmap_congr sr.1 s' hr]; exact hb1, hbt⟩
  cases op with
  | access op =>
    simp only [tracer_step, mem_access] at h
    by_cases hsys : s.mtrace_system_enable = 0
    · have hs : s' = s := by
        split at h
        · simp only [mtrace_ld, hsys, if_true, Except.ok.injEq] at h
          exact h.symm
        · simp only [mtrace_st, hsys, if_true, Except.ok.injEq] at h
          exact h.symm
      subst hs
      exact same rfl rfl
    · split at h
      · simp only [mtrace_ld, hsys, if_false] at h
        split at h
        · cases h
        · rename_i sr hsr
          exact ld
            { s with mtrace_access_count := (s.mtrace_access_count + 1) % UINT64_SIZE }
            _ _ sr rfl rfl hsr (access_tail_ram emu _ _ _ _ _ _ sr s' h)
            (access_tail_track emu _ _ _ _ _ _ sr s' h)
      · rename_i hk
        simp only [mtrace_st, hsys, if_false] at h
        split at h
        · cases h
        · rename_i sr hsr
          exact st
            { s with mtrace_access_count := (s.mtrace_access_count + 1) % UINT64_SIZE }
            _ _ sr rfl rfl (fun hc => hno ⟨hk, hc⟩) hsr
            (access_tail_ram emu _ _ _ _ _ _ sr s' h)
            (access_tail_track emu _ _ _ _ _ _ sr s' h)
  | io_write env cb ram_addr guest_addr retaddr =>
    simp only [tracer_step, mtrace_io_write] at h
    split_ifs at h with hsys hcb
    · cases h
      exact same rfl rfl
    · split at h
      · cases h
      · rename_i sr hsr
        exact st
          { s with mtrace_access_count := (s.mtrace_access_count + 1) % UINT64_SIZE }
          _ _ sr rfl rfl (fun hc => hno ⟨hcb, hc⟩) hsr
          (access_tail_ram emu _ _ _ _ _ _ sr s' h)
          (access_tail_track emu _ _ _ _ _ _ sr s' h)
    · cases h
      exact same rfl rfl
  | call env stale_ts target_pc return_pc ret =>
    simp only [tracer_step, mtrace_inst_call] at h
    split_ifs at h
    · cases h
      exact same rfl rfl
    · cases h
      exact same rfl rfl
    · cases h
      exact same (log_entry_frame _ _).2.2.2.2.1 (log_entry_frame _ _).2.2.2.2.2.2
  | exec env stale a0 a1 a2 a3 a4 a5 =>
    simp only [tracer_step, mtrace_inst_exec] at h
    split_ifs at h
    · cases h
      exact same rfl rfl
    · split at h
      · cases h
      · obtain ⟨r1, t1⟩ := entry_register_ram emu env stale s s' a1 a2 a3 a4 a5 h
        exact same r1 t1
  | lock_start env =>
    simp only [tracer_step, mtrace_lock_start] at h
    split_ifs at h <;> cases h <;> exact same rfl rfl
  | lock_stop env =>
    simp only [tracer_step, mtrace_lock_stop] at h
    split_ifs at h <;> cases h <;> exact same rfl rfl
  | exec_start env =>
    simp only [tracer_step, mtrace_exec_start] at h
    split_ifs at h
    cases h
    exact same rfl rfl
  | exec_stop env =>
    simp only [tracer_step, mtrace_exec_stop] at h
    split_ifs at h
    cases h
    exact same rfl rfl

theorem tracer_run_keeps (emu : Emu) (ram0 : List RAMBlock) (blk cline cpu : Nat)
    (hcpu : cpu < 8) (ops : List TracerOp) :
    ∀ s s' : State, tracer_run emu s ops = .ok s' →
      (∀ a, line_of s.ram a = line_of ram0 a) →
      (∀ op ∈ ops, ¬ op.stores_to emu ram0 blk cline) →
      (∃ b, bitmap s blk cline = some b ∧ b.testBit cpu = true) →
      s'.mtrace_cline_track = s.mtrace_cline_track ∧
      (∀ a, line_of s'.ram a = line_of ram0 a) ∧
      ∃ b', bitmap s' blk cline = some b' ∧ b'.testBit cpu = true := by
  induction ops with
  | nil =>
    intro s s' h hl _ hbit
    simp only [tracer_run, Except.ok.injEq] at h
    subst h
    exact ⟨rfl, hl, hbit⟩
  | cons op ops ih =>
    intro s s' h hl hno hbit
    simp only [tracer_run] at h
    split at h
    · cases h
    · rename_i s1 h1
      obtain ⟨t1, l1, b1⟩ := tracer_step_keeps emu ram0 blk cline cpu hcpu s s1 op h1 hl
        (hno op (List.mem_cons_self _ _)) hbit
      obtain ⟨t2, l2, b2⟩ := ih s1 s' h l1 (fun x hx => hno x (List.mem_cons_of_mem _ hx)) b1
      exact ⟨t2.trans t1, l2, b2⟩

/-- C20, counterexample.  Core 8 loads from a zeroed line while `mtrace_enable` is
off: no record is emitted.  The switch is then turned on and core 8 loads from the
same line again, holding no lock and with no store in between: this load does emit
a record, since core 8 has no bit in the line's one-byte bitmap and the detector
reports every one of its accesses as new. -/
theorem detector_advances_counterexample :
    ∃ s1 s3,
      quiet_state.mtrace_enable = 0 ∧ quiet_state.mtrace_lock_active 8 = 0 ∧
      mtrace_ld demo_emu (cpu_at 8 0) quiet_state 4096 0 0 = .ok s1 ∧
      s1.emitted = quiet_state.emitted ∧
      mtrace_ld demo_emu (cpu_at 8 0) { s1 with mtrace_enable := 1 } 4096 0 0 = .ok s3 ∧
      s3.emitted.length = s1.emitted.length + 1 :=
  ⟨_, _, rfl, rfl, rfl, rfl, rfl, rfl⟩

/-- C20 (amended).  The sharing detector's state advances whether or not the access
is recorded: with the system enabled, whenever `mtrace_ld` or `mtrace_st` returns
in one state, the same call made with the enable switch off or sampled out, in a
state with the same bitmaps and access counter, returns too, emits nothing, and
leaves the same bitmaps and the same access counter as the first (whether that one
logged the access or not); hence, with cache-line tracking enabled and for a core
the line's one-byte bitmap has a bit for (`cpu < 8`), a load of a line made while
`mtrace_enable` is off emits no record, and after any tracer operations that
return and hold no store to that line (loads by any core of any line, stores to
other lines, call events, guest registrations, also the one that turns the switch
on, lock and scheduling events), the same core's next load of that line, made with
no lock held, however the switch, the sample rate and the other cores' lock flags
stand, emits no record either. -/
theorem detector_advances_unrecorded (emu : Emu) :
    (∀ (s1 s2 s1' : State) (op : MemOp),
      s1.mtrace_system_enable ≠ 0 → s2.mtrace_system_enable ≠ 0 →
      s2.mtrace_cline_track = s1.mtrace_cline_track → s2.ram = s1.ram →
      s2.mtrace_access_count = s1.mtrace_access_count →
      mem_access emu s1 op = .ok s1' → unrecorded s2 →
      ∃ s2', mem_access emu s2 op = .ok s2' ∧ s2'.emitted = s2.emitted ∧
        s2'.ram = s1'.ram ∧ s2'.mtrace_access_count = s1'.mtrace_access_count) ∧
    (∀ (s : State) (env : CPUX86State) (a guest_addr retaddr blk cline b : Nat),
      s.mtrace_system_enable ≠ 0 → s.mtrace_enable = 0 → s.mtrace_cline_track ≠ 0 →
      env.cpu_index < 8 →
      line_of s.ram a = some (blk, cline) → bitmap s blk cline = some b →
      ∃ s1, mtrace_ld emu env s a guest_addr retaddr = .ok s1 ∧ s1.emitted = s.emitted ∧
        ∀ (ops : List TracerOp) (s2 s3 : State) (env2 : CPUX86State)
          (a2 guest_addr2 retaddr2 : Nat),
          tracer_run emu s1 ops = .ok s2 →
          (∀ op ∈ ops, ¬ op.stores_to emu s.ram blk cline) →
          s3.ram = s2.ram → s3.mtrace_cline_track = s2.mtrace_cline_track →
          s3.mtrace_lock_active env.cpu_index = 0 →
          env2.cpu_index = env.cpu_index →
          line_of s.ram a2 = some (blk, cline) →
          ∃ s4, mtrace_ld emu env2 s3 a2 guest_addr2 retaddr2 = .ok s4 ∧
            s4.emitted = s3.emitted) := by
  constructor
  · intro s1 s2 s1' op hs1 hs2 ht hr hc h1 hun
    have hcpu := mem_access_cpu emu s1 s1' op hs1 h1
    obtain ⟨sr1, d1, r1⟩ := mem_access_ram emu s1 s1' op hs1 h1
    have hc1 := (mem_access_fields emu s1 s1' op hs1 h1).1
    unfold detector_call at d1
    unfold mem_access
    cases hk : op.kind with
    | load =>
      simp only [hk] at d1
      obtain ⟨sr2, d2, e2, -⟩ := update_ld_indep
        { s1 with mtrace_access_count := (s1.mtrace_access_count + 1) % UINT64_SIZE }
        { s2 with mtrace_access_count := (s2.mtrace_access_count + 1) % UINT64_SIZE }
        _ _ sr1 ht hr d1
      obtain ⟨ram, hram⟩ := update_ld_fields _ sr2.1 _ _ sr2.2 d2
      obtain ⟨s2', t1, t2, t3, t4⟩ := access_tail_unrecorded emu op.env mtrace_access_ld
        op.host_addr op.guest_addr s2.mtrace_access_count op.retaddr sr2 hcpu
        (by rw [hram]; exact hun)
      refine ⟨s2', ?_, ?_, ?_, ?_⟩
      · simp only [mtrace_ld, hs2, if_false, d2]
        exact t1
      · rw [t3, hram]
      · rw [t2, e2, r1]
      · rw [t4, hram, hc1, ← hc]
    | store =>
      simp only [hk] at d1
      obtain ⟨sr2, d2, e2, -⟩ := update_st_indep
        { s1 with mtrace_access_count := (s1.mtrace_access_count + 1) % UINT64_SIZE }
        { s2 with mtrace_access_count := (s2.mtrace_access_count + 1) % UINT64_SIZE }
        _ _ sr1 ht hr d1
      obtain ⟨ram, hram⟩ := update_st_fields _ sr2.1 _ _ sr2.2 d2
      obtain ⟨s2', t1, t2, t3, t4⟩ := access_tail_unrecorded emu op.env mtrace_access_st
        op.host_addr op.guest_addr s2.mtrace_access_count op.retaddr sr2 hcpu
        (by rw [hram]; exact hun)
      refine ⟨s2', ?_, ?_, ?_, ?_⟩
      · simp only [mtrace_st, hs2, if_false, d2]
        exact t1
      · rw [t3, hram]
      · rw [t2, e2, r1]
      · rw [t4, hram, hc1, ← hc]
  · intro s env a guest_addr retaddr blk cline b hsys hen htrack hcpu hline hb
    have hcpu31 : env.cpu_index < 31 := by omega
    have hcpu255 : env.cpu_index < MAX_CPUS := by
      simp only [MAX_CPUS]
      omega
    obtain ⟨sB, eB, -, tB, lB, bB, -⟩ := update_ld_line
      { s with mtrace_access_count := (s.mtrace_access_count + 1) % UINT64_SIZE }
      a env.cpu_index blk cline b htrack hcpu31 hline hb
    obtain ⟨ram, hram⟩ := update_ld_fields _ sB _ _ _ eB
    have hset : ∃ x, bitmap sB blk cline = some x ∧ x.testBit env.cpu_index = true := by
      cases hbit : b.testBit env.cpu_index with
      | true => exact ⟨b, by simpa [hbit] using bB, hbit⟩
      | false =>
        refine ⟨(b ||| 1 <<< env.cpu_index) % UINT8_SIZE, by simpa [hbit] using bB, ?_⟩
        have h8 : UINT8_SIZE = 2 ^ 8 := rfl
        rw [h8, Nat.testBit_mod_two_pow, Nat.testBit_or, Nat.one_shiftLeft,
          Nat.testBit_two_pow_self]
        simp [hcpu]
    obtain ⟨x, hx, hxbit⟩ := hset
    refine ⟨sB, ?_, by rw [hram], ?_⟩
    · simp only [mtrace_ld, hsys, if_false, eB]
      exact access_tail_silent emu env _ _ _ _ _ _ hcpu255 (Or.inl (by rw [hram]; exact hen))
    · intro ops s2 s3 env2 a2 guest_addr2 retaddr2 hrun hno hr3 ht3 hlock henv ha2
      obtain ⟨t2, l2, y, hy, hybit⟩ := tracer_run_keeps emu s.ram blk cline env.cpu_index hcpu
        ops sB s2 hrun lB hno ⟨x, hx, hxbit⟩
      by_cases hs3 : s3.mtrace_system_enable = 0
      · exact ⟨s3, by simp only [mtrace_ld, hs3, if_true], rfl⟩
      · have hk : ({ s3 with mtrace_access_count :=
            (s3.mtrace_access_count + 1) % UINT64_SIZE } : State).mtrace_cline_track ≠ 0 := by
          show s3.mtrace_cline_track ≠ 0
          rw [ht3, t2, tB]
          exact htrack
        have hl : line_of ({ s3 with mtrace_access_count :=
            (s3.mtrace_access_count + 1) % UINT64_SIZE } : State).ram a2 = some (blk, cline) := by
          show line_of s3.ram a2 = some (blk, cline)
          rw [hr3, l2]
          exact ha2
        have hbm : bitmap ({ s3 with mtrace_access_count :=
            (s3.mtrace_access_count + 1) % UINT64_SIZE } : State) blk cline = some y := by
          rw [← hy]
          simp only [bitmap, hr3]
        obtain ⟨sD, eD, sameD, -⟩ := update_ld_line _ a2 env.cpu_index blk cline y hk hcpu31 hl hbm
        simp only [hybit, if_true] at eD
        rw [sameD hybit] at eD
        refine ⟨{ s3 with mtrace_access_count :=
            (s3.mtrace_access_count + 1) % UINT64_SIZE }, ?_, rfl⟩
        simp only [mtrace_ld, hs3, if_false, henv, eD]
        exact access_tail_silent emu env2 _ _ _ _ _ _ (by rw [henv]; exact hcpu255)
          (Or.inr ⟨rfl, by rw [henv]; exact hlock⟩)

set_option maxRecDepth 100000 in
/-- Witness for C20 (amended): core 3 loads from the zeroed first line of
`quiet_state`.  With the switch on the load emits a record; with the switch off
it returns, emits nothing and leaves the same bitmaps and the same counter.  After
the load made with the switch off, `quiet_trace` runs: core 5 loads from the second
line, whose bitmap becomes 32, and from the first line, whose bitmap becomes 40, and
the guest turns the switch on; core 3's next load of the first line (at address
4100) then emits nothing. -/
theorem detector_advances_unrecorded_witness :
    (∃ s1 s2, mem_access demo_emu { quiet_state with mtrace_enable := 1 } (load_at 3) = .ok s1 ∧
      s1.emitted.length = 1 ∧
      mem_access demo_emu quiet_state (load_at 3) = .ok s2 ∧ s2.emitted = quiet_state.emitted ∧
      s2.ram = s1.ram ∧ s2.mtrace_access_count = s1.mtrace_access_count) ∧
    (∃ s1, mtrace_ld host_emu (cpu_at 3 0) quiet_state 4096 0 0 = .ok s1 ∧
      s1.emitted = quiet_state.emitted ∧
      ∃ s2, tracer_run host_emu s1 quiet_trace = .ok s2 ∧
        s2.mtrace_enable = 1 ∧ bitmap s2 0 0 = some 40 ∧ bitmap s2 0 1 = some 32 ∧
        ∃ s4, mtrace_ld host_emu (cpu_at 3 0) s2 4100 0 0 = .ok s4 ∧
          s4.emitted = s2.emitted) := by
  refine ⟨?_, ?_⟩
  · obtain ⟨s2, g1, g2, g3, g4⟩ := (detector_advances_unrecorded demo_emu).1
      { quiet_state with mtrace_enable := 1 } quiet_state _ (load_at 3)
      (by decide) (by decide) rfl rfl rfl rfl (Or.inl rfl)
    exact ⟨_, s2, rfl, rfl, g1, g2, g3, g4⟩
  · obtain ⟨s1, h1, h2, h3⟩ := (detector_advances_unrecorded host_emu).2 quiet_state
      (cpu_at 3 0) 4096 0 0 0 0 0 (by decide) rfl (by decide) (by decide) (by decide) (by decide)
    injection h1 with h1
    subst h1
    exact ⟨_, rfl, h2, _, rfl, rfl, rfl, rfl,
      h3 quiet_trace _ _ (cpu_at 3 0) 4100 0 0 rfl (by decide) rfl rfl rfl rfl (by decide)⟩

end Mtrace
